import Mathlib

/-!
# Nabla SPIR-V introspector: arena, cache keys, stage results and the pipeline aggregator

A shallow embedding of `include/nbl/asset/utils/CSPIRVIntrospector.h`.

Conventions of the embedding

* `size_t` values are natural numbers; every `size_t` addition or multiplication the
  source performs is reduced modulo `2^64` (`SIZE_MOD`).
* A `core::vector<char>` is a `List Byte`; growing a vector is assumed to succeed
  (no `std::length_error`, no `std::bad_alloc`).
* A pointer that may be null is an `Option`; a function whose C++ body dereferences a
  null pointer on some path returns `none` on that path (undefined behaviour), and so does
  a function that returns a reference to a destroyed temporary. The pointer that
  `based_offset` resolves to is its 64 bit address, with 0 for `nullptr`.
* Enumerator values declared in headers that are not part of the sources
  (`IShader::E_SHADER_STAGE`, `IShader::E_CONTENT_TYPE`) are taken as parameters.
* A `const SType*` of a finished stage result is an address, dereferenced through a memory
  `Nat → Option SType`.
* `CPipelineIntrospectionData::merge` and `createPushConstantRangesFromIntrospection` are
  declared in the header and defined elsewhere; their definitions here follow the
  specification and say so.
-/

set_option autoImplicit false

namespace nbl

/-- One `char` / `uint8_t` of storage. -/
abbrev Byte := Fin 256

/-- Number of distinct `size_t` values on the 64 bit targets of the engine. -/
def SIZE_MOD : Nat := 2 ^ 64

namespace core

/-- Standard `std::vector<char>::resize(n)`: truncates to the first `n` elements, or appends
value-initialised (zero) elements until the size is `n`. -/
def resize (v : List Byte) (n : Nat) : List Byte :=
  if n ≤ v.length then v.take n else v ++ List.replicate (n - v.length) 0

/-- The reserved sentinel `based_offset<T>::InvalidOffset = ~0ull`. -/
def InvalidOffset : Nat := 2 ^ 64 - 1

/-- Embedding of `core::based_offset<T>`: a byte offset relative to a base pointer supplied
at read time. The element size `sizeof(T)` is only needed by `operator+` and is passed there. -/
structure based_offset where
  m_byteOffset : Nat := InvalidOffset
  deriving DecidableEq, Repr

namespace based_offset

/-- Source: `explicit operator bool() const {return m_byteOffset!=InvalidOffset;}` -/
def toBool (o : based_offset) : Bool :=
  o.m_byteOffset != InvalidOffset

/-- Source: `T* operator()(void* newBase) const`: `retval = nullptr; if (bool(*this)) retval = newBase+m_byteOffset;`.
Pointers are their 64 bit addresses, `nullptr` is the address 0, and adding the `size_t`
offset to the byte pointer wraps at `2^64`. -/
def resolve (o : based_offset) (newBase : Nat) : Nat :=
  if o.toBool then (newBase + o.m_byteOffset) % SIZE_MOD else 0

/-- Source: `based_offset<T> operator+(const size_t extraOff) const {return {sizeof(T)*extraOff+m_byteOffset};}` -/
def add (sizeofT : Nat) (o : based_offset) (extraOff : Nat) : based_offset :=
  { m_byteOffset := (sizeofT * extraOff % SIZE_MOD + o.m_byteOffset) % SIZE_MOD }

/-- Source: `auto byte_offset() const {return m_byteOffset;}` -/
def byte_offset (o : based_offset) : Nat := o.m_byteOffset

end based_offset

/-- Embedding of `core::based_span<T>`: byte offset plus element count; default is `{~0ull, 0}`. -/
structure based_span where
  m_byteOffset : Nat := 2 ^ 64 - 1
  m_size : Nat := 0
  deriving DecidableEq, Repr

namespace based_span

/-- Source: `bool empty() const {return m_size==0ull;}` -/
def empty (s : based_span) : Bool := s.m_size == 0

/-- Source: `std::span<T> operator()(void* newBase) const`: data pointer (`none` = `nullptr` for an
empty span) and element count. -/
def resolve (s : based_span) (newBase : Nat) : Option Nat × Nat :=
  (if !s.empty then some (newBase + s.m_byteOffset) else none, s.m_size)

/-- Source: `auto byte_offset() const {return m_byteOffset;}` -/
def byte_offset (s : based_span) : Nat := s.m_byteOffset

end based_span

/-- A live reference-counted object: where it lives (its identity) and what it holds. -/
structure Object (α : Type) where
  address : Nat
  value : α
  deriving DecidableEq, Repr

/-- Embedding of `core::smart_refctd_ptr<const T>`: `none` is the null pointer. -/
abbrev smart_refctd_ptr (α : Type) := Option (Object α)

end core

namespace asset

/-- Embedding of `ICPUShader` as far as the introspector reads it: `getStage()`,
`getContentType()` and the bytes of `getContent()` (`getSize()` is their number). -/
structure ICPUShader where
  stage : Nat
  contentType : Nat
  content : List Byte
  deriving DecidableEq, Repr

/-- Standard `memcmp(p, q, n)`: zero when the first `n` bytes agree, otherwise the
difference of the first pair of bytes that differ. -/
def memcmp : List Byte → List Byte → Nat → Int
  | a :: p, b :: q, n + 1 => if a = b then memcmp p q n else (a.val : Int) - (b.val : Int)
  | _, _, _ => 0

namespace CIntrospectionData

/-- Embedding of `CIntrospectionData::SArrayInfo`: the 32 bit word of the union; the bit-field
view puts `specID` in bits 0..30 and `isSpecConstant` in bit 31. -/
structure SArrayInfo where
  value : Nat := 0
  deriving DecidableEq, Repr

namespace SArrayInfo

/-- Bit-field read `specID : 31`. -/
def specID (a : SArrayInfo) : Nat := a.value % 2 ^ 31

/-- Bit-field read `isSpecConstant : 1`. -/
def isSpecConstant (a : SArrayInfo) : Bool := a.value / 2 ^ 31 % 2 == 1

/-- Assignment `a.specID = v`: the value is truncated to 31 bits, bit 31 is kept. -/
def setSpecID (a : SArrayInfo) (v : Nat) : SArrayInfo :=
  { value := a.value / 2 ^ 31 % 2 * 2 ^ 31 + v % 2 ^ 31 }

/-- Assignment `a.isSpecConstant = b`: bits 0..30 are kept. -/
def setIsSpecConstant (a : SArrayInfo) (b : Bool) : SArrayInfo :=
  { value := (if b then 2 ^ 31 else 0) + a.value % 2 ^ 31 }

/-- Source: `bool isRuntimeSized() const {return !isSpecConstant && value==0;}` -/
def isRuntimeSized (a : SArrayInfo) : Bool := !a.isSpecConstant && a.value == 0

end SArrayInfo

end CIntrospectionData

namespace CStageIntrospectionData

open CIntrospectionData

/-- Source: `enum class VAR_TYPE : uint8_t`. -/
inductive VAR_TYPE where
  | UNKNOWN_OR_STRUCT | U64 | I64 | U32 | I32 | U16 | I16 | U8 | I8 | F64 | F32 | F16
  deriving DecidableEq, Repr

/-- Source: `struct SInterface`. -/
structure SInterface where
  location : Nat
  elements : Nat
  baseType : VAR_TYPE
  deriving DecidableEq, Repr

/-- Source: `struct SInputInterface final : SInterface {}`. -/
structure SInputInterface extends SInterface
  deriving DecidableEq, Repr

/-- Source: `struct SOutputInterface : SInterface {}`. -/
structure SOutputInterface extends SInterface
  deriving DecidableEq, Repr

/-- Source: `struct SFragmentOutputInterface final : SOutputInterface`, with the colour index
for dual source blending. -/
structure SFragmentOutputInterface extends SOutputInterface where
  colorIndex : Nat
  deriving DecidableEq, Repr

/-- Source: `struct SParams`: entry point name and shader pointer. -/
structure SParams where
  entryPoint : String
  shader : core.smart_refctd_ptr ICPUShader
  deriving DecidableEq, Repr

namespace SParams

/-- Source: `bool SParams::operator==(const SParams& rhs) const`. The right-hand shader is
null-checked, the left-hand one is dereferenced unchecked: `none` is that null dereference. -/
def eq (lhs rhs : SParams) : Option Bool :=
  if lhs.entryPoint ≠ rhs.entryPoint then some false
  else
    match rhs.shader with
    | none => some false
    | some r =>
      match lhs.shader with
      | none => none
      | some l =>
        if l.value.stage ≠ r.value.stage then some false
        else if l.value.contentType ≠ r.value.contentType then some false
        else if l.value.content.length ≠ r.value.content.length then some false
        else some (memcmp l.value.content r.value.content l.value.content.length == 0)

end SParams

/-- Source: `struct STypeInfo`, the bit-fields as numbers and flags with their default
member initialisers. -/
structure STypeInfo where
  lastRow : Nat := 0
  lastCol : Nat := 0
  rowMajor : Bool := true
  stride : Nat := 0
  type : VAR_TYPE := .UNKNOWN_OR_STRUCT
  restrict_ : Bool := false
  aliased : Bool := false
  deriving DecidableEq, Repr

/-- Source: `struct SType<false>`, the read-only view of a type node. A `const SType*` is
the address of the node (`none` is `nullptr`), dereferenced through a memory
`Nat → Option SType`; a `std::span` is the list of its elements; the five per-member
arrays behind `memberInfoStorage` are the lists of the elements stored there, and reading
one past its end yields nothing (undefined behaviour). -/
structure SType where
  typeName : List Byte := []
  count : List SArrayInfo := []
  info : STypeInfo := {}
  memberCount : Nat := 0
  memberTypes : List (Option Nat) := []
  memberNames : List (List Byte) := []
  memberSizes : List Nat := []
  memberOffsets : List Nat := []
  memberStrides : List Nat := []
  deriving DecidableEq, Repr

/-- Source: `bool SType::isArray() const {return !count.empty();}` -/
def SType.isArray (t : SType) : Bool := !t.count.isEmpty

/-- Source: `struct SMemoryBlock<false>`: `type_ptr<> type = nullptr`. -/
structure SMemoryBlock where
  type : Option Nat := none
  deriving DecidableEq, Repr

/-- Source: `struct SPushConstantInfo<false> : SMemoryBlock<false>`; `offset` and `size` are
`uint8_t`. -/
structure SPushConstantInfo extends SMemoryBlock where
  name : List Byte := []
  offset : Nat := 0
  size : Nat := 0
  deriving DecidableEq, Repr

/-- Source: `bool SPushConstantInfo::present() const {return SMemoryBlock<Mutable>::type;}` -/
def SPushConstantInfo.present (pc : SPushConstantInfo) : Bool := pc.type.isSome

namespace SDescriptorVarInfo

/-- Source: `struct SRWDescriptor`. -/
structure SRWDescriptor where
  readonly : Bool := false
  writeonly : Bool := false
  deriving DecidableEq, Repr

/-- Source: `struct SImage`; `viewType` is the value of `IImageView<ICPUImage>::E_TYPE`. -/
structure SImage where
  viewType : Nat
  shadow : Bool := false
  deriving DecidableEq, Repr

/-- Source: `struct SCombinedImageSampler final : SImage`. -/
structure SCombinedImageSampler extends SImage where
  multisample : Bool
  deriving DecidableEq, Repr

/-- Source: `struct SStorageImage final : SRWDescriptor, SImage`; `format` is the value of
`E_FORMAT`. -/
structure SStorageImage extends SRWDescriptor, SImage where
  format : Nat
  deriving DecidableEq, Repr

/-- Source: `struct SStorageTexelBuffer final : SRWDescriptor`. -/
structure SStorageTexelBuffer extends SRWDescriptor
  deriving DecidableEq, Repr

/-- Source: `struct SUniformBuffer final : SMemoryBlock<Mutable>`. -/
structure SUniformBuffer extends SMemoryBlock where
  size : Nat := 0
  deriving DecidableEq, Repr

/-- Source: `struct SStorageBuffer final : SRWDescriptor, SMemoryBlock<Mutable>`. -/
structure SStorageBuffer extends SRWDescriptor, SMemoryBlock where
  sizeWithoutLastMember : Nat
  deriving DecidableEq, Repr

/-- Source: `struct SInputAttachment final`. -/
structure SInputAttachment where
  index : Nat
  deriving DecidableEq, Repr

/-- The anonymous union of `SDescriptorVarInfo` with the member that is in use. -/
inductive Payload where
  | combinedImageSampler (v : SCombinedImageSampler)
  | storageImage (v : SStorageImage)
  | uniformTexelBuffer
  | storageTexelBuffer (v : SStorageTexelBuffer)
  | uniformBuffer (v : SUniformBuffer)
  | storageBuffer (v : SStorageBuffer)
  | inputAttachment (v : SInputAttachment)
  deriving DecidableEq, Repr

namespace SStorageBuffer

/-- Source: `bool SStorageBuffer::isLastMemberRuntimeSized() const`:
`if (type->memberCount) return type->memberTypes()[type->memberCount-1].count.front().isRuntimeSized(); return false;`
where the element of `memberTypes()` is a `const SType*` and `.count` is read through it.
The result is `none` where the source has undefined behaviour: `type` or the member pointer
is null or dangling, the member array is read past its end, or `front()` is taken of an
empty span. -/
def isLastMemberRuntimeSized (mem : Nat → Option SType) (self : SStorageBuffer) :
    Option Bool :=
  match self.type.bind mem with
  | none => none
  | some type =>
    if type.memberCount ≠ 0 then
      match type.memberTypes[type.memberCount - 1]? with
      | some (some p) =>
        match mem p with
        | some lastMember => lastMember.count.head?.map fun a => a.isRuntimeSized
        | none => none
      | _ => none
    else some false

/-- Source: `size_t SStorageBuffer::getRuntimeSize(const size_t lastMemberElementCount) const`:
`sizeWithoutLastMember+lastMemberElementCount*type->memberStrides()[type->memberCount-1]`
in `size_t` arithmetic when `isLastMemberRuntimeSized()`, else `sizeWithoutLastMember`.
The `assert` of the source holds whenever that branch is taken. -/
def getRuntimeSize (mem : Nat → Option SType) (self : SStorageBuffer)
    (lastMemberElementCount : Nat) : Option Nat :=
  match isLastMemberRuntimeSized mem self with
  | none => none
  | some true =>
    match self.type.bind mem with
    | none => none
    | some type =>
      match type.memberStrides[type.memberCount - 1]? with
      | some stride =>
        some ((self.sizeWithoutLastMember + lastMemberElementCount * stride % SIZE_MOD)
          % SIZE_MOD)
      | none => none
  | some false => some self.sizeWithoutLastMember

end SStorageBuffer

end SDescriptorVarInfo

/-- Source: `struct SDescriptorVarInfo<false> final : SDescriptorInfo`: the inherited `binding`
and `type` (the value of `IDescriptor::E_TYPE`), then its own members. -/
structure SDescriptorVarInfo where
  binding : Nat := 2 ^ 32 - 1
  type : Nat
  name : List Byte := []
  count : List SArrayInfo := []
  restrict_ : Bool := false
  aliased : Bool := false
  payload : SDescriptorVarInfo.Payload
  deriving DecidableEq, Repr

namespace SDescriptorVarInfo

/-- Source: `bool SDescriptorVarInfo::isArray() const {return !count.empty();}` -/
def isArray (self : SDescriptorVarInfo) : Bool := !self.count.isEmpty

/-- Source: `bool isRunTimeSized() const {return isArray() ? count[0].value == 0 : false;}` -/
def isRunTimeSized (self : SDescriptorVarInfo) : Bool :=
  if self.isArray then
    match self.count[0]? with
    | some a => a.value == 0
    | none => false
  else false

end SDescriptorVarInfo

end CStageIntrospectionData

open CStageIntrospectionData in
/-- Embedding of `class CStageIntrospectionData`: the members read or written by the functions
embedded here. `m_output` is the `std::variant` of the two output vectors;
`m_descriptorSetBindings` is the array of `DESCRIPTOR_SET_COUNT = 4` vectors. -/
structure CStageIntrospectionData where
  m_shaderStage : Nat
  m_params : SParams
  m_input : List SInputInterface
  m_output : List SFragmentOutputInterface ⊕ List SOutputInterface
  m_pushConstants : SPushConstantInfo := {}
  m_descriptorSetBindings : Fin 4 → List SDescriptorVarInfo := fun _ => []
  m_memPool : List Byte
  deriving DecidableEq

namespace CStageIntrospectionData

open CIntrospectionData

/-- Source: `const auto& getParams() const {return m_params;}` -/
def getParams (self : CStageIntrospectionData) : SParams := self.m_params

/-- Source: `const core::vector<SFragmentOutputInterface>& getFragmentShaderOutputs() const`.
When `m_shaderStage` is not `ESS_FRAGMENT` the body is `return {};`: the reference returned is
bound to a temporary vector that is destroyed when the function returns, so the caller gets no
vector it may read (`none`). Otherwise it is `std::get` of the fragment alternative of
`m_output` (`none`: `std::get` throws `std::bad_variant_access`). -/
def getFragmentShaderOutputs (ESS_FRAGMENT : Nat) (self : CStageIntrospectionData) :
    Option (List SFragmentOutputInterface) :=
  if self.m_shaderStage ≠ ESS_FRAGMENT then none
  else
    match self.m_output with
    | .inl v => some v
    | .inr _ => none

/-- Source: `const core::vector<SOutputInterface>& getShaderOutputs() const`. When
`m_shaderStage` is `ESS_UNKNOWN` or `ESS_FRAGMENT` the body is `return {};`: the reference
returned is bound to a temporary vector that is destroyed when the function returns, so the
caller gets no vector it may read (`none`). Otherwise it is `std::get` of the generic
alternative of `m_output` (`none`: `std::get` throws `std::bad_variant_access`). -/
def getShaderOutputs (ESS_UNKNOWN ESS_FRAGMENT : Nat) (self : CStageIntrospectionData) :
    Option (List SOutputInterface) :=
  if self.m_shaderStage = ESS_UNKNOWN ∨ self.m_shaderStage = ESS_FRAGMENT then none
  else
    match self.m_output with
    | .inr v => some v
    | .inl _ => none

/-- Source: `size_t allocOffset(const size_t bytes)`:
`off = m_memPool.size(); m_memPool.resize(off+bytes); return off;` with the `size_t` sum. -/
def allocOffset (self : CStageIntrospectionData) (bytes : Nat) :
    Nat × CStageIntrospectionData :=
  let off := self.m_memPool.length
  (off, { self with m_memPool := core.resize self.m_memPool ((off + bytes) % SIZE_MOD) })

/-- Source: `based_span<T> alloc(const size_t count)`:
`off = allocOffset(sizeof(T)*count); return {off,count};` with the `size_t` product. -/
def alloc (sizeofT : Nat) (self : CStageIntrospectionData) (count : Nat) :
    core.based_span × CStageIntrospectionData :=
  let r := self.allocOffset (sizeofT * count % SIZE_MOD)
  ({ m_byteOffset := r.1, m_size := count }, r.2)

/-- Little-endian bytes of a 32 bit word, as stored in the pool. -/
def encodeU32 (v : Nat) : List Byte :=
  [⟨v % 256, Nat.mod_lt _ (by decide)⟩, ⟨v / 2 ^ 8 % 256, Nat.mod_lt _ (by decide)⟩,
   ⟨v / 2 ^ 16 % 256, Nat.mod_lt _ (by decide)⟩, ⟨v / 2 ^ 24 % 256, Nat.mod_lt _ (by decide)⟩]

/-- The 32 bit word held by four little-endian bytes. -/
def decodeU32 : List Byte → Nat
  | [b0, b1, b2, b3] => b0.val + 2 ^ 8 * b1.val + 2 ^ 16 * b2.val + 2 ^ 24 * b3.val
  | _ => 0

/-- Write of the bytes `bs` at pool index `addr`; `none` when the write leaves the pool. -/
def storeBytes (pool : List Byte) (addr : Nat) (bs : List Byte) : Option (List Byte) :=
  if addr + bs.length ≤ pool.length then
    some (pool.take addr ++ bs ++ pool.drop (addr + bs.length))
  else none

/-- Read of `n` bytes at pool index `addr`; `none` when the read leaves the pool. -/
def loadBytes (pool : List Byte) (addr n : Nat) : Option (List Byte) :=
  if addr + n ≤ pool.length then some ((pool.drop addr).take n) else none

/-- Read of the `SArrayInfo` stored at pool index `addr`. -/
def loadSArrayInfo (pool : List Byte) (addr : Nat) : Option SArrayInfo :=
  (loadBytes pool addr 4).map fun bs => { value := decodeU32 bs }

/-- Write of an `SArrayInfo` at pool index `addr`. -/
def storeSArrayInfo (pool : List Byte) (addr : Nat) (a : SArrayInfo) : Option (List Byte) :=
  storeBytes pool addr (encodeU32 a.value)

/-- Body of the loop of `addCounts` for index `i`, on the span starting at pool index
`arraySizes`:
`if (size_is_literal[i]) arraySizes[i].value = sizes[i];`
`else { arraySizes[i].specID = sizes[i]; arraySizes[i].isSpecConstant = true; }` -/
def addCounts.body (sizes : Nat → Nat) (size_is_literal : Nat → Bool) (arraySizes : Nat)
    (pool : List Byte) (i : Nat) : Option (List Byte) :=
  let addr := arraySizes + 4 * i
  if size_is_literal i then
    storeSArrayInfo pool addr { value := sizes i % 2 ^ 32 }
  else
    (loadSArrayInfo pool addr).bind fun a =>
      (storeSArrayInfo pool addr (a.setSpecID (sizes i))).bind fun pool1 =>
        (loadSArrayInfo pool1 addr).bind fun a1 =>
          storeSArrayInfo pool1 addr (a1.setIsSpecConstant true)

/-- The loop `for (size_t i=0; i<count; i++)` of `addCounts`, run for `i = 0, .., n-1`. -/
def addCounts.loop (sizes : Nat → Nat) (size_is_literal : Nat → Bool) (arraySizes : Nat) :
    Nat → List Byte → Option (List Byte)
  | 0, pool => some pool
  | n + 1, pool =>
    (addCounts.loop sizes size_is_literal arraySizes n pool).bind fun p =>
      addCounts.body sizes size_is_literal arraySizes p n

/-- Source: `based_span<SArrayInfo> addCounts(count, sizes, size_is_literal)`. The two C arrays
are index functions read at `i < count`; `sizeof(SArrayInfo)` is 4; the span is resolved
against the pool, whose first byte has index 0. -/
def addCounts (self : CStageIntrospectionData) (count : Nat) (sizes : Nat → Nat)
    (size_is_literal : Nat → Bool) : Option (core.based_span × CStageIntrospectionData) :=
  if count = 0 then some ({}, self)
  else
    let r := alloc 4 self count
    match (r.1.resolve 0).1 with
    | none => none
    | some arraySizes =>
      (addCounts.loop sizes size_is_literal arraySizes count r.2.m_memPool).map fun pool =>
        (r.1, { r.2 with m_memPool := pool })

/-- Source: `based_span<char> addString(const std::string_view str)`:
`range = alloc<char>(str.size()+1); out = range(m_memPool.data());`
`memcpy(out.data(),str.data(),str.size()); out.back() = 0; return range;`.
The result is `none` when the span is empty (`memcpy` to a null pointer). -/
def addString (self : CStageIntrospectionData) (str : List Byte) :
    Option (core.based_span × CStageIntrospectionData) :=
  let r := alloc 1 self ((str.length + 1) % SIZE_MOD)
  match (r.1.resolve 0).1 with
  | none => none
  | some out =>
    (storeBytes r.2.m_memPool out str).bind fun pool1 =>
      (storeBytes pool1 (out + r.1.m_size - 1) [0]).map fun pool2 =>
        (r.1, { r.2 with m_memPool := pool2 })

/-- Little-endian bytes of a 64 bit word (`size_t`), as stored in the pool. -/
def encodeU64 (v : Nat) : List Byte :=
  [⟨v % 256, Nat.mod_lt _ (by decide)⟩, ⟨v / 2 ^ 8 % 256, Nat.mod_lt _ (by decide)⟩,
   ⟨v / 2 ^ 16 % 256, Nat.mod_lt _ (by decide)⟩, ⟨v / 2 ^ 24 % 256, Nat.mod_lt _ (by decide)⟩,
   ⟨v / 2 ^ 32 % 256, Nat.mod_lt _ (by decide)⟩, ⟨v / 2 ^ 40 % 256, Nat.mod_lt _ (by decide)⟩,
   ⟨v / 2 ^ 48 % 256, Nat.mod_lt _ (by decide)⟩, ⟨v / 2 ^ 56 % 256, Nat.mod_lt _ (by decide)⟩]

/-- The 64 bit word held by eight little-endian bytes. -/
def decodeU64 : List Byte → Nat
  | [b0, b1, b2, b3, b4, b5, b6, b7] =>
    b0.val + 2 ^ 8 * b1.val + 2 ^ 16 * b2.val + 2 ^ 24 * b3.val + 2 ^ 32 * b4.val +
      2 ^ 40 * b5.val + 2 ^ 48 * b6.val + 2 ^ 56 * b7.val
  | _ => 0

/-- Source: `SType<true>::StoragePerMember`, the sum of
`sizeof(member_type_t)` (a `based_offset`: one `size_t`), `sizeof(member_name_t)`
(a `based_span`: two `size_t`), and the three `uint32_t` of size, offset and stride. -/
def StoragePerMember : Nat := 8 + 16 + 4 + 4 + 4

/-- Size of `SType<true>` on the 64 bit targets: `typeName` and `count` (16 bytes each),
`info` (4), `memberCount` (4), `memberInfoStorage` (8). -/
def sizeofSType : Nat := 48

/-- Byte offset of `SType<true>::memberCount` inside the node. -/
def offsetofMemberCount : Nat := 36

/-- Byte offset of `SType<true>::memberInfoStorage` inside the node. -/
def offsetofMemberInfoStorage : Nat := 40

/-- Read of the `uint32_t memberCount` of the type node at pool index `node`. -/
def loadMemberCount (pool : List Byte) (node : Nat) : Option Nat :=
  (loadBytes pool (node + offsetofMemberCount) 4).map decodeU32

/-- Read of the byte offset held by `memberInfoStorage` of the type node at pool index
`node`. -/
def loadMemberInfoStorage (pool : List Byte) (node : Nat) : Option core.based_offset :=
  (loadBytes pool (node + offsetofMemberInfoStorage) 8).map fun bs =>
    { m_byteOffset := decodeU64 bs }

/-- Source: `based_offset<SType<true>> addType(const size_t memberCount)`:
`memberStorage = allocOffset(StoragePerMember*memberCount); retval = alloc<SType<true>>(1);`
`pType = retval(m_memPool.data()).data(); pType->memberCount = memberCount;`
`pType->memberInfoStorage = {memberStorage}; return {retval.byte_offset()};`.
The assignment to the `uint32_t memberCount` keeps the low 32 bits of the `size_t`. -/
def addType (self : CStageIntrospectionData) (memberCount : Nat) :
    Option (core.based_offset × CStageIntrospectionData) :=
  let memberStorage := self.allocOffset (StoragePerMember * memberCount % SIZE_MOD)
  let retval := alloc sizeofSType memberStorage.2 1
  match (retval.1.resolve 0).1 with
  | none => none
  | some pType =>
    (storeBytes retval.2.m_memPool (pType + offsetofMemberCount)
        (encodeU32 (memberCount % 2 ^ 32))).bind fun pool1 =>
      (storeBytes pool1 (pType + offsetofMemberInfoStorage)
          (encodeU64 memberStorage.1)).map fun pool2 =>
        ({ m_byteOffset := retval.1.byte_offset }, { retval.2 with m_memPool := pool2 })

end CStageIntrospectionData

namespace CSPIRVIntrospector

open CStageIntrospectionData

/-- The hash primitives `KeyHasher` calls and the sources do not define:
`std::hash<std::string_view>` on the bytecode, `core::hash_combine<std::string_view>` and
`core::hash_combine<uint32_t>` (seed first, combined value second). -/
structure HashPrimitives where
  stringViewHasher : List Byte → Nat
  hash_combine_sv : Nat → String → Nat
  hash_combine_u32 : Nat → Nat → Nat

namespace KeyHasher

/-- Source: `size_t KeyHasher::operator()(const SParams& params) const`; `none` when
`params.shader` is null (it is dereferenced unchecked). -/
def ofParams (H : HashPrimitives) (params : SParams) : Option Nat :=
  match params.shader with
  | none => none
  | some s =>
    some (H.hash_combine_u32
      (H.hash_combine_sv (H.stringViewHasher s.value.content) params.entryPoint) s.value.stage)

/-- Source: `size_t KeyHasher::operator()(const smart_refctd_ptr<const CStageIntrospectionData>& data) const`,
which is `operator()(data->getParams())`; `none` when `data` is null. -/
def ofData (H : HashPrimitives) (data : core.smart_refctd_ptr CStageIntrospectionData) :
    Option Nat :=
  match data with
  | none => none
  | some d => ofParams H d.value.getParams

end KeyHasher

namespace KeyEquals

/-- Source: `KeyEquals::operator()(const SParams& lhs, const smart_refctd_ptr<..>& rhs)`:
`lhs==rhs->getParams()`. -/
def paramsData (lhs : SParams) (rhs : core.smart_refctd_ptr CStageIntrospectionData) :
    Option Bool :=
  match rhs with
  | none => none
  | some r => lhs.eq r.value.getParams

/-- Source: `KeyEquals::operator()(const smart_refctd_ptr<..>& lhs, const SParams& rhs)`:
`lhs->getParams()==rhs`. -/
def dataParams (lhs : core.smart_refctd_ptr CStageIntrospectionData) (rhs : SParams) :
    Option Bool :=
  match lhs with
  | none => none
  | some l => l.value.getParams.eq rhs

/-- Source: `KeyEquals::operator()(const smart_refctd_ptr<..>& lhs, const smart_refctd_ptr<..>& rhs)`:
`operator()(lhs,rhs->getParams())`. -/
def dataData (lhs rhs : core.smart_refctd_ptr CStageIntrospectionData) : Option Bool :=
  match rhs with
  | none => none
  | some r => dataParams lhs r.value.getParams

end KeyEquals

/-- Embedding of `ParamsToDataMap`, the `unordered_set` of non-null result pointers, as the
list of its elements. -/
abbrev ParamsToDataMap := List (core.Object CStageIntrospectionData)

namespace ParamsToDataMap

/-- Heterogeneous `unordered_set::find(params)`: the set hashes `params`, looks into the
bucket of that hash and returns the element there that `KeyEquals` reports equal to
`params`, if any (`some none` is `end()`). An element sits in the bucket of its own hash,
so the element found is one with the hash of `params`. The result is `none` when hashing
`params` dereferences a null shader. -/
def find (H : HashPrimitives) (cache : ParamsToDataMap) (params : SParams) :
    Option (Option (core.Object CStageIntrospectionData)) :=
  match KeyHasher.ofParams H params with
  | none => none
  | some h =>
    some (cache.find? fun e =>
      decide (KeyHasher.ofData H (some e) = some h) &&
        (KeyEquals.paramsData params (some e) == some true))

/-- Hinted `unordered_set::insert(hint, value)`: hashes `value` (`none`: `value` is null or
its params have a null shader, and the hasher dereferences it), keeps the set as it is
when an element with that hash compares equal, and adds `value` otherwise. -/
def insert (H : HashPrimitives) (cache : ParamsToDataMap)
    (value : core.smart_refctd_ptr CStageIntrospectionData) : Option ParamsToDataMap :=
  match value with
  | none => none
  | some v =>
    match KeyHasher.ofData H (some v) with
    | none => none
    | some h =>
      if cache.any fun e =>
          decide (KeyHasher.ofData H (some e) = some h) &&
            (KeyEquals.dataData (some v) (some e) == some true)
      then some cache
      else some (cache ++ [v])

end ParamsToDataMap

end CSPIRVIntrospector

/-- Embedding of `class CSPIRVIntrospector`: its only data member. -/
structure CSPIRVIntrospector where
  m_introspectionCache : CSPIRVIntrospector.ParamsToDataMap

namespace CSPIRVIntrospector

open CStageIntrospectionData

/-- What a call of `introspect` leaves behind: the returned pointer, the introspector and
the state `doIntrospection` works on. -/
structure IntrospectResult (σ : Type) where
  retval : core.smart_refctd_ptr CStageIntrospectionData
  self : CSPIRVIntrospector
  world : σ

/-- Source: `CSPIRVIntrospector::introspect(params, insertToCache)`. The private
`doIntrospection` is defined outside the header and is a parameter: it maps the params and
the state `σ` it may read and change (heap, counters) to the pointer it returns and the new
state, so a call of it is visible in `world`. `ECT_SPIRV` is the enumerator of
`IShader::E_CONTENT_TYPE`. The result is `none` when the call runs into the null
dereference of `ParamsToDataMap.insert`. -/
def introspect {σ : Type}
    (doIntrospection : SParams → σ → core.smart_refctd_ptr CStageIntrospectionData × σ)
    (ECT_SPIRV : Nat) (H : HashPrimitives) (self : CSPIRVIntrospector) (world : σ)
    (params : SParams) (insertToCache : Bool) : Option (IntrospectResult σ) :=
  match params.shader with
  | none => some { retval := none, self := self, world := world }
  | some sh =>
    if sh.value.contentType ≠ ECT_SPIRV then
      some { retval := none, self := self, world := world }
    else
      match ParamsToDataMap.find H self.m_introspectionCache params with
      | none => none
      | some (some introspectionData) =>
        some { retval := some introspectionData, self := self, world := world }
      | some none =>
        let built := doIntrospection params world
        if insertToCache then
          match ParamsToDataMap.insert H self.m_introspectionCache built.1 with
          | none => none
          | some cache =>
            some { retval := built.1, self := { m_introspectionCache := cache }, world := built.2 }
        else
          some { retval := built.1, self := self, world := built.2 }

end CSPIRVIntrospector

/-- Source: `CSPIRVIntrospector::MaxPushConstantsSize = 256`. -/
def MaxPushConstantsSize : Nat := 256

/-- Source: `struct SPushConstantRange` of `IPipelineLayout`: `stageFlags`, `offset`, `size`. -/
structure SPushConstantRange where
  stageFlags : Nat
  offset : Nat
  size : Nat
  deriving DecidableEq, Repr

namespace CPipelineIntrospectionData

/-- Source: `struct CPipelineIntrospectionData::SDescriptorInfo`: the inherited `binding` and
`type`, the bit-fields `count : 21` and `stride : 11`, and the stage mask. -/
structure SDescriptorInfo where
  binding : Nat := 2 ^ 32 - 1
  type : Nat
  count : Nat := 0
  stride : Nat := 0
  stageMask : Nat
  deriving DecidableEq, Repr

namespace SDescriptorInfo

/-- Source: `bool isArray() const {return stride;}` -/
def isArray (self : SDescriptorInfo) : Bool := self.stride != 0

/-- Source: `bool isRuntimeSized() const {return isArray() && count==0;}` -/
def isRuntimeSized (self : SDescriptorInfo) : Bool := self.isArray && self.count == 0

end SDescriptorInfo

end CPipelineIntrospectionData

open CPipelineIntrospectionData in
/-- Embedding of `class CPipelineIntrospectionData`: the stage mask of each push constant
byte, the four sets of bindings (an `unordered_set` as the list of its elements) and the
highest binding numbers (`int32_t`). -/
structure CPipelineIntrospectionData where
  m_pushConstantBytes : List Nat
  m_descriptorSetBindings : Fin 4 → List SDescriptorInfo
  m_highestBindingNumbers : List Int
  deriving DecidableEq

namespace CPipelineIntrospectionData

open CIntrospectionData CStageIntrospectionData

/-- Modelled from the spec: the constant `ICPUPipelineLayout::DESCRIPTOR_SET_COUNT`, declared
outside the sources; the spec numbers the descriptor sets 0..3. -/
def DESCRIPTOR_SET_COUNT : Nat := 4

/-- Source: the constructor `CPipelineIntrospectionData()`: both `std::fill` calls; the four
`unordered_set` members are default-constructed. `ESS_UNKNOWN` is the enumerator of
`ICPUShader::E_SHADER_STAGE`. -/
def new (ESS_UNKNOWN : Nat) : CPipelineIntrospectionData :=
  { m_pushConstantBytes := List.replicate MaxPushConstantsSize ESS_UNKNOWN
    m_descriptorSetBindings := fun _ => []
    m_highestBindingNumbers := List.replicate DESCRIPTOR_SET_COUNT (-1) }

/-- Modelled from the spec: the body of `createPushConstantRangesFromIntrospection`, defined
outside the sources, on the bytes from position `pos` on. "Emits one contiguous range per
maximal run of bytes sharing an identical non-empty stage-mask (adjacent bytes with
different masks start a new range)": an undeclared byte belongs to no range; a declared
byte extends the range that starts right after it when that range has its mask, and
starts a new range otherwise. -/
def pushConstantRuns (ESS_UNKNOWN : Nat) : List Nat → Nat → List SPushConstantRange
  | [], _ => []
  | m :: rest, pos =>
    if m = ESS_UNKNOWN then pushConstantRuns ESS_UNKNOWN rest (pos + 1)
    else
      match pushConstantRuns ESS_UNKNOWN rest (pos + 1) with
      | [] => [{ stageFlags := m, offset := pos, size := 1 }]
      | r :: rs =>
        if r.stageFlags = m ∧ r.offset = pos + 1 then
          { stageFlags := m, offset := pos, size := r.size + 1 } :: rs
        else { stageFlags := m, offset := pos, size := 1 } :: r :: rs

/-- Modelled from the spec: `createPushConstantRangesFromIntrospection`, defined outside the
sources: the ranges of the 256 byte ownership map, read-only over the aggregator. -/
def createPushConstantRangesFromIntrospection (ESS_UNKNOWN : Nat)
    (self : CPipelineIntrospectionData) : List SPushConstantRange :=
  pushConstantRuns ESS_UNKNOWN self.m_pushConstantBytes 0

/-- Modelled from the spec: the push constant conflict test of `merge`, defined outside the
sources. "A conflict exists only if merging would require a byte size > 256
(`MaxPushConstantsSize`) or the new block ... (different size) at an already-touched offset
... policy: detect via byte-size mismatch at overlapping ranges": the block `[offset,
offset+size)` conflicts when it ends beyond byte 256 or shares a byte with a range of the
aggregator whose size is not `size`. -/
def pushConstantConflict (ESS_UNKNOWN : Nat) (bytes : List Nat) (offset size : Nat) : Bool :=
  decide (MaxPushConstantsSize < offset + size) ||
    (pushConstantRuns ESS_UNKNOWN bytes 0).any fun r =>
      decide (r.offset < offset + size ∧ offset < r.offset + r.size ∧ 0 < size) &&
        r.size != size

/-- Modelled from the spec: the push constant update of `merge`, defined outside the sources,
on the bytes from position `pos` on. "For every byte in [block.offset,
block.offset+block.size), if the aggregator's stage-mask at that byte is undeclared, set it to
this stage; ... the merge simply unions stage bits into the mask per byte". -/
def markPushConstantBytes (ESS_UNKNOWN stage offset size : Nat) : List Nat → Nat → List Nat
  | [], _ => []
  | m :: rest, pos =>
    (if offset ≤ pos ∧ pos < offset + size then
        (if m = ESS_UNKNOWN then stage else m ||| stage)
      else m) :: markPushConstantBytes ESS_UNKNOWN stage offset size rest (pos + 1)

/-- Modelled from the spec: the resolution of one array extent in `merge`, defined outside the
sources. A literal extent is its count; "if a specialization_map is supplied, any array
extent flagged unresolved specialization id is resolved to a literal count"; without a map, or
with a map that lacks the id, the extent stays unresolved (`none`). -/
def resolveExtent (specConstants : Option (Nat → Option Nat)) (a : SArrayInfo) : Option Nat :=
  if a.isSpecConstant then
    match specConstants with
    | none => none
    | some map => map a.specID
  else some a.value

/-- Modelled from the spec: all extents of a binding resolved, `none` as soon as one of them
stays unresolved. -/
def resolveExtents (specConstants : Option (Nat → Option Nat)) :
    List SArrayInfo → Option (List Nat)
  | [] => some []
  | a :: rest =>
    match resolveExtent specConstants a, resolveExtents specConstants rest with
    | some n, some ns => some (n :: ns)
    | _, _ => none

/-- Modelled from the spec: the Descriptor Binding Info that `merge`, defined outside the
sources, records for a binding of the incoming stage: its binding index and kind, the count
of its first extent (0 for a runtime-sized array and for a descriptor that is no array, kept
to the 21 bits of the field), a non-zero `stride` exactly for an array (the array-ness that
`isArray()` reads), and the stage mask "{this stage}". -/
def recordOf (stage : Nat) (d : SDescriptorVarInfo) (extents : List Nat) : SDescriptorInfo :=
  { binding := d.binding, type := d.type, count := extents.headD 0 % 2 ^ 21,
    stride := if d.isArray then 1 else 0, stageMask := stage }

/-- Modelled from the spec: the compatibility test of `merge`: "verify descriptor kind, count
(fixed vs runtime-sized vs spec-constant-bound), and array-ness match exactly". -/
def compatible (existing incoming : SDescriptorInfo) : Bool :=
  existing.type == incoming.type && existing.count == incoming.count &&
    existing.isArray == incoming.isArray

/-- Modelled from the spec: "OR this stage into the existing binding's stage-mask", applied to
the entry with the given binding index; every other field and every other entry is kept. -/
def orStageMask (stage binding : Nat) (e : SDescriptorInfo) : SDescriptorInfo :=
  if e.binding = binding then { e with stageMask := e.stageMask ||| stage } else e

/-- Modelled from the spec: the step of `merge`, defined outside the sources, for one binding of
the incoming stage on the staged copy of the target set. "Look up an existing Descriptor
Binding Info with the same binding index in the target set. Not present: insert it, set its
stage-mask to {this stage}. Present: verify ...; on mismatch, fail the whole merge. On match,
OR this stage into the existing binding's stage-mask"; an unresolved extent fails the merge
for that binding. `none` is the failure. -/
def mergeBinding (stage : Nat) (specConstants : Option (Nat → Option Nat))
    (target : List SDescriptorInfo) (d : SDescriptorVarInfo) : Option (List SDescriptorInfo) :=
  match resolveExtents specConstants d.count with
  | none => none
  | some extents =>
    match target.find? fun e => e.binding == d.binding with
    | none => some (target ++ [recordOf stage d extents])
    | some existing =>
      if compatible existing (recordOf stage d extents) then
        some (target.map (orStageMask stage d.binding))
      else none

/-- Modelled from the spec: the descriptor-set merge of one set, "for each binding declared by
the incoming stage", in the order the stage lists them. -/
def mergeSet (stage : Nat) (specConstants : Option (Nat → Option Nat)) :
    List SDescriptorInfo → List SDescriptorVarInfo → Option (List SDescriptorInfo)
  | target, [] => some target
  | target, d :: rest =>
    (mergeBinding stage specConstants target d).bind fun staged =>
      mergeSet stage specConstants staged rest

/-- Modelled from the spec: `CPipelineIntrospectionData::merge`, declared in the header and
defined outside the sources. `specConstants` is the optional specialization map (id to
count). The push constant block and the four sets are checked on staged copies and committed
only when every check passed ("commit only on full success"); on failure the aggregator is
returned as it was. The spec does not mention `m_highestBindingNumbers`, which is left as it
is. -/
def merge (ESS_UNKNOWN : Nat) (self : CPipelineIntrospectionData)
    (stageData : CStageIntrospectionData) (specConstants : Option (Nat → Option Nat)) :
    Bool × CPipelineIntrospectionData :=
  let pc := stageData.m_pushConstants
  let stage := stageData.m_shaderStage
  if pushConstantConflict ESS_UNKNOWN self.m_pushConstantBytes pc.offset pc.size then
    (false, self)
  else if ∀ i : Fin 4, (mergeSet stage specConstants (self.m_descriptorSetBindings i)
      (stageData.m_descriptorSetBindings i)).isSome then
    (true,
     { self with
       m_pushConstantBytes :=
         markPushConstantBytes ESS_UNKNOWN stage pc.offset pc.size self.m_pushConstantBytes 0
       m_descriptorSetBindings := fun i =>
         (mergeSet stage specConstants (self.m_descriptorSetBindings i)
           (stageData.m_descriptorSetBindings i)).getD (self.m_descriptorSetBindings i) })
  else (false, self)

end CPipelineIntrospectionData

namespace CIntrospectionData

/-- Source: `struct CIntrospectionData::SDescriptorInfo`, the base of the stage and pipeline
binding records: `binding` (default `~0u`) and `type` (the value of `IDescriptor::E_TYPE`). -/
structure SDescriptorInfo where
  binding : Nat := 2 ^ 32 - 1
  type : Nat
  deriving DecidableEq, Repr

/-- Source: `bool SDescriptorInfo::operator<(const SDescriptorInfo& _rhs) const`:
`return binding<_rhs.binding;` -/
def SDescriptorInfo.lt (lhs rhs : SDescriptorInfo) : Bool :=
  decide (lhs.binding < rhs.binding)

end CIntrospectionData

namespace CStageIntrospectionData

/-- Source: `bool SInterface::operator<(const SInterface& _rhs) const`:
`return location<_rhs.location;` -/
def SInterface.lt (lhs rhs : SInterface) : Bool :=
  decide (lhs.location < rhs.location)

/-- Assignment of an offset and a size to the two `uint8_t` members `offset` and `size` of an
`SPushConstantInfo`: each keeps the low 8 bits of the value assigned. -/
def SPushConstantInfo.assign (pc : SPushConstantInfo) (offset size : Nat) :
    SPushConstantInfo :=
  { pc with offset := offset % 2 ^ 8, size := size % 2 ^ 8 }

/-- Source: `struct SType<true>`, the type node as it is stored in the pool during
construction: spans and pointers are `based_span` and `based_offset`. -/
structure STypeMutable where
  typeName : core.based_span := {}
  count : core.based_span := {}
  info : STypeInfo := {}
  memberCount : Nat := 0
  memberInfoStorage : core.based_offset := {}
  deriving DecidableEq, Repr

namespace STypeMutable

/-- Size of `member_type_t`, a `based_offset<SType<true>>`. -/
def sizeofMemberType : Nat := 8

/-- Size of `member_name_t`, a `based_span<char>`. -/
def sizeofMemberName : Nat := 16

/-- Size of `member_size_t`, `member_offset_t` and `member_stride_t`, each a `uint32_t`. -/
def sizeofMemberSize : Nat := 4

/-- Source: `memberTypes()`: `memberInfoStorage` reinterpreted as a
`based_offset<member_type_t>`. -/
def memberTypes (self : STypeMutable) : core.based_offset := self.memberInfoStorage

/-- Source: `memberNames()` for `Mutable`: `(memberTypes()+memberCount).byte_offset()`. -/
def memberNames (self : STypeMutable) : core.based_offset :=
  { m_byteOffset := (self.memberTypes.add sizeofMemberType self.memberCount).byte_offset }

/-- Source: `memberSizes()` for `Mutable`: `(memberNames()+memberCount).byte_offset()`. -/
def memberSizes (self : STypeMutable) : core.based_offset :=
  { m_byteOffset := (self.memberNames.add sizeofMemberName self.memberCount).byte_offset }

/-- Source: `memberOffsets()`: `memberSizes()+memberCount`. -/
def memberOffsets (self : STypeMutable) : core.based_offset :=
  self.memberSizes.add sizeofMemberSize self.memberCount

/-- Source: `memberStrides()`: `memberOffsets()+memberCount`. -/
def memberStrides (self : STypeMutable) : core.based_offset :=
  self.memberOffsets.add sizeofMemberSize self.memberCount

end STypeMutable

/-- The loop of `visitMemoryBlockPreOrderDFS` for `Mutable = false`, on the stack `stk` (top
first) with `calls` the nodes the callback `pre` was invoked on so far, in order:
`while (!stk.empty()) { type = stk.top(); stk.pop();`
`for (i=0u; i<type->memberCount; i++) stk.push(type->memberTypes()[i]); pre(type); }`.
The first argument bounds the number of iterations. The result is `none` when the bound is
used up, when the entry popped is null or dangling, or when the member array is read past its
end. -/
def visitMemoryBlockPreOrderDFS.loop (mem : Nat → Option SType) :
    Nat → List (Option Nat) → List Nat → Option (List Nat)
  | _, [], calls => some calls
  | 0, _ :: _, _ => none
  | fuel + 1, entry :: stk, calls =>
    match entry, entry.bind mem with
    | some address, some type =>
      if type.memberCount ≤ type.memberTypes.length then
        visitMemoryBlockPreOrderDFS.loop mem fuel
          ((type.memberTypes.take type.memberCount).reverse ++ stk) (calls ++ [address])
      else none
    | _, _ => none

/-- Source: `visitMemoryBlockPreOrderDFS(SMemoryBlock<false>& block, Pre& pre)`:
`if (block.type) stk.push(block.type);` and the loop. The result lists the nodes `pre` was
invoked on, in the order of the invocations. -/
def visitMemoryBlockPreOrderDFS (mem : Nat → Option SType) (fuel : Nat)
    (block : SMemoryBlock) : Option (List Nat) :=
  visitMemoryBlockPreOrderDFS.loop mem fuel
    (match block.type with
     | some type => [some type]
     | none => []) []

/-- The nodes met along the paths of at most `depth` nodes that start at `address`, a node
before the nodes reached through it, the members of a node from the last to the first: one
entry per path. -/
def pathsPreOrder (mem : Nat → Option SType) : Nat → Nat → List Nat
  | 0, _ => []
  | depth + 1, address =>
    match mem address with
    | none => []
    | some type =>
      address :: (type.memberTypes.take type.memberCount).reverse.flatMap fun member =>
        member.elim [] (pathsPreOrder mem depth)

/-- The number of paths of at most `depth` nodes from `address` to `target` in the type
graph. -/
def pathCount (mem : Nat → Option SType) : Nat → Nat → Nat → Nat
  | 0, _, _ => 0
  | depth + 1, address, target =>
    match mem address with
    | none => 0
    | some type =>
      (if address = target then 1 else 0) +
        ((type.memberTypes.take type.memberCount).map fun member =>
          member.elim 0 fun m => pathCount mem depth m target).sum

end CStageIntrospectionData

namespace CPipelineIntrospectionData

/-- Source: `struct Hash`: `size_t operator()(const SDescriptorInfo& item) const {return item.binding;}` -/
def Hash (item : SDescriptorInfo) : Nat := item.binding

/-- Source: `struct KeyEqual`: `return lhs.binding==rhs.binding;` -/
def KeyEqual (lhs rhs : SDescriptorInfo) : Bool := lhs.binding == rhs.binding

/-- Standard `unordered_set<SDescriptorInfo, Hash, KeyEqual>::insert(value)` on the
`DescriptorSetBindings` of one set: the set is kept as it is when an element with the hash of
`value` compares equal to it under `KeyEqual`, and gets `value` otherwise. -/
def DescriptorSetBindings.insert (set : List SDescriptorInfo) (value : SDescriptorInfo) :
    List SDescriptorInfo :=
  if set.any fun e => Hash e == Hash value && KeyEqual e value then set
  else set ++ [value]

end CPipelineIntrospectionData

namespace CFlattenRegionsStreamHashImageFilter

/-- Size of `CState::hash_t = std::array<size_t, 4u>`. -/
def sizeofHash : Nat := 32

/-- Source: the byte size of the hash heap in `allocateScratchMemory` and `validate`:
`parameters.mipLevels * parameters.arrayLayers * sizeof(CState::outHash)`, the product of the
two `uint32_t` taken in 32 bits. -/
def heapSize (mipLevels arrayLayers : Nat) : Nat :=
  mipLevels * arrayLayers % 2 ^ 32 * sizeofHash % SIZE_MOD

/-- Number of `hash_t` slots of the heap. -/
def heapSlots (mipLevels arrayLayers : Nat) : Nat :=
  heapSize mipLevels arrayLayers / sizeofHash

/-- Source: the slot `executePerMipLevel` writes the hash of `(miplevel, layer)` to:
`reinterpret_cast<CState::hash_t*>(heap) + (miplevel * maxMipLevels) + layer`, with
`maxMipLevels = parameters.mipLevels` and the product taken in 32 bits. -/
def writeSlot (mipLevels miplevel layer : Nat) : Nat :=
  miplevel * mipLevels % 2 ^ 32 + layer

/-- Source: the slot the final loop of `execute` reads the hash of `(miplevel, layer)` from:
`reinterpret_cast<CState::hash_t*>(heap) + miplevel * parameters.mipLevels + layer`, the
product taken in 32 bits and added to the pointer before `layer` is. -/
def readSlot (mipLevels miplevel layer : Nat) : Nat :=
  miplevel * mipLevels % 2 ^ 32 + layer

end CFlattenRegionsStreamHashImageFilter

/-- Example type graph with a shared node: the struct at address 0 has the members 1 and 2,
the struct at address 1 has the member 2, the node at address 2 has no members. -/
def exampleSharedMember : Nat → Option CStageIntrospectionData.SType :=
  fun address =>
    if address = 0 then some { memberCount := 2, memberTypes := [some 1, some 2] }
    else if address = 1 then some { memberCount := 1, memberTypes := [some 2] }
    else if address = 2 then some {}
    else none

/-- Example type tree: the struct at address 0 has the members 1 and 2, the struct at
address 1 has the member 3, the nodes at the addresses 2 and 3 have no members. -/
def exampleTypeTree : Nat → Option CStageIntrospectionData.SType :=
  fun address =>
    if address = 0 then some { memberCount := 2, memberTypes := [some 1, some 2] }
    else if address = 1 then some { memberCount := 1, memberTypes := [some 3] }
    else if address = 2 then some {}
    else if address = 3 then some {}
    else none

/-- Depth of the nodes of the two example type graphs: 2 for address 0, 1 for address 1,
0 for the others. -/
def exampleRank : Nat → Nat :=
  fun address => if address = 0 then 2 else if address = 1 then 1 else 0

/-- A stage result under construction that holds nothing but the given pool. -/
def stageWithPool (pool : List Byte) : CStageIntrospectionData :=
  { m_shaderStage := 0, m_params := ⟨"main", none⟩, m_input := [], m_output := .inl [],
    m_memPool := pool }

/-- Example params: entry point `main` and a four byte fragment shader (stage value 16,
content type value 1) held by the shader object at `address`. -/
def exampleParams (address : Nat) : CStageIntrospectionData.SParams :=
  ⟨"main", some ⟨address, ⟨16, 1, [3, 2, 35, 7]⟩⟩⟩

/-- Example hash primitives: lengths and sums. -/
def exampleHash : CSPIRVIntrospector.HashPrimitives :=
  ⟨fun bs => bs.length, fun h e => h + e.length, fun h v => h + v⟩

/-- Example `doIntrospection` on a counter of its invocations: every call succeeds with a
fresh object that stores the params it was given. -/
def countingBuild (params : CStageIntrospectionData.SParams) (n : Nat) :
    core.smart_refctd_ptr CStageIntrospectionData × Nat :=
  (some ⟨1000 + n, { m_shaderStage := 16, m_params := params, m_input := [],
                     m_output := .inl [], m_memPool := [] }⟩, n + 1)

/-- Example `doIntrospection` on a counter of its invocations: every call fails (null). -/
def failingBuild (_params : CStageIntrospectionData.SParams) (n : Nat) :
    core.smart_refctd_ptr CStageIntrospectionData × Nat :=
  (none, n + 1)

/-- Example type memory: at address 0 a block type with one member of 4 bytes at offset 16 and
array stride 4, whose type is the node `last` at address 1. -/
def exampleTypes (last : CStageIntrospectionData.SType) :
    Nat → Option CStageIntrospectionData.SType :=
  fun address =>
    if address = 0 then
      some { memberCount := 1, memberTypes := [some 1], memberNames := [[]],
             memberSizes := [4], memberOffsets := [16], memberStrides := [4] }
    else if address = 1 then some last
    else none

/-- Example storage buffer payload: the block type at address 0, 16 bytes before the last
member. -/
def exampleStorageBuffer : CStageIntrospectionData.SDescriptorVarInfo.SStorageBuffer :=
  { type := some 0, sizeWithoutLastMember := 16 }

/-- Example aggregator: bytes 0..3 declared by stage 1, bytes 4..7 by stages 1 and 16, byte 9
by stage 16, every other byte undeclared (0), no bindings. -/
def exampleAggregator : CPipelineIntrospectionData :=
  { m_pushConstantBytes := [1, 1, 1, 1, 17, 17, 17, 17, 0, 16] ++ List.replicate 246 0
    m_descriptorSetBindings := fun _ => []
    m_highestBindingNumbers := [-1, -1, -1, -1] }

/-- Example binding declaration of a stage: index, kind and extents, no payload data. -/
def exampleBinding (binding type : Nat) (count : List CIntrospectionData.SArrayInfo) :
    CStageIntrospectionData.SDescriptorVarInfo :=
  { binding := binding, type := type, count := count, payload := .uniformTexelBuffer }

/-- Example stage result: the given stage, a push constant block of `size` bytes at `offset`,
and the given bindings in set 0. -/
def exampleStage (stage offset size : Nat)
    (set0 : List CStageIntrospectionData.SDescriptorVarInfo) : CStageIntrospectionData :=
  { m_shaderStage := stage, m_params := ⟨"main", none⟩, m_input := [], m_output := .inl [],
    m_pushConstants := { offset := offset, size := size },
    m_descriptorSetBindings := fun set => if set = 0 then set0 else [],
    m_memPool := [] }

/-- Example aggregator with undeclared (0) push constant bytes and the given entries in
set 0. -/
def exampleAggregatorWith (set0 : List CPipelineIntrospectionData.SDescriptorInfo) :
    CPipelineIntrospectionData :=
  { m_pushConstantBytes := List.replicate 256 0
    m_descriptorSetBindings := fun set => if set = 0 then set0 else []
    m_highestBindingNumbers := [-1, -1, -1, -1] }

end asset

namespace ext.imgui

/-- Source: the lambda `anyBindingCount` of `validateResource` in the constructor `UI::UI`,
on the binding count of the redirect: the returned flag and the error it logs.
`if (redirect->getBindingCount()) { log(..has no bindings..); return false; } return true;` -/
def anyBindingCount (bindingCount : Nat) : Bool × List String :=
  if bindingCount ≠ 0 then
    (false, ["Provided descriptor set layout has no bindings for IDescriptor::E_TYPE::%s, you are required to provide at least single default ImGUI Font Atlas texture resource & corresponsing sampler resource!"])
  else (true, [])

/-- Embedding of `class UI` as far as the listeners go: `m_subscribers`, a vector of
`std::function<void()>`, here of any type `α` of callables. -/
structure UI (α : Type) where
  m_subscribers : List α

namespace UI

/-- Source: `size_t UI::registerListener(const std::function<void()>& listener)`:
`m_subscribers.emplace_back(listener); return m_subscribers.size() - 1u;`. The size is at
least 1 after `emplace_back`, so the subtraction does not wrap. The
`assert(listener != nullptr)` is taken to hold. -/
def registerListener {α : Type} (self : UI α) (listener : α) : Nat × UI α :=
  ((self.m_subscribers ++ [listener]).length - 1,
    { m_subscribers := self.m_subscribers ++ [listener] })

/-- Source: `std::optional<size_t> UI::unregisterListener(size_t id)`:
`if (id < m_subscribers.size()) { m_subscribers.erase(m_subscribers.begin() + id); return id; }`
`return std::nullopt;` -/
def unregisterListener {α : Type} (self : UI α) (id : Nat) : Option Nat × UI α :=
  if id < self.m_subscribers.length then
    (some id, { m_subscribers := self.m_subscribers.eraseIdx id })
  else (none, self)

end UI

end ext.imgui

end nbl

namespace irr.asset

open nbl

/-- Embedding of `class IPipelineLayout<DescLayoutType>`: the four layout pointers and the
array of push constant ranges (`none` is the null `smart_refctd_dynamic_array`). -/
structure IPipelineLayout (DescLayoutType : Type) where
  m_descSetLayouts : Fin 4 → core.smart_refctd_ptr DescLayoutType
  m_pushConstantRanges : Option (List asset.SPushConstantRange)

namespace IPipelineLayout

/-- Source: the constructor `IPipelineLayout(_pcRangesBegin, _pcRangesEnd, _layout0, .., _layout3)`
on the ranges in `[_pcRangesBegin, _pcRangesEnd)`. The initialiser list sets
`m_pushConstantRanges` to `nullptr` for an empty range and to a new array of that many
elements otherwise; the body runs
`std::copy(_pcRangesBegin, _pcRangesEnd, m_pushConstantRanges->begin())`, which fills the
array with the given ranges. The result is `none` when `m_pushConstantRanges->begin()` is
called on the null pointer. -/
def new {DescLayoutType : Type} (pcRanges : List asset.SPushConstantRange)
    (layout0 layout1 layout2 layout3 : core.smart_refctd_ptr DescLayoutType) :
    Option (IPipelineLayout DescLayoutType) :=
  let m_descSetLayouts : Fin 4 → core.smart_refctd_ptr DescLayoutType := fun i =>
    if i = 0 then layout0 else if i = 1 then layout1 else if i = 2 then layout2 else layout3
  let m_pushConstantRanges : Option (List asset.SPushConstantRange) :=
    if pcRanges.length = 0 then none
    else some (List.replicate pcRanges.length { stageFlags := 0, offset := 0, size := 0 })
  match m_pushConstantRanges with
  | none => none
  | some array =>
    some { m_descSetLayouts := m_descSetLayouts,
           m_pushConstantRanges := some (pcRanges ++ array.drop pcRanges.length) }

/-- Source: `getDescriptorSetLayout(uint32_t _set)`: `return m_descSetLayouts[_set];`, `none`
for an index outside the array of four. -/
def getDescriptorSetLayout {DescLayoutType : Type} (self : IPipelineLayout DescLayoutType)
    (set : Nat) : Option (core.smart_refctd_ptr DescLayoutType) :=
  if h : set < 4 then some (self.m_descSetLayouts ⟨set, h⟩) else none

/-- Source: `getPushConstantRanges()`: `return m_pushConstantRanges.get();` -/
def getPushConstantRanges {DescLayoutType : Type} (self : IPipelineLayout DescLayoutType) :
    Option (List asset.SPushConstantRange) :=
  self.m_pushConstantRanges

end IPipelineLayout

end irr.asset

/-! ## Theorems -/

namespace nbl

open core asset asset.CIntrospectionData asset.CStageIntrospectionData asset.CSPIRVIntrospector

/-! ### Byte arena: `allocOffset` -/

theorem resize_of_le (v : List Byte) (n : Nat) (h : v.length ≤ n) :
    core.resize v n = v ++ List.replicate (n - v.length) 0 := by
  unfold core.resize
  split
  · have hn : n = v.length := by omega
    subst hn
    simp
  · rfl

theorem allocOffset_pool_of_no_wrap (self : CStageIntrospectionData) (n : Nat)
    (h : self.m_memPool.length + n < 2 ^ 64) :
    (self.allocOffset n).2.m_memPool = self.m_memPool ++ List.replicate n 0 := by
  have hmod : (self.m_memPool.length + n) % SIZE_MOD = self.m_memPool.length + n :=
    Nat.mod_eq_of_lt (by simpa [SIZE_MOD] using h)
  simp only [allocOffset, hmod]
  rw [resize_of_le _ _ (by omega)]
  congr 2
  omega

/-- C1 (as stated, refuted): on a pool holding one byte, `allocOffset(2^64-1)` makes the
`size_t` sum `off+bytes` wrap to 0, so `resize(0)` empties the pool and 1 is returned: the
new size is not `old+n`, and the byte at index 0, below the old size, is gone. -/
theorem allocOffset_wrap_counterexample :
    (stageWithPool [7]).allocOffset (2 ^ 64 - 1) = (1, stageWithPool []) ∧
    ¬ (((stageWithPool [7]).allocOffset (2 ^ 64 - 1)).2.m_memPool.length
          = (stageWithPool [7]).m_memPool.length + (2 ^ 64 - 1) ∨
       ((stageWithPool [7]).allocOffset (2 ^ 64 - 1)).2.m_memPool[0]?
          = (stageWithPool [7]).m_memPool[0]?) := by
  have h : (stageWithPool [7]).allocOffset (2 ^ 64 - 1) = (1, stageWithPool []) := by
    simp [allocOffset, stageWithPool, core.resize, SIZE_MOD]
  refine ⟨h, ?_⟩
  rw [h]
  simp [stageWithPool]

/-- C1 (amended): when the `size_t` sum `old + n` does not wrap (`old + n < 2^64`),
`allocOffset(n)` returns the old pool size, leaves the pool with size `old + n`, leaves every
byte below the old size unchanged and makes every byte in `[old, old+n)` zero. -/
theorem allocOffset_contract (self : CStageIntrospectionData) (n : Nat)
    (h : self.m_memPool.length + n < 2 ^ 64) :
    (self.allocOffset n).1 = self.m_memPool.length ∧
    (self.allocOffset n).2.m_memPool.length = self.m_memPool.length + n ∧
    (∀ i, i < self.m_memPool.length →
      (self.allocOffset n).2.m_memPool[i]? = self.m_memPool[i]?) ∧
    (∀ i, self.m_memPool.length ≤ i → i < self.m_memPool.length + n →
      (self.allocOffset n).2.m_memPool[i]? = some 0) := by
  rw [allocOffset_pool_of_no_wrap self n h]
  refine ⟨rfl, by simp, ?_, ?_⟩
  · intro i hi
    rw [List.getElem?_append_left hi]
  · intro i h1 h2
    rw [List.getElem?_append_right h1]
    rw [List.getElem?_replicate]
    simp
    omega

/-- Witness of `allocOffset_contract`: a pool of two bytes grown by three. -/
theorem allocOffset_contract_witness :
    (stageWithPool [7, 9]).m_memPool.length + 3 < 2 ^ 64 ∧
    ((stageWithPool [7, 9]).allocOffset 3).1 = 2 ∧
    ((stageWithPool [7, 9]).allocOffset 3).2.m_memPool.length = 2 + 3 :=
  ⟨by simp [stageWithPool],
   (allocOffset_contract (stageWithPool [7, 9]) 3 (by simp [stageWithPool])).1,
   (allocOffset_contract (stageWithPool [7, 9]) 3 (by simp [stageWithPool])).2.1⟩

/-! ### `based_offset` -/

/-- C2 (as stated, refuted): the offset `2^64 - 2`, which is not the sentinel, resolved against
the base address 4096 yields the address 4094 and not `4096 + (2^64 - 2)`. -/
theorem based_offset_resolve_wrap_counterexample :
    2 ^ 64 - 2 ≠ InvalidOffset ∧
    ({ m_byteOffset := 2 ^ 64 - 2 } : based_offset).toBool = true ∧
    ({ m_byteOffset := 2 ^ 64 - 2 } : based_offset).resolve 4096 = 4094 ∧
    (4094 : Nat) ≠ 4096 + (2 ^ 64 - 2) := by
  refine ⟨by decide, by decide, by decide, by decide⟩

/-- C2 (amended): for every base address, resolving a default-constructed offset yields null
(the address 0), resolving any offset `k` other than the sentinel yields the address
`(base + k) mod 2^64`, which is `base + k` whenever `base + k < 2^64`, and the boolean
conversion of an offset is false exactly for the default-constructed (sentinel) offset. -/
theorem based_offset_resolve_contract (base : Nat) :
    ({} : based_offset).resolve base = 0 ∧
    (∀ k : Nat, k ≠ InvalidOffset →
      ({ m_byteOffset := k } : based_offset).resolve base = (base + k) % 2 ^ 64) ∧
    (∀ k : Nat, k ≠ InvalidOffset → base + k < 2 ^ 64 →
      ({ m_byteOffset := k } : based_offset).resolve base = base + k) ∧
    (∀ o : based_offset, o.toBool = false ↔ o = {}) := by
  refine ⟨by simp [based_offset.resolve, based_offset.toBool], ?_, ?_, ?_⟩
  · intro k hk
    simp [based_offset.resolve, based_offset.toBool, hk, SIZE_MOD]
  · intro k hk hlt
    have hmod : (base + k) % SIZE_MOD = base + k := Nat.mod_eq_of_lt hlt
    simp [based_offset.resolve, based_offset.toBool, hk, hmod]
  · intro o
    cases o with
    | mk k => simp [based_offset.toBool]

/-- Witness of `based_offset_resolve_contract`: offset 12 against base 4096. -/
theorem based_offset_resolve_contract_witness :
    (12 : Nat) ≠ InvalidOffset ∧ 4096 + 12 < 2 ^ 64 ∧
    ({ m_byteOffset := 12 } : based_offset).resolve 4096 = 4096 + 12 :=
  ⟨by decide, by decide, (based_offset_resolve_contract 4096).2.2.1 12 (by decide) (by decide)⟩

/-! ### Cache keys: `SParams::operator==`, `KeyHasher`, `KeyEquals` -/

theorem memcmp_eq_zero_iff (p q : List Byte) (h : p.length = q.length) :
    memcmp p q p.length = 0 ↔ p = q := by
  induction p generalizing q with
  | nil =>
    cases q with
    | nil => simp [memcmp]
    | cons b q => simp at h
  | cons a p ih =>
    cases q with
    | nil => simp at h
    | cons b q =>
      simp only [List.length_cons, Nat.succ.injEq] at h
      simp only [List.length_cons, memcmp]
      by_cases hab : a = b
      · simp [hab, ih q h]
      · have hv : (a.val : Int) - (b.val : Int) ≠ 0 := by
          intro h0
          apply hab
          apply Fin.ext
          omega
        simp [hab, hv]

theorem SParams_eq_present (ea eb : String) (sa sb : Object ICPUShader) :
    SParams.eq ⟨ea, some sa⟩ ⟨eb, some sb⟩ =
      some (decide (ea = eb ∧ sa.value.stage = sb.value.stage ∧
        sa.value.contentType = sb.value.contentType ∧
        sa.value.content = sb.value.content)) := by
  unfold SParams.eq
  by_cases h1 : ea = eb
  · by_cases h2 : sa.value.stage = sb.value.stage
    · by_cases h3 : sa.value.contentType = sb.value.contentType
      · by_cases h4 : sa.value.content.length = sb.value.content.length
        · have hm := memcmp_eq_zero_iff sa.value.content sb.value.content h4
          have hb : (memcmp sa.value.content sb.value.content sa.value.content.length == 0)
              = decide (sa.value.content = sb.value.content) := by
            by_cases h5 : sa.value.content = sb.value.content
            · rw [hm.mpr h5]
              simp [h5]
            · have : memcmp sa.value.content sb.value.content sa.value.content.length ≠ 0 :=
                fun h0 => h5 (hm.mp h0)
              simp [h5, this]
          simp only [hb]
          simp [h1, h2, h3, h4]
        · have h5 : sa.value.content ≠ sb.value.content := fun h => h4 (by rw [h])
          simp [h1, h2, h3, h4, h5]
      · simp [h1, h2, h3]
    · simp [h1, h2]
  · simp [h1]

theorem SParams_eq_true_iff (a b : SParams) :
    SParams.eq a b = some true ↔
      ∃ sa sb, a.shader = some sa ∧ b.shader = some sb ∧ a.entryPoint = b.entryPoint ∧
        sa.value.stage = sb.value.stage ∧ sa.value.contentType = sb.value.contentType ∧
        sa.value.content = sb.value.content := by
  obtain ⟨ea, pa⟩ := a
  obtain ⟨eb, pb⟩ := b
  cases pb with
  | none =>
    constructor
    · intro h
      by_cases he : ea = eb <;> simp [SParams.eq, he] at h
    · rintro ⟨sa, sb, _, h, _⟩
      simp at h
  | some sb =>
    cases pa with
    | none =>
      constructor
      · intro h
        by_cases he : ea = eb <;> simp [SParams.eq, he] at h
      · rintro ⟨sa, sb, h, _⟩
        simp at h
    | some sa =>
      rw [SParams_eq_present]
      simp

theorem KeyHasher_agree_of_eq (H : HashPrimitives) (a b : SParams)
    (h : SParams.eq a b = some true) :
    KeyHasher.ofParams H a = KeyHasher.ofParams H b := by
  obtain ⟨sa, sb, ha, hb, he, hs, _, hc⟩ := (SParams_eq_true_iff a b).mp h
  simp [KeyHasher.ofParams, ha, hb, he, hs, hc]

theorem SParams_eq_trans (a b c : SParams) (hab : SParams.eq a b = some true)
    (hbc : SParams.eq b c = some true) : SParams.eq a c = some true := by
  obtain ⟨sa, sb, ha, hb, he, hs, ht, hc⟩ := (SParams_eq_true_iff a b).mp hab
  obtain ⟨sb2, sc, hb2, hc2, he2, hs2, ht2, hcc⟩ := (SParams_eq_true_iff b c).mp hbc
  rw [hb] at hb2
  cases hb2
  exact (SParams_eq_true_iff a c).mpr
    ⟨sa, sc, ha, hc2, he.trans he2, hs.trans hs2, ht.trans ht2, hc.trans hcc⟩

/-- C7: for params whose shaders are both present, `a == b` is true exactly when entry points,
stages and content types are equal and the bytecode buffers have the same length and the
same bytes; the answer does not change when the shader objects are replaced by objects at
other addresses with the same contents; and `==` is reflexive, symmetric and transitive on
such params. -/
theorem SParams_eq_structural (ea eb ec : String) (sa sb sc : Object ICPUShader) :
    (∃ r, SParams.eq ⟨ea, some sa⟩ ⟨eb, some sb⟩ = some r ∧
      (r = true ↔ ea = eb ∧ sa.value.stage = sb.value.stage ∧
        sa.value.contentType = sb.value.contentType ∧
        sa.value.content.length = sb.value.content.length ∧
        ∀ i : Nat, sa.value.content[i]? = sb.value.content[i]?)) ∧
    (∀ x y : Nat, SParams.eq ⟨ea, some ⟨x, sa.value⟩⟩ ⟨eb, some ⟨y, sb.value⟩⟩ =
      SParams.eq ⟨ea, some sa⟩ ⟨eb, some sb⟩) ∧
    SParams.eq ⟨ea, some sa⟩ ⟨ea, some sa⟩ = some true ∧
    SParams.eq ⟨ea, some sa⟩ ⟨eb, some sb⟩ = SParams.eq ⟨eb, some sb⟩ ⟨ea, some sa⟩ ∧
    (SParams.eq ⟨ea, some sa⟩ ⟨eb, some sb⟩ = some true →
      SParams.eq ⟨eb, some sb⟩ ⟨ec, some sc⟩ = some true →
      SParams.eq ⟨ea, some sa⟩ ⟨ec, some sc⟩ = some true) := by
  refine ⟨⟨_, SParams_eq_present ea eb sa sb, ?_⟩, ?_, ?_, ?_, ?_⟩
  · simp only [decide_eq_true_eq]
    constructor
    · rintro ⟨h1, h2, h3, h4⟩
      exact ⟨h1, h2, h3, by rw [h4], fun i => by rw [h4]⟩
    · rintro ⟨h1, h2, h3, _, h5⟩
      exact ⟨h1, h2, h3, List.ext_getElem? h5⟩
  · intro x y
    simp only [SParams_eq_present]
  · simp [SParams_eq_present]
  · simp only [SParams_eq_present]
    congr 1
    apply decide_eq_decide.mpr
    constructor <;> rintro ⟨h1, h2, h3, h4⟩ <;> exact ⟨h1.symm, h2.symm, h3.symm, h4.symm⟩
  · exact SParams_eq_trans _ _ _

/-- Witness of `SParams_eq_structural`: two shader objects at different addresses with the
same four bytes compare equal, in both directions. -/
theorem SParams_eq_structural_witness :
    SParams.eq ⟨"main", some ⟨100, ⟨16, 1, [3, 2, 35, 7]⟩⟩⟩
        ⟨"main", some ⟨200, ⟨16, 1, [3, 2, 35, 7]⟩⟩⟩ = some true ∧
    SParams.eq ⟨"main", some ⟨200, ⟨16, 1, [3, 2, 35, 7]⟩⟩⟩
        ⟨"main", some ⟨100, ⟨16, 1, [3, 2, 35, 7]⟩⟩⟩ = some true ∧
    SParams.eq ⟨"main", some ⟨100, ⟨16, 1, [3, 2, 35, 7]⟩⟩⟩
        ⟨"main", some ⟨100, ⟨16, 1, [3, 2, 35, 7]⟩⟩⟩ = some true :=
  have h1 : SParams.eq ⟨"main", some ⟨100, ⟨16, 1, [3, 2, 35, 7]⟩⟩⟩
      ⟨"main", some ⟨200, ⟨16, 1, [3, 2, 35, 7]⟩⟩⟩ = some true := by
    simp [SParams.eq, memcmp]
  have h2 : SParams.eq ⟨"main", some ⟨200, ⟨16, 1, [3, 2, 35, 7]⟩⟩⟩
      ⟨"main", some ⟨100, ⟨16, 1, [3, 2, 35, 7]⟩⟩⟩ = some true := by
    simp [SParams.eq, memcmp]
  ⟨h1, h2,
   (SParams_eq_structural "main" "main" "main" ⟨100, ⟨16, 1, [3, 2, 35, 7]⟩⟩
      ⟨200, ⟨16, 1, [3, 2, 35, 7]⟩⟩ ⟨100, ⟨16, 1, [3, 2, 35, 7]⟩⟩).2.2.2.2 h1 h2⟩

/-- C8: for every transient params `p` and stored results `r`, `r2`: hashing a stored result
is hashing its params; each of the three `KeyEquals` overloads is `SParams::operator==` on the
underlying params; whenever `KeyEquals` reports `p` equal to `r`, both hash alike; and the
hash of params with a shader is a function of bytecode content, entry point and stage alone. -/
theorem KeyHasher_KeyEquals_consistent (H : HashPrimitives) (p : SParams)
    (r r2 : Object CStageIntrospectionData) :
    KeyHasher.ofData H (some r) = KeyHasher.ofParams H r.value.getParams ∧
    KeyEquals.paramsData p (some r) = SParams.eq p r.value.getParams ∧
    KeyEquals.dataParams (some r) p = SParams.eq r.value.getParams p ∧
    KeyEquals.dataData (some r) (some r2) = SParams.eq r.value.getParams r2.value.getParams ∧
    (KeyEquals.paramsData p (some r) = some true →
      KeyHasher.ofParams H p = KeyHasher.ofData H (some r)) ∧
    (∀ (e : String) (s1 s2 : Object ICPUShader),
      s1.value.content = s2.value.content → s1.value.stage = s2.value.stage →
      KeyHasher.ofParams H ⟨e, some s1⟩ = KeyHasher.ofParams H ⟨e, some s2⟩) := by
  refine ⟨rfl, rfl, rfl, rfl, ?_, ?_⟩
  · intro h
    exact KeyHasher_agree_of_eq H p r.value.getParams h
  · intro e s1 s2 hc hs
    simp [KeyHasher.ofParams, hc, hs]

/-- Witness of `KeyHasher_KeyEquals_consistent`: a transient key and a stored result built
from a second shader object with the same bytes compare equal and hash alike. -/
theorem KeyHasher_KeyEquals_consistent_witness :
    KeyEquals.paramsData ⟨"main", some ⟨100, ⟨16, 1, [3, 2, 35, 7]⟩⟩⟩
      (some ⟨500, { m_shaderStage := 16,
                    m_params := ⟨"main", some ⟨200, ⟨16, 1, [3, 2, 35, 7]⟩⟩⟩,
                    m_input := [], m_output := .inl [], m_memPool := [] }⟩) = some true ∧
    KeyHasher.ofParams ⟨fun bs => bs.length, fun h e => h + e.length, fun h v => h + v⟩
      ⟨"main", some ⟨100, ⟨16, 1, [3, 2, 35, 7]⟩⟩⟩ =
    KeyHasher.ofData ⟨fun bs => bs.length, fun h e => h + e.length, fun h v => h + v⟩
      (some ⟨500, { m_shaderStage := 16,
                    m_params := ⟨"main", some ⟨200, ⟨16, 1, [3, 2, 35, 7]⟩⟩⟩,
                    m_input := [], m_output := .inl [], m_memPool := [] }⟩) :=
  have h : KeyEquals.paramsData ⟨"main", some ⟨100, ⟨16, 1, [3, 2, 35, 7]⟩⟩⟩
      (some ⟨500, { m_shaderStage := 16,
                    m_params := ⟨"main", some ⟨200, ⟨16, 1, [3, 2, 35, 7]⟩⟩⟩,
                    m_input := [], m_output := .inl [], m_memPool := [] }⟩) = some true := by
    simp [KeyEquals.paramsData, getParams, SParams.eq, memcmp]
  ⟨h, (KeyHasher_KeyEquals_consistent _ _ _ ⟨0, stageWithPool []⟩).2.2.2.2.1 h⟩

/-! ### Introspection cache: `introspect` -/

theorem find_of_shader (H : HashPrimitives) (cache : ParamsToDataMap) (p : SParams)
    (sh : Object ICPUShader) (hsh : p.shader = some sh) :
    ∃ h, KeyHasher.ofParams H p = some h ∧
      ParamsToDataMap.find H cache p = some (cache.find? fun e =>
        decide (KeyHasher.ofData H (some e) = some h) &&
          (KeyEquals.paramsData p (some e) == some true)) := by
  refine ⟨H.hash_combine_u32
    (H.hash_combine_sv (H.stringViewHasher sh.value.content) p.entryPoint) sh.value.stage,
    ?_, ?_⟩
  · simp only [KeyHasher.ofParams, hsh]
  · simp only [ParamsToDataMap.find, KeyHasher.ofParams, hsh]

/-- C3: when the shader is missing or its content type is not SPIR-V, `introspect` returns
null and leaves the introspector (its cache) and the state `doIntrospection` works on as
they were, for every `doIntrospection` and both values of `insertToCache`: the build is
never invoked. -/
theorem introspect_rejects_input {σ : Type}
    (doIntrospection : SParams → σ → smart_refctd_ptr CStageIntrospectionData × σ)
    (ECT_SPIRV : Nat) (H : HashPrimitives) (self : CSPIRVIntrospector) (world : σ)
    (params : SParams) (insertToCache : Bool)
    (h : params.shader = none ∨
      ∃ sh, params.shader = some sh ∧ sh.value.contentType ≠ ECT_SPIRV) :
    introspect doIntrospection ECT_SPIRV H self world params insertToCache =
      some { retval := none, self := self, world := world } := by
  rcases h with h | ⟨sh, h, hct⟩
  · simp only [introspect, h]
  · simp only [introspect, h]
    rw [if_pos hct]

/-- Witness of `introspect_rejects_input`: a GLSL (content type 0) shader against
`ECT_SPIRV = 1`, with a build that would count its invocations. -/
theorem introspect_rejects_input_witness :
    introspect (fun _ (n : Nat) => (none, n + 1)) 1
      ⟨fun bs => bs.length, fun h e => h + e.length, fun h v => h + v⟩ ⟨[]⟩ 0
      ⟨"main", some ⟨100, ⟨16, 0, [35, 118]⟩⟩⟩ true =
      some { retval := none, self := ⟨[]⟩, world := 0 } :=
  introspect_rejects_input _ 1 _ ⟨[]⟩ 0 ⟨"main", some ⟨100, ⟨16, 0, [35, 118]⟩⟩⟩ true
    (Or.inr ⟨_, rfl, by decide⟩)

/-- C6: for every cache state and every params, `introspect(params, false)` returns and
leaves the introspector with exactly the cache it had. -/
theorem introspect_no_insert_keeps_cache {σ : Type}
    (doIntrospection : SParams → σ → smart_refctd_ptr CStageIntrospectionData × σ)
    (ECT_SPIRV : Nat) (H : HashPrimitives) (self : CSPIRVIntrospector) (world : σ)
    (params : SParams) :
    ∃ r, introspect doIntrospection ECT_SPIRV H self world params false = some r ∧
      r.self.m_introspectionCache = self.m_introspectionCache := by
  cases hsh : params.shader with
  | none =>
    exact ⟨{ retval := none, self := self, world := world }, by simp only [introspect, hsh],
      rfl⟩
  | some sh =>
    by_cases hct : sh.value.contentType ≠ ECT_SPIRV
    · refine ⟨{ retval := none, self := self, world := world }, ?_, rfl⟩
      simp only [introspect, hsh]
      rw [if_pos hct]
    · obtain ⟨h, _, hfind⟩ := find_of_shader H self.m_introspectionCache params sh hsh
      simp only [introspect, hsh]
      rw [if_neg hct, hfind]
      cases self.m_introspectionCache.find? _ with
      | none =>
        exact ⟨{ retval := (doIntrospection params world).1, self := self,
                 world := (doIntrospection params world).2 }, by simp, rfl⟩
      | some e => exact ⟨{ retval := some e, self := self, world := world }, rfl, rfl⟩

theorem insert_fresh (H : HashPrimitives) (cache : ParamsToDataMap) (p : SParams)
    (r : Object CStageIntrospectionData) (h : Nat)
    (hp : KeyHasher.ofParams H p = some h)
    (heq : SParams.eq p r.value.m_params = some true)
    (hmiss : cache.find? (fun e =>
        decide (KeyHasher.ofData H (some e) = some h) &&
          (KeyEquals.paramsData p (some e) == some true)) = none) :
    ParamsToDataMap.insert H cache (some r) = some (cache ++ [r]) := by
  have hr : KeyHasher.ofData H (some r) = some h := by
    rw [← hp]
    exact (KeyHasher_agree_of_eq H p r.value.m_params heq).symm
  have hany : (cache.any fun e =>
      decide (KeyHasher.ofData H (some e) = some h) &&
        (KeyEquals.dataData (some r) (some e) == some true)) = false := by
    rw [List.any_eq_false]
    intro e he hpred
    simp only [Bool.and_eq_true, decide_eq_true_eq, beq_iff_eq] at hpred
    have hpe : SParams.eq p e.value.m_params = some true :=
      SParams_eq_trans p r.value.m_params e.value.m_params heq hpred.2
    have := List.find?_eq_none.mp hmiss e he
    apply this
    simp only [Bool.and_eq_true, decide_eq_true_eq, beq_iff_eq]
    exact ⟨hpred.1, hpe⟩
  simp only [ParamsToDataMap.insert, hr, hany]
  simp

/-- C4: for params `p` with a SPIR-V shader for which `doIntrospection` yields a result whose
stored params compare equal to `p`, two calls `introspect(p, true)` in a row both return the
same pointer `e` (same address, same contents). After the first call `e` is an element of the
cache, its stored params compare equal to `p`, and the lookup of `p` in the cache finds it;
the second call returns `e` and changes neither the cache nor the state `doIntrospection`
works on. Over both calls `doIntrospection` ran either not at all (the first call found `e`
in the cache it was given) or exactly once, on `p`, in the first call, which then returned
the object built and added it to the cache. -/
theorem introspect_twice_hits_cache {σ : Type}
    (doIntrospection : SParams → σ → smart_refctd_ptr CStageIntrospectionData × σ)
    (ECT_SPIRV : Nat) (H : HashPrimitives) (self : CSPIRVIntrospector) (world : σ)
    (p : SParams) (sh : Object ICPUShader) (r : Object CStageIntrospectionData)
    (hsh : p.shader = some sh) (hct : sh.value.contentType = ECT_SPIRV)
    (hbuild : (doIntrospection p world).1 = some r)
    (heq : SParams.eq p r.value.getParams = some true) :
    ∃ e r1,
      introspect doIntrospection ECT_SPIRV H self world p true = some r1 ∧
      introspect doIntrospection ECT_SPIRV H r1.self r1.world p true =
        some { retval := some e, self := r1.self, world := r1.world } ∧
      r1.retval = some e ∧
      e ∈ r1.self.m_introspectionCache ∧
      SParams.eq p e.value.getParams = some true ∧
      ParamsToDataMap.find H r1.self.m_introspectionCache p = some (some e) ∧
      ((ParamsToDataMap.find H self.m_introspectionCache p = some (some e) ∧
          r1.self.m_introspectionCache = self.m_introspectionCache ∧ r1.world = world) ∨
       (ParamsToDataMap.find H self.m_introspectionCache p = some none ∧
          some e = (doIntrospection p world).1 ∧
          r1.self.m_introspectionCache = self.m_introspectionCache ++ [e] ∧
          r1.world = (doIntrospection p world).2)) := by
  obtain ⟨h, hp, hfind⟩ := find_of_shader H self.m_introspectionCache p sh hsh
  have hct2 : ¬ sh.value.contentType ≠ ECT_SPIRV := by simp [hct]
  cases hf : self.m_introspectionCache.find? (fun e =>
        decide (KeyHasher.ofData H (some e) = some h) &&
          (KeyEquals.paramsData p (some e) == some true)) with
  | some e =>
    have hcall : introspect doIntrospection ECT_SPIRV H self world p true =
        some { retval := some e, self := self, world := world } := by
      simp only [introspect, hsh]
      rw [if_neg hct2, hfind, hf]
    have hpred := List.find?_some hf
    simp only [Bool.and_eq_true, decide_eq_true_eq, beq_iff_eq] at hpred
    have hfe : ParamsToDataMap.find H self.m_introspectionCache p = some (some e) := by
      rw [hfind, hf]
    exact ⟨e, { retval := some e, self := self, world := world }, hcall, hcall, rfl,
      List.mem_of_find?_eq_some hf, hpred.2, hfe, Or.inl ⟨hfe, rfl, rfl⟩⟩
  | none =>
    have hins := insert_fresh H self.m_introspectionCache p r h hp heq hf
    have hcall : introspect doIntrospection ECT_SPIRV H self world p true =
        some { retval := some r, self := ⟨self.m_introspectionCache ++ [r]⟩,
               world := (doIntrospection p world).2 } := by
      simp only [introspect, hsh]
      rw [if_neg hct2, hfind, hf]
      simp only [hbuild, hins, if_true]
    obtain ⟨h2, hp2, hfind2⟩ :=
      find_of_shader H (self.m_introspectionCache ++ [r]) p sh hsh
    have hh : h2 = h := by
      rw [hp] at hp2
      exact (Option.some.inj hp2).symm
    subst hh
    have hr : KeyHasher.ofData H (some r) = some h2 := by
      rw [← hp]
      exact (KeyHasher_agree_of_eq H p r.value.m_params heq).symm
    have hf2 : (self.m_introspectionCache ++ [r]).find? (fun e =>
        decide (KeyHasher.ofData H (some e) = some h2) &&
          (KeyEquals.paramsData p (some e) == some true)) = some r := by
      rw [List.find?_append, hf]
      have hpr : KeyEquals.paramsData p (some r) = some true := heq
      simp [List.find?, hr, hpr]
    have hfr : ParamsToDataMap.find H (self.m_introspectionCache ++ [r]) p =
        some (some r) := by
      rw [hfind2, hf2]
    have hcall2 : introspect doIntrospection ECT_SPIRV H ⟨self.m_introspectionCache ++ [r]⟩
        (doIntrospection p world).2 p true =
        some { retval := some r, self := ⟨self.m_introspectionCache ++ [r]⟩,
               world := (doIntrospection p world).2 } := by
      simp only [introspect, hsh]
      rw [if_neg hct2, hfind2, hf2]
    have hmiss : ParamsToDataMap.find H self.m_introspectionCache p = some none := by
      rw [hfind, hf]
    exact ⟨r, ⟨some r, ⟨self.m_introspectionCache ++ [r]⟩, (doIntrospection p world).2⟩,
      hcall, hcall2, rfl, List.mem_append_right _ (List.mem_singleton.mpr rfl), heq, hfr,
      Or.inr ⟨hmiss, hbuild.symm, rfl, rfl⟩⟩

/-- Witness of `introspect_twice_hits_cache`: on an empty cache with a build that counts its
invocations, the first call builds object 1000 and adds it to the cache, and the second call
returns it again with the cache as it was and the counter still at 1. -/
theorem introspect_twice_hits_cache_witness :
    ∃ e r1,
      introspect countingBuild 1 exampleHash ⟨[]⟩ 0 (exampleParams 100) true = some r1 ∧
      introspect countingBuild 1 exampleHash r1.self r1.world (exampleParams 100) true =
        some { retval := some e, self := r1.self, world := r1.world } ∧
      r1.retval = some e ∧
      e ∈ r1.self.m_introspectionCache ∧
      SParams.eq (exampleParams 100) e.value.getParams = some true ∧
      ParamsToDataMap.find exampleHash r1.self.m_introspectionCache (exampleParams 100) =
        some (some e) ∧
      ((ParamsToDataMap.find exampleHash [] (exampleParams 100) = some (some e) ∧
          r1.self.m_introspectionCache = [] ∧ r1.world = 0) ∨
       (ParamsToDataMap.find exampleHash [] (exampleParams 100) = some none ∧
          some e = (countingBuild (exampleParams 100) 0).1 ∧
          r1.self.m_introspectionCache = [] ++ [e] ∧
          r1.world = (countingBuild (exampleParams 100) 0).2)) :=
  introspect_twice_hits_cache countingBuild 1 exampleHash ⟨[]⟩ 0 (exampleParams 100)
    ⟨100, ⟨16, 1, [3, 2, 35, 7]⟩⟩
    ⟨1000, { m_shaderStage := 16, m_params := exampleParams 100, m_input := [],
             m_output := .inl [], m_memPool := [] }⟩
    rfl rfl rfl (by simp [exampleParams, getParams, SParams.eq, memcmp])

/-- C5 (the code at the failing input): with an empty cache, SPIR-V params and a
`doIntrospection` that fails, `introspect(params, true)` passes the null pointer to
`insert`, whose hasher dereferences it (no result: undefined behaviour), whereas
`introspect(params, false)` returns null with the cache unchanged. -/
theorem introspect_failed_build_inserts_null :
    introspect failingBuild 1 exampleHash ⟨[]⟩ 0 (exampleParams 100) true = none ∧
    ParamsToDataMap.insert exampleHash [] (failingBuild (exampleParams 100) 0).1 = none ∧
    introspect failingBuild 1 exampleHash ⟨[]⟩ 0 (exampleParams 100) false =
      some { retval := none, self := ⟨[]⟩, world := 1 } := by
  refine ⟨?_, ?_, ?_⟩
  · simp [introspect, exampleParams, ParamsToDataMap.find, KeyHasher.ofParams, failingBuild,
      ParamsToDataMap.insert]
  · simp [failingBuild, ParamsToDataMap.insert]
  · simp [introspect, exampleParams, ParamsToDataMap.find, KeyHasher.ofParams, failingBuild]

/-! ### Stage results: output getters -/

/-- C10 (the code at the failing input): asked for the fragment outputs, a vertex stage result
(stage 1, with `ESS_UNKNOWN = 0`, `ESS_FRAGMENT = 16`) returns a reference to a destroyed
temporary and not an empty list, and so does a fragment or unknown stage result asked for the
generic outputs; no result returns the empty list for a stage that is not its own. In the
remaining cases each getter returns the stored list of its variant. -/
theorem output_getters_wrong_stage_dangling :
    getFragmentShaderOutputs 16
      { m_shaderStage := 1, m_params := exampleParams 100, m_input := [],
        m_output := .inr [⟨⟨0, 1, .F32⟩⟩], m_memPool := [] } = none ∧
    getShaderOutputs 0 16
      { m_shaderStage := 16, m_params := exampleParams 100, m_input := [],
        m_output := .inl [⟨⟨⟨0, 1, .F32⟩⟩, 0⟩], m_memPool := [] } = none ∧
    getShaderOutputs 0 16
      { m_shaderStage := 0, m_params := exampleParams 100, m_input := [],
        m_output := .inr [], m_memPool := [] } = none ∧
    (∀ (ESS_UNKNOWN ESS_FRAGMENT : Nat) (self : CStageIntrospectionData),
      (self.m_shaderStage = ESS_FRAGMENT ∨
        self.getFragmentShaderOutputs ESS_FRAGMENT = none) ∧
      ((self.m_shaderStage ≠ ESS_UNKNOWN ∧ self.m_shaderStage ≠ ESS_FRAGMENT) ∨
        self.getShaderOutputs ESS_UNKNOWN ESS_FRAGMENT = none)) ∧
    getShaderOutputs 0 16
      { m_shaderStage := 1, m_params := exampleParams 100, m_input := [],
        m_output := .inr [⟨⟨0, 1, .F32⟩⟩], m_memPool := [] } = some [⟨⟨0, 1, .F32⟩⟩] ∧
    getFragmentShaderOutputs 16
      { m_shaderStage := 16, m_params := exampleParams 100, m_input := [],
        m_output := .inl [⟨⟨⟨0, 1, .F32⟩⟩, 0⟩], m_memPool := [] }
      = some [⟨⟨⟨0, 1, .F32⟩⟩, 0⟩] := by
  refine ⟨rfl, rfl, rfl, ?_, rfl, rfl⟩
  intro ESS_UNKNOWN ESS_FRAGMENT self
  constructor
  · by_cases h : self.m_shaderStage = ESS_FRAGMENT
    · exact Or.inl h
    · exact Or.inr (by simp [getFragmentShaderOutputs, h])
  · by_cases h : self.m_shaderStage = ESS_UNKNOWN ∨ self.m_shaderStage = ESS_FRAGMENT
    · exact Or.inr (by simp only [getShaderOutputs, if_pos h])
    · exact Or.inl ⟨fun h1 => h (Or.inl h1), fun h2 => h (Or.inr h2)⟩

/-! ### Array extents: `addCounts` -/

theorem storeBytes_length (pool : List Byte) (addr : Nat) (bs pool2 : List Byte)
    (h : storeBytes pool addr bs = some pool2) : pool2.length = pool.length := by
  unfold storeBytes at h
  split at h
  · cases h
    simp
    omega
  · cases h

theorem storeBytes_getElem? (pool : List Byte) (addr : Nat) (bs pool2 : List Byte)
    (h : storeBytes pool addr bs = some pool2) (j : Nat) :
    pool2[j]? = if addr ≤ j ∧ j < addr + bs.length then bs[j - addr]? else pool[j]? := by
  unfold storeBytes at h
  split at h
  · cases h
    have hl : (List.take addr pool).length = addr := by simp; omega
    by_cases h1 : j < addr
    · rw [List.append_assoc, List.getElem?_append_left (by omega)]
      rw [if_neg (by omega)]
      rw [List.getElem?_take_of_lt h1]
    · by_cases h2 : j < addr + bs.length
      · rw [List.append_assoc, List.getElem?_append_right (by omega), hl]
        rw [List.getElem?_append_left (by omega)]
        rw [if_pos ⟨by omega, h2⟩]
      · rw [List.getElem?_append_right (by simp; omega)]
        rw [if_neg (by omega)]
        rw [List.getElem?_drop]
        congr 1
        simp
        omega
  · cases h

theorem loadBytes_congr (pool pool2 : List Byte) (a n : Nat)
    (hlen : pool2.length = pool.length)
    (h : ∀ k, k < n → pool2[a + k]? = pool[a + k]?) :
    loadBytes pool2 a n = loadBytes pool a n := by
  unfold loadBytes
  rw [hlen]
  split
  · congr 1
    apply List.ext_getElem?
    intro k
    by_cases hk : k < n
    · rw [List.getElem?_take_of_lt hk, List.getElem?_take_of_lt hk, List.getElem?_drop, List.getElem?_drop]
      exact h k hk
    · rw [List.getElem?_eq_none (by simp; omega), List.getElem?_eq_none (by simp; omega)]
  · rfl

theorem loadBytes_storeBytes_same (pool : List Byte) (addr : Nat) (bs pool2 : List Byte)
    (h : storeBytes pool addr bs = some pool2) :
    loadBytes pool2 addr bs.length = some bs := by
  have hlen := storeBytes_length pool addr bs pool2 h
  have hb : addr + bs.length ≤ pool.length := by
    unfold storeBytes at h
    split at h
    · assumption
    · cases h
  unfold loadBytes
  rw [if_pos (by omega)]
  congr 1
  apply List.ext_getElem?
  intro k
  by_cases hk : k < bs.length
  · rw [List.getElem?_take_of_lt hk, List.getElem?_drop, storeBytes_getElem? pool addr bs pool2 h]
    rw [if_pos (by omega)]
    congr 1
    omega
  · rw [List.getElem?_eq_none (by simp; omega), List.getElem?_eq_none (by omega)]

theorem decodeU32_encodeU32 (v : Nat) (h : v < 2 ^ 32) : decodeU32 (encodeU32 v) = v := by
  simp only [encodeU32, decodeU32]
  omega

theorem loadSArrayInfo_store_same (pool : List Byte) (addr : Nat) (a : SArrayInfo)
    (pool2 : List Byte) (hv : a.value < 2 ^ 32)
    (h : storeSArrayInfo pool addr a = some pool2) :
    loadSArrayInfo pool2 addr = some a := by
  have := loadBytes_storeBytes_same pool addr (encodeU32 a.value) pool2 h
  have hl : (encodeU32 a.value).length = 4 := rfl
  rw [hl] at this
  simp only [loadSArrayInfo, this, Option.map_some', decodeU32_encodeU32 a.value hv]

theorem loadSArrayInfo_store_other (pool : List Byte) (addr : Nat) (a : SArrayInfo)
    (pool2 : List Byte) (h : storeSArrayInfo pool addr a = some pool2) (b : Nat)
    (hb : b + 4 ≤ addr ∨ addr + 4 ≤ b) :
    loadSArrayInfo pool2 b = loadSArrayInfo pool b := by
  have hlen := storeBytes_length pool addr _ pool2 h
  have hl : (encodeU32 a.value).length = 4 := rfl
  unfold loadSArrayInfo
  rw [loadBytes_congr pool pool2 b 4 hlen]
  intro k hk
  rw [storeBytes_getElem? pool addr _ pool2 h, hl]
  rw [if_neg (by omega)]

theorem storeSArrayInfo_some (pool : List Byte) (addr : Nat) (a : SArrayInfo)
    (h : addr + 4 ≤ pool.length) :
    ∃ pool2, storeSArrayInfo pool addr a = some pool2 ∧ pool2.length = pool.length := by
  have hl : (encodeU32 a.value).length = 4 := rfl
  have hs : storeSArrayInfo pool addr a =
      some (pool.take addr ++ encodeU32 a.value ++ pool.drop (addr + (encodeU32 a.value).length)) := by
    simp only [storeSArrayInfo, storeBytes, hl]
    rw [if_pos h]
  exact ⟨_, hs, storeBytes_length pool addr _ _ hs⟩

theorem loadSArrayInfo_some (pool : List Byte) (addr : Nat) (h : addr + 4 ≤ pool.length) :
    ∃ a, loadSArrayInfo pool addr = some a := by
  simp only [loadSArrayInfo, loadBytes]
  rw [if_pos h]
  exact ⟨_, rfl⟩

/-- The word the loop body of `addCounts` leaves in slot `i`. -/
theorem addCounts_body_spec (sizes : Nat → Nat) (lit : Nat → Bool) (base : Nat)
    (pool : List Byte) (i : Nat) (h : base + 4 * i + 4 ≤ pool.length) :
    ∃ pool2, addCounts.body sizes lit base pool i = some pool2 ∧
      pool2.length = pool.length ∧
      loadSArrayInfo pool2 (base + 4 * i) =
        some { value := if lit i then sizes i % 2 ^ 32 else 2 ^ 31 + sizes i % 2 ^ 31 } ∧
      ∀ b, b + 4 ≤ base + 4 * i ∨ base + 4 * i + 4 ≤ b →
        loadSArrayInfo pool2 b = loadSArrayInfo pool b := by
  cases hl : lit i with
  | true =>
    obtain ⟨pool2, hs, hlen⟩ :=
      storeSArrayInfo_some pool (base + 4 * i) { value := sizes i % 2 ^ 32 } h
    refine ⟨pool2, ?_, hlen, ?_, ?_⟩
    · simp only [addCounts.body, hl, if_true, hs]
    · simp only [if_true]
      exact loadSArrayInfo_store_same pool _ _ pool2 (Nat.mod_lt _ (by norm_num)) hs
    · intro b hb
      exact loadSArrayInfo_store_other pool _ _ pool2 hs b hb
  | false =>
    obtain ⟨a, ha⟩ := loadSArrayInfo_some pool (base + 4 * i) h
    obtain ⟨pool1, hs1, hlen1⟩ :=
      storeSArrayInfo_some pool (base + 4 * i) (a.setSpecID (sizes i)) h
    have hv1 : (a.setSpecID (sizes i)).value < 2 ^ 32 := by
      simp only [SArrayInfo.setSpecID]
      omega
    have hl1 := loadSArrayInfo_store_same pool _ _ pool1 hv1 hs1
    obtain ⟨pool2, hs2, hlen2⟩ :=
      storeSArrayInfo_some pool1 (base + 4 * i)
        ((a.setSpecID (sizes i)).setIsSpecConstant true) (by omega)
    have hv2 : ((a.setSpecID (sizes i)).setIsSpecConstant true).value < 2 ^ 32 := by
      simp only [SArrayInfo.setIsSpecConstant, if_true]
      omega
    have hl2 := loadSArrayInfo_store_same pool1 _ _ pool2 hv2 hs2
    have hval : ((a.setSpecID (sizes i)).setIsSpecConstant true) =
        { value := 2 ^ 31 + sizes i % 2 ^ 31 } := by
      simp only [SArrayInfo.setIsSpecConstant, SArrayInfo.setSpecID, if_true]
      congr 1
      omega
    refine ⟨pool2, ?_, by omega, ?_, ?_⟩
    · simp only [addCounts.body, hl, ha, hs1, hl1, hs2, Option.some_bind, Bool.false_eq_true,
        if_false]
    · rw [hl2, hval]
      simp
    · intro b hb
      rw [loadSArrayInfo_store_other pool1 _ _ pool2 hs2 b hb,
        loadSArrayInfo_store_other pool _ _ pool1 hs1 b hb]

/-- Invariant of the loop of `addCounts` after `n` iterations. -/
theorem addCounts_loop_spec (sizes : Nat → Nat) (lit : Nat → Bool) (base : Nat)
    (pool : List Byte) (n : Nat) (h : base + 4 * n ≤ pool.length) :
    ∃ pool2, addCounts.loop sizes lit base n pool = some pool2 ∧
      pool2.length = pool.length ∧
      (∀ i, i < n → loadSArrayInfo pool2 (base + 4 * i) =
        some { value := if lit i then sizes i % 2 ^ 32 else 2 ^ 31 + sizes i % 2 ^ 31 }) := by
  induction n with
  | zero => exact ⟨pool, rfl, rfl, fun i hi => absurd hi (Nat.not_lt_zero i)⟩
  | succ n ih =>
    obtain ⟨p1, hp1, hlen1, hinv⟩ := ih (by omega)
    obtain ⟨p2, hp2, hlen2, hnew, hold⟩ :=
      addCounts_body_spec sizes lit base p1 n (by omega)
    refine ⟨p2, ?_, by omega, ?_⟩
    · simp only [addCounts.loop, hp1, Option.some_bind, hp2]
    · intro i hi
      by_cases hin : i = n
      · subst hin
        exact hnew
      · rw [hold (base + 4 * i) (Or.inl (by omega))]
        exact hinv i (by omega)

theorem addCounts_eq_loop (self : CStageIntrospectionData) (count : Nat) (sizes : Nat → Nat)
    (lit : Nat → Bool) (hpos : 0 < count)
    (hfit : self.m_memPool.length + 4 * count < 2 ^ 64) :
    self.addCounts count sizes lit =
      (addCounts.loop sizes lit (0 + self.m_memPool.length) count
        (self.m_memPool ++ List.replicate (4 * count) 0)).map fun pool =>
          (({ m_byteOffset := self.m_memPool.length, m_size := count } : based_span),
            { self with m_memPool := pool }) := by
  have hmod : 4 * count % SIZE_MOD = 4 * count :=
    Nat.mod_eq_of_lt (by simp only [SIZE_MOD]; omega)
  have hpool := allocOffset_pool_of_no_wrap self (4 * count) hfit
  have hc : count ≠ 0 := by omega
  have hne : (count == 0) = false := by simpa using hc
  simp only [addCounts, if_neg hc, alloc, hmod, based_span.resolve, based_span.empty, hne,
    Bool.not_false, if_true, hpool]
  rfl

/-- C9 (as stated, refuted): one dimension of size `2^31` on an empty pool. Reported as a
literal it reads back with the spec-constant flag set; reported as a specialization
constant it reads back with `specID = 0`, not the given id. -/
theorem addCounts_bit31_counterexample :
    (∃ out a, (stageWithPool []).addCounts 1 (fun _ => 2 ^ 31) (fun _ => true) = some out ∧
      loadSArrayInfo out.2.m_memPool (out.1.m_byteOffset + 4 * 0) = some a ∧
      ¬ (a.isSpecConstant = false ∧ a.value = 2 ^ 31)) ∧
    (∃ out a, (stageWithPool []).addCounts 1 (fun _ => 2 ^ 31) (fun _ => false) = some out ∧
      loadSArrayInfo out.2.m_memPool (out.1.m_byteOffset + 4 * 0) = some a ∧
      ¬ (a.isSpecConstant = true ∧ a.specID = 2 ^ 31)) := by
  constructor
  · refine ⟨(⟨0, 1⟩, stageWithPool [0, 0, 0, 128]), ⟨2 ^ 31⟩, by decide, by decide, by decide⟩
  · refine ⟨(⟨0, 1⟩, stageWithPool [0, 0, 0, 128]), ⟨2 ^ 31⟩, by decide, by decide, by decide⟩

/-- C9 (amended): `addCounts` with no dimensions returns the default (empty) span and leaves
the stage data as it is. For `count > 0` dimensions whose sizes and ids are all below `2^31`,
with the grown pool within `size_t` range (`old + 4*count < 2^64`), it returns the span of
`count` records starting at the old pool size, and record `i` reads back from the new pool
as follows: for a literal the spec-constant flag is clear and the value is the given size;
for a specialization constant the flag is set and `specID` is the given id; and the record is
runtime-sized exactly when dimension `i` was a literal of size 0. -/
theorem addCounts_contract (self : CStageIntrospectionData) (count : Nat)
    (sizes : Nat → Nat) (lit : Nat → Bool) :
    self.addCounts 0 sizes lit = some ({}, self) ∧
    (0 < count → self.m_memPool.length + 4 * count < 2 ^ 64 →
      (∀ i, i < count → sizes i < 2 ^ 31) →
      ∃ out, self.addCounts count sizes lit = some out ∧
        out.1 = { m_byteOffset := self.m_memPool.length, m_size := count } ∧
        out.2.m_memPool.length = self.m_memPool.length + 4 * count ∧
        ∀ i, i < count →
          ∃ a, loadSArrayInfo out.2.m_memPool (out.1.m_byteOffset + 4 * i) = some a ∧
            (lit i = true → a.isSpecConstant = false ∧ a.value = sizes i) ∧
            (lit i = false → a.isSpecConstant = true ∧ a.specID = sizes i) ∧
            (a.isRuntimeSized = true ↔ (lit i = true ∧ sizes i = 0))) := by
  refine ⟨by simp [addCounts], ?_⟩
  intro hpos hfit hsz
  obtain ⟨pool2, hloop, hlen, hinv⟩ :=
    addCounts_loop_spec sizes lit (0 + self.m_memPool.length)
      (self.m_memPool ++ List.replicate (4 * count) 0) count (by simp)
  refine ⟨(⟨self.m_memPool.length, count⟩, { self with m_memPool := pool2 }), ?_, rfl, ?_, ?_⟩
  · rw [addCounts_eq_loop self count sizes lit hpos hfit, hloop]
    rfl
  · simp only [hlen, List.length_append, List.length_replicate]
  · intro i hi
    have hs := hsz i hi
    have hrd := hinv i hi
    rw [Nat.zero_add] at hrd
    refine ⟨_, hrd, ?_, ?_, ?_⟩
    · intro hl
      have h32 : sizes i % 2 ^ 32 = sizes i := Nat.mod_eq_of_lt (by omega)
      have hdiv : sizes i / 2 ^ 31 = 0 := Nat.div_eq_of_lt hs
      simp [hl, SArrayInfo.isSpecConstant]
      omega
    · intro hl
      have h31 : sizes i % 2 ^ 31 = sizes i := Nat.mod_eq_of_lt hs
      have hdiv : (2 ^ 31 + sizes i) / 2 ^ 31 % 2 = 1 := by omega
      have hmod : (2 ^ 31 + sizes i) % 2 ^ 31 = sizes i := by omega
      simp [hl, h31, SArrayInfo.isSpecConstant, SArrayInfo.specID, hdiv, hmod]
      omega
    · cases hl : lit i with
      | true =>
        have h32 : sizes i % 2 ^ 32 = sizes i := Nat.mod_eq_of_lt (by omega)
        have hdiv : sizes i / 2 ^ 31 = 0 := Nat.div_eq_of_lt hs
        simp [SArrayInfo.isRuntimeSized, SArrayInfo.isSpecConstant]
        omega
      | false =>
        have h31 : sizes i % 2 ^ 31 = sizes i := Nat.mod_eq_of_lt hs
        have hdiv : (2 ^ 31 + sizes i) / 2 ^ 31 % 2 = 1 := by omega
        simp [h31, SArrayInfo.isRuntimeSized, SArrayInfo.isSpecConstant, hdiv]

/-- Witness of `addCounts_contract`: the extents `[4], [] (literal 0), [spec-constant 7]`
appended to a pool of two bytes. -/
theorem addCounts_contract_witness :
    ∃ out, (stageWithPool [7, 9]).addCounts 3 (fun i => if i = 0 then 4 else if i = 1 then 0 else 7)
        (fun i => decide (i < 2)) = some out ∧
      out.1 = { m_byteOffset := 2, m_size := 3 } ∧
      out.2.m_memPool.length = 2 + 4 * 3 ∧
      ∀ i, i < 3 →
        ∃ a, loadSArrayInfo out.2.m_memPool (out.1.m_byteOffset + 4 * i) = some a ∧
          (decide (i < 2) = true → a.isSpecConstant = false ∧
            a.value = (if i = 0 then 4 else if i = 1 then 0 else 7)) ∧
          (decide (i < 2) = false → a.isSpecConstant = true ∧
            a.specID = (if i = 0 then 4 else if i = 1 then 0 else 7)) ∧
          (a.isRuntimeSized = true ↔
            (decide (i < 2) = true ∧ (if i = 0 then 4 else if i = 1 then 0 else 7) = 0)) :=
  (addCounts_contract (stageWithPool [7, 9]) 3
    (fun i => if i = 0 then 4 else if i = 1 then 0 else 7) (fun i => decide (i < 2))).2
    (by decide) (by simp [stageWithPool])
    (fun i _ => by split_ifs <;> norm_num)

/-! ### Descriptor records: `isRunTimeSized` -/

open asset.CStageIntrospectionData.SDescriptorVarInfo in
/-- C20: `isRunTimeSized()` of a descriptor binding record is true exactly when the record is
an array whose first extent is runtime-sized in the sense of `SArrayInfo::isRuntimeSized`; it
is false for every record that is no array, for every first extent with a non-zero literal
count, and for every first extent with the spec-constant flag set, in particular for the
extent `addCounts` writes for any specialization constant id, 0 included. -/
theorem isRunTimeSized_iff_first_extent (d : SDescriptorVarInfo) :
    (d.isRunTimeSized = true ↔
      d.isArray = true ∧ ∃ a rest, d.count = a :: rest ∧ a.isRuntimeSized = true) ∧
    (d.isArray = false → d.isRunTimeSized = false) ∧
    (∀ a rest, d.count = a :: rest → a.isSpecConstant = false → a.value ≠ 0 →
      d.isRunTimeSized = false) ∧
    (∀ a rest, d.count = a :: rest → a.isSpecConstant = true → d.isRunTimeSized = false) ∧
    (∀ (a0 : SArrayInfo) (id : Nat) rest,
      d.count = (a0.setSpecID id).setIsSpecConstant true :: rest →
      d.isRunTimeSized = false) := by
  have hflag : ∀ a : SArrayInfo, a.isSpecConstant = true → a.value ≠ 0 := by
    intro a ha h0
    simp [SArrayInfo.isSpecConstant, h0] at ha
  cases hc : d.count with
  | nil =>
    simp [isRunTimeSized, isArray, hc]
  | cons a rest =>
    have hrt : d.isRunTimeSized = (a.value == 0) := by
      simp [isRunTimeSized, isArray, hc]
    refine ⟨?_, ?_, ?_, ?_, ?_⟩
    · rw [hrt]
      constructor
      · intro h
        have h0 : a.value = 0 := by simpa using h
        refine ⟨by simp [isArray, hc], a, rest, rfl, ?_⟩
        simp [SArrayInfo.isRuntimeSized, SArrayInfo.isSpecConstant, h0]
      · rintro ⟨_, a2, rest2, heq, h2⟩
        cases heq
        simp only [SArrayInfo.isRuntimeSized, Bool.and_eq_true] at h2
        exact h2.2
    · intro h
      simp [isArray, hc] at h
    · intro a2 rest2 heq _ hv
      cases heq
      rw [hrt]
      simpa using hv
    · intro a2 rest2 heq hs
      cases heq
      rw [hrt]
      simpa using hflag a hs
    · intro a0 id rest2 heq
      cases heq
      rw [hrt]
      simp [SArrayInfo.setIsSpecConstant]

open asset.CStageIntrospectionData.SDescriptorVarInfo in
/-- Witness of `isRunTimeSized_iff_first_extent`: a storage buffer array bound to
specialization constant 0 is not runtime-sized, a literal extent 0 is. -/
theorem isRunTimeSized_iff_first_extent_witness :
    isRunTimeSized
      { binding := 3, type := 7,
        count := [(({} : SArrayInfo).setSpecID 0).setIsSpecConstant true],
        payload := .uniformTexelBuffer } = false ∧
    isRunTimeSized
      { binding := 3, type := 7, count := [{ value := 0 }],
        payload := .uniformTexelBuffer } = true :=
  ⟨(isRunTimeSized_iff_first_extent _).2.2.2.2 {} 0 [] rfl,
   (isRunTimeSized_iff_first_extent _).1.mpr ⟨by decide, _, _, rfl, by decide⟩⟩

/-! ### Pipeline aggregator: construction -/

/-- C12: a freshly constructed `CPipelineIntrospectionData` has 256 push constant bytes, each
marked `ESS_UNKNOWN`, four empty binding collections, and four highest binding numbers, each
-1. -/
theorem new_aggregator_is_blank (ESS_UNKNOWN : Nat) :
    (CPipelineIntrospectionData.new ESS_UNKNOWN).m_pushConstantBytes.length = 256 ∧
    (∀ i, i < 256 →
      (CPipelineIntrospectionData.new ESS_UNKNOWN).m_pushConstantBytes[i]? = some ESS_UNKNOWN) ∧
    (∀ set : Fin 4,
      (CPipelineIntrospectionData.new ESS_UNKNOWN).m_descriptorSetBindings set = []) ∧
    (CPipelineIntrospectionData.new ESS_UNKNOWN).m_highestBindingNumbers = [-1, -1, -1, -1] := by
  refine ⟨by simp only [CPipelineIntrospectionData.new, MaxPushConstantsSize,
    List.length_replicate], ?_, fun _ => rfl, rfl⟩
  intro i hi
  simp only [CPipelineIntrospectionData.new, MaxPushConstantsSize]
  rw [List.getElem?_replicate]
  simp [hi]

/-- Witness of `new_aggregator_is_blank`: byte 255 of the aggregator built with
`ESS_UNKNOWN = 0`. -/
theorem new_aggregator_is_blank_witness :
    (CPipelineIntrospectionData.new 0).m_pushConstantBytes[255]? = some 0 :=
  (new_aggregator_is_blank 0).2.1 255 (by decide)

/-! ### Storage buffers: `getRuntimeSize` -/

open asset.CStageIntrospectionData.SDescriptorVarInfo in
/-- C11 (as stated, refuted): for the block `{ ...; T last[]; }` with 16 bytes before the last
member and array stride 4, `getRuntimeSize(2^62)` wraps to 16, which is neither
`16 + 2^62 * 4` nor at least `getRuntimeSize(1) = 20`; and for the same block with a last
member that is no array, `front()` is taken of an empty span and no size is returned. -/
theorem getRuntimeSize_counterexample :
    (SStorageBuffer.getRuntimeSize (exampleTypes { count := [{ value := 0 }] })
        exampleStorageBuffer (2 ^ 62) = some 16 ∧
      SStorageBuffer.getRuntimeSize (exampleTypes { count := [{ value := 0 }] })
        exampleStorageBuffer 1 = some 20 ∧
      (16 : Nat) ≠ 16 + 2 ^ 62 * 4 ∧ ¬ (20 : Nat) ≤ 16) ∧
    SStorageBuffer.getRuntimeSize (exampleTypes { count := [] }) exampleStorageBuffer 1
      = none := by
  refine ⟨⟨by decide, by decide, by decide, by decide⟩, by decide⟩

open asset.CStageIntrospectionData.SDescriptorVarInfo in
/-- C11 (amended): for a storage buffer block whose type node is present and either has no
members or has a last member that is an array (with its member type and stride stored), and
for every element count `n`: `getRuntimeSize(n)` is `sizeWithoutLastMember` when the block
has no members or the first extent of the last member is not runtime-sized; when it is
runtime-sized, `getRuntimeSize(n)` is `sizeWithoutLastMember + n * stride` as long as that sum
stays below `2^64`, `getRuntimeSize(0)` is `sizeWithoutLastMember`, and `getRuntimeSize` is
monotone in `n` on the counts whose size stays below `2^64`. -/
theorem getRuntimeSize_contract (mem : Nat → Option SType) (sb : SStorageBuffer)
    (type : SType) (htype : sb.type.bind mem = some type)
    (hsz : sb.sizeWithoutLastMember < 2 ^ 64) :
    (type.memberCount = 0 →
      ∀ n, sb.getRuntimeSize mem n = some sb.sizeWithoutLastMember) ∧
    (∀ p last a rest stride, type.memberCount ≠ 0 →
      type.memberTypes[type.memberCount - 1]? = some (some p) → mem p = some last →
      last.count = a :: rest → type.memberStrides[type.memberCount - 1]? = some stride →
      (a.isRuntimeSized = false →
        ∀ n, sb.getRuntimeSize mem n = some sb.sizeWithoutLastMember) ∧
      (a.isRuntimeSized = true →
        (∀ n, sb.sizeWithoutLastMember + n * stride < 2 ^ 64 →
          sb.getRuntimeSize mem n = some (sb.sizeWithoutLastMember + n * stride)) ∧
        sb.getRuntimeSize mem 0 = some sb.sizeWithoutLastMember ∧
        (∀ n n2, n ≤ n2 → sb.sizeWithoutLastMember + n2 * stride < 2 ^ 64 →
          ∃ v v2, sb.getRuntimeSize mem n = some v ∧ sb.getRuntimeSize mem n2 = some v2 ∧
            v ≤ v2))) := by
  constructor
  · intro h0 n
    simp [SStorageBuffer.getRuntimeSize, SStorageBuffer.isLastMemberRuntimeSized, htype, h0]
  · intro p last a rest stride hmc hp hlast hcount hstride
    have hrt : sb.isLastMemberRuntimeSized mem = some a.isRuntimeSized := by
      simp [SStorageBuffer.isLastMemberRuntimeSized, htype, hmc, hp, hlast, hcount]
    have hsize : ∀ n, sb.sizeWithoutLastMember + n * stride < 2 ^ 64 →
        (sb.sizeWithoutLastMember + n * stride % SIZE_MOD) % SIZE_MOD =
          sb.sizeWithoutLastMember + n * stride := by
      intro n hn
      have h1 : n * stride % SIZE_MOD = n * stride :=
        Nat.mod_eq_of_lt (by simp only [SIZE_MOD]; omega)
      rw [h1]
      exact Nat.mod_eq_of_lt (by simp only [SIZE_MOD]; omega)
    constructor
    · intro ha n
      simp [SStorageBuffer.getRuntimeSize, hrt, ha]
    · intro ha
      have hget : ∀ n, sb.sizeWithoutLastMember + n * stride < 2 ^ 64 →
          sb.getRuntimeSize mem n = some (sb.sizeWithoutLastMember + n * stride) := by
        intro n hn
        simp only [SStorageBuffer.getRuntimeSize, hrt, ha, htype, hstride, hsize n hn]
      refine ⟨hget, ?_, ?_⟩
      · have := hget 0 (by omega)
        simpa using this
      · intro n n2 hle hn2
        have hmul : n * stride ≤ n2 * stride := Nat.mul_le_mul_right stride hle
        exact ⟨_, _, hget n (by omega), hget n2 hn2, by omega⟩

open asset.CStageIntrospectionData.SDescriptorVarInfo in
/-- Witness of `getRuntimeSize_contract`: the example block with a runtime-sized last member
and three elements. -/
theorem getRuntimeSize_contract_witness :
    SStorageBuffer.getRuntimeSize (exampleTypes { count := [{ value := 0 }] })
      exampleStorageBuffer 3 = some (16 + 3 * 4) :=
  ((getRuntimeSize_contract (exampleTypes { count := [{ value := 0 }] }) exampleStorageBuffer
      { memberCount := 1, memberTypes := [some 1], memberNames := [[]],
        memberSizes := [4], memberOffsets := [16], memberStrides := [4] }
      (by decide) (by decide)).2 1 { count := [{ value := 0 }] } { value := 0 } [] 4
      (by decide) (by decide) (by decide) rfl (by decide)).2 (by decide) |>.1 3 (by decide)

/-! ### Byte arena: `addString` and `addType` -/

theorem storeBytes_of_le (pool : List Byte) (addr : Nat) (bs : List Byte)
    (h : addr + bs.length ≤ pool.length) :
    storeBytes pool addr bs = some (pool.take addr ++ bs ++ pool.drop (addr + bs.length)) := by
  simp only [storeBytes, if_pos h]

theorem loadBytes_storeBytes_other (pool : List Byte) (addr : Nat) (bs pool2 : List Byte)
    (h : storeBytes pool addr bs = some pool2) (b n : Nat)
    (hb : b + n ≤ addr ∨ addr + bs.length ≤ b) :
    loadBytes pool2 b n = loadBytes pool b n := by
  apply loadBytes_congr pool pool2 b n (storeBytes_length pool addr bs pool2 h)
  intro k hk
  rw [storeBytes_getElem? pool addr bs pool2 h]
  rw [if_neg (by omega)]

theorem decodeU64_encodeU64 (v : Nat) (h : v < 2 ^ 64) : decodeU64 (encodeU64 v) = v := by
  simp only [encodeU64, decodeU64]
  omega

theorem alloc_of_no_wrap (sizeofT : Nat) (self : CStageIntrospectionData) (count : Nat)
    (h : self.m_memPool.length + sizeofT * count < 2 ^ 64) :
    alloc sizeofT self count =
      ({ m_byteOffset := self.m_memPool.length, m_size := count },
        { self with m_memPool := self.m_memPool ++ List.replicate (sizeofT * count) 0 }) := by
  have hmod : sizeofT * count % SIZE_MOD = sizeofT * count :=
    Nat.mod_eq_of_lt (by simp only [SIZE_MOD]; omega)
  have hpool := allocOffset_pool_of_no_wrap self (sizeofT * count) h
  simp only [alloc, hmod]
  rw [← hpool]
  rfl

/-- C19: for every string `s` that fits the pool (`old + |s| + 1 < 2^64`, as for every pool and
string held in one address space), `addString(s)` returns the span of `|s|+1` chars that
starts at the old pool size; the pool afterwards is the old pool followed by the bytes of `s`
and one zero byte, so the span reads back as `s` with a terminating zero and every earlier
byte is unchanged. -/
theorem addString_contract (self : CStageIntrospectionData) (str : List Byte)
    (h : self.m_memPool.length + str.length + 1 < 2 ^ 64) :
    ∃ out, self.addString str = some out ∧
      out.1 = { m_byteOffset := self.m_memPool.length, m_size := str.length + 1 } ∧
      out.2.m_memPool = self.m_memPool ++ str ++ [0] ∧
      loadBytes out.2.m_memPool out.1.m_byteOffset out.1.m_size = some (str ++ [0]) ∧
      (∀ i, i < self.m_memPool.length → out.2.m_memPool[i]? = self.m_memPool[i]?) := by
  have hmod : (str.length + 1) % SIZE_MOD = str.length + 1 :=
    Nat.mod_eq_of_lt (by simp only [SIZE_MOD]; omega)
  have halloc := alloc_of_no_wrap 1 self (str.length + 1) (by omega)
  have hs1 : storeBytes (self.m_memPool ++ List.replicate (1 * (str.length + 1)) 0)
      (0 + self.m_memPool.length) str = some (self.m_memPool ++ str ++ [0]) := by
    rw [storeBytes_of_le _ _ _ (by simp only [List.length_append, List.length_replicate, List.length_cons, List.length_nil]; omega)]
    congr 1
    have h1 : List.take (0 + self.m_memPool.length)
        (self.m_memPool ++ List.replicate (1 * (str.length + 1)) 0) = self.m_memPool := by
      rw [Nat.zero_add]
      exact List.take_left' rfl
    have h2 : List.drop (0 + self.m_memPool.length + str.length)
        (self.m_memPool ++ List.replicate (1 * (str.length + 1)) 0) = [0] := by
      rw [Nat.zero_add, ← List.drop_drop, List.drop_left' rfl, Nat.one_mul,
        List.drop_replicate]
      simp
    rw [h1, h2]
  have hs2 : storeBytes (self.m_memPool ++ str ++ [0])
      (0 + self.m_memPool.length + (str.length + 1) - 1) [0] =
      some (self.m_memPool ++ str ++ [0]) := by
    rw [storeBytes_of_le _ _ _ (by simp only [List.length_append, List.length_replicate, List.length_cons, List.length_nil]; omega)]
    congr 1
    have ha : 0 + self.m_memPool.length + (str.length + 1) - 1 =
        (self.m_memPool ++ str).length := by
      simp only [List.length_append]
      omega
    rw [ha]
    have h1 : List.take (self.m_memPool ++ str).length (self.m_memPool ++ str ++ [0]) =
        self.m_memPool ++ str := List.take_left' rfl
    have h2 : List.drop ((self.m_memPool ++ str).length + [(0 : Byte)].length)
        (self.m_memPool ++ str ++ [0]) = [] := by
      apply List.drop_eq_nil_of_le
      simp only [List.length_append, List.length_cons, List.length_nil]
      omega
    rw [h1, h2]
    simp
  refine ⟨({ m_byteOffset := self.m_memPool.length, m_size := str.length + 1 },
    { self with m_memPool := self.m_memPool ++ str ++ [0] }), ?_, rfl, rfl, ?_, ?_⟩
  · have hne : (str.length + 1 == 0) = false := by simp
    simp only [addString, hmod, halloc, based_span.resolve, based_span.empty, hne,
      Bool.not_false, if_true, hs1, Option.some_bind, hs2, Option.map_some']
  · simp only [loadBytes]
    rw [if_pos (by simp only [List.length_append, List.length_replicate, List.length_cons, List.length_nil]; omega)]
    congr 1
    rw [List.append_assoc, List.drop_left' rfl]
    exact List.take_of_length_le (by simp)
  · intro i hi
    rw [List.append_assoc, List.getElem?_append_left hi]

/-- Witness of `addString_contract`: the string `ab` appended to a pool of two bytes. -/
theorem addString_contract_witness :
    ∃ out, (stageWithPool [7, 9]).addString [97, 98] = some out ∧
      out.1 = { m_byteOffset := (stageWithPool [7, 9]).m_memPool.length,
                m_size := [(97 : Byte), 98].length + 1 } ∧
      out.2.m_memPool = (stageWithPool [7, 9]).m_memPool ++ [97, 98] ++ [0] ∧
      loadBytes out.2.m_memPool out.1.m_byteOffset out.1.m_size = some ([97, 98] ++ [0]) ∧
      (∀ i, i < (stageWithPool [7, 9]).m_memPool.length →
        out.2.m_memPool[i]? = (stageWithPool [7, 9]).m_memPool[i]?) :=
  addString_contract (stageWithPool [7, 9]) [97, 98] (by decide)

theorem allocOffset_of_no_wrap (self : CStageIntrospectionData) (n : Nat)
    (h : self.m_memPool.length + n < 2 ^ 64) :
    self.allocOffset n =
      (self.m_memPool.length, { self with m_memPool := self.m_memPool ++ List.replicate n 0 }) := by
  have hpool := allocOffset_pool_of_no_wrap self n h
  rw [← hpool]
  rfl

/-- What `addType` does whenever the grown pool stays within `size_t` range: the node is put
after the member block, its `memberCount` holds the low 32 bits of the argument. -/
theorem addType_spec (self : CStageIntrospectionData) (n : Nat)
    (hfit : self.m_memPool.length + StoragePerMember * n + sizeofSType < 2 ^ 64) :
    ∃ out, self.addType n = some out ∧
      out.1 = { m_byteOffset := self.m_memPool.length + StoragePerMember * n } ∧
      out.2.m_memPool.length = self.m_memPool.length + StoragePerMember * n + sizeofSType ∧
      loadMemberCount out.2.m_memPool out.1.m_byteOffset = some (n % 2 ^ 32) ∧
      loadMemberInfoStorage out.2.m_memPool out.1.m_byteOffset =
        some { m_byteOffset := self.m_memPool.length } ∧
      (∀ i, i < self.m_memPool.length → out.2.m_memPool[i]? = self.m_memPool[i]?) := by
  have hS : sizeofSType = 48 := rfl
  have hO1 : offsetofMemberCount = 36 := rfl
  have hO2 : offsetofMemberInfoStorage = 40 := rfl
  have hmod : StoragePerMember * n % SIZE_MOD = StoragePerMember * n :=
    Nat.mod_eq_of_lt (by simp only [SIZE_MOD]; omega)
  have h1 := allocOffset_of_no_wrap self (StoragePerMember * n) (by omega)
  have h2 : alloc sizeofSType
      { self with m_memPool := self.m_memPool ++ List.replicate (StoragePerMember * n) 0 } 1 =
      ({ m_byteOffset := self.m_memPool.length + StoragePerMember * n, m_size := 1 },
        { self with m_memPool := self.m_memPool ++ List.replicate (StoragePerMember * n) 0 ++
            List.replicate sizeofSType 0 }) := by
    rw [alloc_of_no_wrap _ _ _
      (by simp only [List.length_append, List.length_replicate]; omega)]
    simp only [List.length_append, List.length_replicate, Nat.mul_one]
  have hlen2 : (self.m_memPool ++ List.replicate (StoragePerMember * n) 0 ++
      List.replicate sizeofSType 0).length =
      self.m_memPool.length + StoragePerMember * n + sizeofSType := by
    simp only [List.length_append, List.length_replicate]
  have hl32 : (encodeU32 (n % 2 ^ 32)).length = 4 := rfl
  have hl64 : (encodeU64 self.m_memPool.length).length = 8 := rfl
  obtain ⟨pool3, hs1⟩ : ∃ pool3, storeBytes
      (self.m_memPool ++ List.replicate (StoragePerMember * n) 0 ++
        List.replicate sizeofSType 0)
      (0 + (self.m_memPool.length + StoragePerMember * n) + offsetofMemberCount)
      (encodeU32 (n % 2 ^ 32)) = some pool3 :=
    ⟨_, storeBytes_of_le _ _ _ (by rw [hlen2, hl32]; omega)⟩
  have hlen3 := storeBytes_length _ _ _ _ hs1
  obtain ⟨pool4, hs2⟩ : ∃ pool4, storeBytes pool3
      (0 + (self.m_memPool.length + StoragePerMember * n) + offsetofMemberInfoStorage)
      (encodeU64 self.m_memPool.length) = some pool4 :=
    ⟨_, storeBytes_of_le _ _ _ (by rw [hlen3, hlen2, hl64]; omega)⟩
  have hlen4 := storeBytes_length _ _ _ _ hs2
  refine ⟨({ m_byteOffset := self.m_memPool.length + StoragePerMember * n },
    { self with m_memPool := pool4 }), ?_, rfl, ?_, ?_, ?_, ?_⟩
  · have hne : ((1 : Nat) == 0) = false := rfl
    simp only [addType, hmod, h1, h2, based_span.resolve, based_span.empty,
      based_span.byte_offset, hne, Bool.not_false, if_true, hs1, Option.some_bind, hs2,
      Option.map_some']
  · simp only [hlen4, hlen3, hlen2]
  · simp only [loadMemberCount]
    rw [loadBytes_storeBytes_other _ _ _ _ hs2 _ 4 (Or.inl (by omega))]
    have := loadBytes_storeBytes_same _ _ _ _ hs1
    rw [hl32, Nat.zero_add] at this
    rw [this]
    simp only [Option.map_some']
    rw [decodeU32_encodeU32 _ (Nat.mod_lt _ (by norm_num))]
  · simp only [loadMemberInfoStorage]
    have := loadBytes_storeBytes_same _ _ _ _ hs2
    rw [hl64, Nat.zero_add] at this
    rw [this]
    simp only [Option.map_some']
    rw [decodeU64_encodeU64 _ (by omega)]
  · intro i hi
    simp only []
    rw [storeBytes_getElem? _ _ _ _ hs2, if_neg (by omega)]
    rw [storeBytes_getElem? _ _ _ _ hs1, if_neg (by omega)]
    rw [List.append_assoc, List.getElem?_append_left hi]

/-- C18 (as stated, refuted): on an empty pool `addType(2^32)` stores `memberCount = 0`, the
low 32 bits of the argument, not `2^32`; and `addType(2^62)`, whose member block size
`36 * 2^62` wraps to 0, returns node offset 0 and grows the pool by the 48 bytes of the node
only. -/
theorem addType_counterexample :
    (∃ out, (stageWithPool []).addType (2 ^ 32) = some out ∧
      loadMemberCount out.2.m_memPool out.1.m_byteOffset = some 0 ∧
      loadMemberCount out.2.m_memPool out.1.m_byteOffset ≠ some (2 ^ 32)) ∧
    (∃ out, (stageWithPool []).addType (2 ^ 62) = some out ∧
      out.1.m_byteOffset = 0 ∧ out.2.m_memPool.length = 48 ∧
      out.2.m_memPool.length ≠ 0 + StoragePerMember * 2 ^ 62 + sizeofSType) := by
  constructor
  · obtain ⟨out, h1, _, _, h4, _⟩ := addType_spec (stageWithPool []) (2 ^ 32) (by decide)
    refine ⟨out, h1, ?_, ?_⟩
    · rw [h4]
      decide
    · rw [h4]
      decide
  · exact ⟨(⟨0⟩, stageWithPool (List.replicate 48 0)), by decide, rfl, by decide, by decide⟩

/-- C18 (amended): for every member count `n < 2^32` with the grown pool within `size_t` range
(`old + StoragePerMember*n + sizeof(SType) < 2^64`), `addType(n)` reserves the member block of
`StoragePerMember*n` bytes at the old pool size and the type node right after it: the node's
`memberInfoStorage` is the old pool size, the returned node offset is that size plus
`StoragePerMember*n`, the node's `memberCount` is `n`, the pool grows by exactly
`StoragePerMember*n + sizeof(SType)`, and the earlier bytes are unchanged. -/
theorem addType_contract (self : CStageIntrospectionData) (n : Nat) (hn : n < 2 ^ 32)
    (hfit : self.m_memPool.length + StoragePerMember * n + sizeofSType < 2 ^ 64) :
    ∃ out, self.addType n = some out ∧
      loadMemberInfoStorage out.2.m_memPool out.1.m_byteOffset =
        some { m_byteOffset := self.m_memPool.length } ∧
      out.1.m_byteOffset = self.m_memPool.length + StoragePerMember * n ∧
      loadMemberCount out.2.m_memPool out.1.m_byteOffset = some n ∧
      out.2.m_memPool.length = self.m_memPool.length + (StoragePerMember * n + sizeofSType) ∧
      (∀ i, i < self.m_memPool.length → out.2.m_memPool[i]? = self.m_memPool[i]?) := by
  obtain ⟨out, h1, h2, h3, h4, h5, h6⟩ := addType_spec self n hfit
  refine ⟨out, h1, h5, by rw [h2], ?_, by omega, h6⟩
  rw [h4, Nat.mod_eq_of_lt hn]

/-- Witness of `addType_contract`: a node with three members added to a pool of two bytes. -/
theorem addType_contract_witness :
    ∃ out, (stageWithPool [7, 9]).addType 3 = some out ∧
      loadMemberInfoStorage out.2.m_memPool out.1.m_byteOffset = some { m_byteOffset := 2 } ∧
      out.1.m_byteOffset = 2 + StoragePerMember * 3 ∧
      loadMemberCount out.2.m_memPool out.1.m_byteOffset = some 3 ∧
      out.2.m_memPool.length = 2 + (StoragePerMember * 3 + sizeofSType) ∧
      (∀ i, i < 2 → out.2.m_memPool[i]? = [(7 : Byte), 9][i]?) :=
  addType_contract (stageWithPool [7, 9]) 3 (by decide) (by decide)

/-! ### Pipeline aggregator: push constant ranges -/

theorem getElem?_cons_sub (m : Nat) (rest : List Nat) (pos i : Nat) (h : pos < i) :
    (m :: rest)[i - pos]? = rest[i - (pos + 1)]? := by
  have : i - pos = (i - (pos + 1)) + 1 := by omega
  rw [this, List.getElem?_cons_succ]

/-- A maximal run of the bytes after position `pos + 1` is a maximal run of the bytes after
`pos`, provided the byte at `pos` does not continue it to the left. -/
theorem run_lift (U m : Nat) (rest : List Nat) (pos : Nat) (r : SPushConstantRange)
    (h : pos + 1 ≤ r.offset ∧ 0 < r.size ∧ r.offset + r.size ≤ pos + 1 + rest.length ∧
      r.stageFlags ≠ U ∧
      (∀ i, r.offset ≤ i → i < r.offset + r.size → rest[i - (pos + 1)]? = some r.stageFlags) ∧
      rest[r.offset + r.size - (pos + 1)]? ≠ some r.stageFlags ∧
      (r.offset = pos + 1 ∨ rest[r.offset - 1 - (pos + 1)]? ≠ some r.stageFlags))
    (hm : r.offset = pos + 1 → m ≠ r.stageFlags) :
    pos ≤ r.offset ∧ 0 < r.size ∧ r.offset + r.size ≤ pos + (m :: rest).length ∧
      r.stageFlags ≠ U ∧
      (∀ i, r.offset ≤ i → i < r.offset + r.size → (m :: rest)[i - pos]? = some r.stageFlags) ∧
      (m :: rest)[r.offset + r.size - pos]? ≠ some r.stageFlags ∧
      (r.offset = pos ∨ (m :: rest)[r.offset - 1 - pos]? ≠ some r.stageFlags) := by
  obtain ⟨h1, h2, h3, h4, h5, h6, h7⟩ := h
  refine ⟨by omega, h2, by simp only [List.length_cons]; omega, h4, ?_, ?_, ?_⟩
  · intro i hi1 hi2
    rw [getElem?_cons_sub m rest pos i (by omega)]
    exact h5 i hi1 hi2
  · rw [getElem?_cons_sub m rest pos _ (by omega)]
    exact h6
  · right
    by_cases hoff : r.offset = pos + 1
    · have : r.offset - 1 - pos = 0 := by omega
      rw [this, List.getElem?_cons_zero]
      intro hcontra
      exact hm hoff (Option.some.inj hcontra)
    · rw [getElem?_cons_sub m rest pos _ (by omega)]
      rcases h7 with h7 | h7
      · exact absurd h7 hoff
      · exact h7

/-- The ranges computed from the bytes after `pos` are the maximal runs of equal declared
masks: each range is such a run, the ranges are ordered and disjoint, and every declared
byte lies in one of them. -/
theorem pushConstantRuns_spec (U : Nat) (l : List Nat) (pos : Nat) :
    (∀ r ∈ CPipelineIntrospectionData.pushConstantRuns U l pos,
      pos ≤ r.offset ∧ 0 < r.size ∧ r.offset + r.size ≤ pos + l.length ∧
      r.stageFlags ≠ U ∧
      (∀ i, r.offset ≤ i → i < r.offset + r.size → l[i - pos]? = some r.stageFlags) ∧
      l[r.offset + r.size - pos]? ≠ some r.stageFlags ∧
      (r.offset = pos ∨ l[r.offset - 1 - pos]? ≠ some r.stageFlags)) ∧
    (CPipelineIntrospectionData.pushConstantRuns U l pos).Pairwise
      (fun a b => a.offset + a.size ≤ b.offset) ∧
    (∀ i m, pos ≤ i → l[i - pos]? = some m → m ≠ U →
      ∃ r ∈ CPipelineIntrospectionData.pushConstantRuns U l pos,
        r.offset ≤ i ∧ i < r.offset + r.size) := by
  induction l generalizing pos with
  | nil =>
    refine ⟨?_, ?_, ?_⟩
    · intro r hr
      simp [CPipelineIntrospectionData.pushConstantRuns] at hr
    · simp [CPipelineIntrospectionData.pushConstantRuns]
    · intro i m _ h
      simp at h
  | cons m rest ih =>
    obtain ⟨ihA, ihB, ihC⟩ := ih (pos + 1)
    have hcover : ∀ i m2, pos ≤ i → (m :: rest)[i - pos]? = some m2 → m2 ≠ U → i ≠ pos →
        ∃ r ∈ CPipelineIntrospectionData.pushConstantRuns U rest (pos + 1),
          r.offset ≤ i ∧ i < r.offset + r.size := by
      intro i m2 hi hget hm2 hne
      rw [getElem?_cons_sub m rest pos i (by omega)] at hget
      exact ihC i m2 (by omega) hget hm2
    by_cases hmU : m = U
    · have hruns : CPipelineIntrospectionData.pushConstantRuns U (m :: rest) pos =
          CPipelineIntrospectionData.pushConstantRuns U rest (pos + 1) := by
        simp only [CPipelineIntrospectionData.pushConstantRuns, if_pos hmU]
      rw [hruns]
      refine ⟨?_, ihB, ?_⟩
      · intro r hr
        apply run_lift U m rest pos r (ihA r hr)
        intro _ hcontra
        exact (ihA r hr).2.2.2.1 (hcontra ▸ hmU)
      · intro i m2 hi hget hm2
        by_cases hip : i = pos
        · subst hip
          simp only [Nat.sub_self, List.getElem?_cons_zero, Option.some.injEq] at hget
          exact absurd (hget ▸ hmU) hm2
        · exact hcover i m2 hi hget hm2 hip
    · cases hrest : CPipelineIntrospectionData.pushConstantRuns U rest (pos + 1) with
      | nil =>
        have hruns : CPipelineIntrospectionData.pushConstantRuns U (m :: rest) pos =
            [{ stageFlags := m, offset := pos, size := 1 }] := by
          simp only [CPipelineIntrospectionData.pushConstantRuns, if_neg hmU, hrest]
        rw [hruns]
        rw [hrest] at ihC
        refine ⟨?_, by simp, ?_⟩
        · intro r hr
          simp only [List.mem_singleton] at hr
          subst hr
          refine ⟨le_refl _, by simp, by simp, hmU, ?_, ?_, Or.inl rfl⟩
          · intro i hi1 hi2
            have : i - pos = 0 := by simp only at hi1 hi2; omega
            rw [this, List.getElem?_cons_zero]
          · intro hcontra
            have hc : (m :: rest)[pos + 1 - pos]? = some m := hcontra
            rw [getElem?_cons_sub m rest pos _ (by omega)] at hc
            obtain ⟨r, hr, _⟩ := ihC (pos + 1) m (le_refl _) hc hmU
            simp at hr
        · intro i m2 hi hget hm2
          by_cases hip : i = pos
          · subst hip
            exact ⟨_, List.mem_singleton.mpr rfl, le_refl _, by simp⟩
          · rw [hrest] at hcover
            obtain ⟨r, hr, _⟩ := hcover i m2 hi hget hm2 hip
            simp at hr
      | cons r rs =>
        rw [hrest] at ihA ihB ihC hcover
        have hrA := ihA r (List.mem_cons_self _ _)
        have hrs_off : ∀ r2 ∈ rs, r.offset + r.size ≤ r2.offset :=
          (List.pairwise_cons.mp ihB).1
        by_cases hmerge : r.stageFlags = m ∧ r.offset = pos + 1
        · have hruns : CPipelineIntrospectionData.pushConstantRuns U (m :: rest) pos =
              { stageFlags := m, offset := pos, size := r.size + 1 } :: rs := by
            simp only [CPipelineIntrospectionData.pushConstantRuns, if_neg hmU, hrest,
              if_pos hmerge]
          rw [hruns]
          refine ⟨?_, ?_, ?_⟩
          · intro r2 hr2
            rcases List.mem_cons.mp hr2 with h | h
            · subst h
              obtain ⟨h1, h2, h3, h4, h5, h6, h7⟩ := hrA
              refine ⟨le_refl _, by simp, by simp only [List.length_cons]; omega, hmU, ?_, ?_,
                Or.inl rfl⟩
              · intro i hi1 hi2
                simp only at hi1 hi2
                by_cases hip : i = pos
                · subst hip
                  simp
                · rw [getElem?_cons_sub m rest pos i (by omega)]
                  rw [h5 i (by omega) (by omega), hmerge.1]
              · simp only
                rw [getElem?_cons_sub m rest pos _ (by omega)]
                have : pos + (r.size + 1) - (pos + 1) = r.offset + r.size - (pos + 1) := by
                  omega
                rw [this, ← hmerge.1]
                exact h6
            · apply run_lift U m rest pos r2 (ihA r2 (List.mem_cons_of_mem _ h))
              intro hoff
              have := hrs_off r2 h
              omega
          · rw [List.pairwise_cons]
            refine ⟨?_, (List.pairwise_cons.mp ihB).2⟩
            intro r2 hr2
            have := hrs_off r2 hr2
            simp only
            omega
          · intro i m2 hi hget hm2
            by_cases hip : i = pos
            · subst hip
              exact ⟨_, List.mem_cons_self _ _, le_refl _, by simp⟩
            · obtain ⟨r2, hr2, h1, h2⟩ := hcover i m2 hi hget hm2 hip
              rcases List.mem_cons.mp hr2 with h | h
              · subst h
                exact ⟨_, List.mem_cons_self _ _, by simpa using hi, by simp only; omega⟩
              · exact ⟨r2, List.mem_cons_of_mem _ h, h1, h2⟩
        · have hruns : CPipelineIntrospectionData.pushConstantRuns U (m :: rest) pos =
              { stageFlags := m, offset := pos, size := 1 } :: r :: rs := by
            simp only [CPipelineIntrospectionData.pushConstantRuns, if_neg hmU, hrest,
              if_neg hmerge]
          rw [hruns]
          refine ⟨?_, ?_, ?_⟩
          · intro r2 hr2
            rcases List.mem_cons.mp hr2 with h | h
            · subst h
              refine ⟨le_refl _, by simp, by simp, hmU, ?_, ?_, Or.inl rfl⟩
              · intro i hi1 hi2
                have : i - pos = 0 := by simp only at hi1 hi2; omega
                rw [this, List.getElem?_cons_zero]
              · intro hcontra
                have hc : (m :: rest)[pos + 1 - pos]? = some m := hcontra
                rw [getElem?_cons_sub m rest pos _ (by omega)] at hc
                obtain ⟨r2, hr2, h1, h2⟩ := ihC (pos + 1) m (le_refl _) hc hmU
                have hr2A := ihA r2 hr2
                have hoff : r2.offset = pos + 1 := by omega
                have hflag : r2.stageFlags = m := by
                  have := hr2A.2.2.2.2.1 (pos + 1) (by omega) h2
                  rw [hc] at this
                  exact (Option.some.inj this).symm
                rcases List.mem_cons.mp hr2 with h | h
                · subst h
                  exact hmerge ⟨hflag, hoff⟩
                · have := hrs_off r2 h
                  omega
            · apply run_lift U m rest pos r2 (ihA r2 h)
              intro hoff hflag
              rcases List.mem_cons.mp h with h | h
              · subst h
                exact hmerge ⟨hflag.symm, hoff⟩
              · have := hrs_off r2 h
                omega
          · rw [List.pairwise_cons]
            refine ⟨?_, ihB⟩
            intro r2 hr2
            have := (ihA r2 hr2).1
            simp only
            omega
          · intro i m2 hi hget hm2
            by_cases hip : i = pos
            · subst hip
              exact ⟨_, List.mem_cons_self _ _, le_refl _, by simp⟩
            · obtain ⟨r2, hr2, h1, h2⟩ := hcover i m2 hi hget hm2 hip
              exact ⟨r2, List.mem_cons_of_mem _ hr2, h1, h2⟩

/-- C16: the push constant range synthesis returns the maximal runs of equal declared stage
masks. The ranges are ordered and pairwise disjoint; each is non-empty, has a declared mask
and covers only bytes carrying exactly that mask; no range can be extended by the byte before
or after it; every declared byte lies in exactly one range, which carries the byte's mask; and
two ranges that touch have different masks. -/
theorem createPushConstantRanges_maximal_runs (ESS_UNKNOWN : Nat)
    (self : CPipelineIntrospectionData) :
    (self.createPushConstantRangesFromIntrospection ESS_UNKNOWN).Pairwise
      (fun a b => a.offset + a.size ≤ b.offset) ∧
    (∀ r ∈ self.createPushConstantRangesFromIntrospection ESS_UNKNOWN,
      0 < r.size ∧ r.stageFlags ≠ ESS_UNKNOWN ∧
      ∀ i, r.offset ≤ i → i < r.offset + r.size →
        self.m_pushConstantBytes[i]? = some r.stageFlags) ∧
    (∀ r ∈ self.createPushConstantRangesFromIntrospection ESS_UNKNOWN,
      self.m_pushConstantBytes[r.offset + r.size]? ≠ some r.stageFlags ∧
      (r.offset = 0 ∨ self.m_pushConstantBytes[r.offset - 1]? ≠ some r.stageFlags)) ∧
    (∀ i m, self.m_pushConstantBytes[i]? = some m → m ≠ ESS_UNKNOWN →
      ∃ r ∈ self.createPushConstantRangesFromIntrospection ESS_UNKNOWN,
        (r.offset ≤ i ∧ i < r.offset + r.size ∧ r.stageFlags = m) ∧
        ∀ r2 ∈ self.createPushConstantRangesFromIntrospection ESS_UNKNOWN,
          r2.offset ≤ i → i < r2.offset + r2.size → r2 = r) ∧
    (∀ a ∈ self.createPushConstantRangesFromIntrospection ESS_UNKNOWN,
      ∀ b ∈ self.createPushConstantRangesFromIntrospection ESS_UNKNOWN,
        a.offset + a.size = b.offset → a.stageFlags ≠ b.stageFlags) := by
  obtain ⟨hA, hB, hC⟩ := pushConstantRuns_spec ESS_UNKNOWN self.m_pushConstantBytes 0
  simp only [Nat.sub_zero] at hA hC
  have hsym : ∀ r ∈ self.createPushConstantRangesFromIntrospection ESS_UNKNOWN,
      ∀ r2 ∈ self.createPushConstantRangesFromIntrospection ESS_UNKNOWN, r ≠ r2 →
      (r.offset + r.size ≤ r2.offset ∨ r2.offset + r2.size ≤ r.offset) := by
    have hp : (self.createPushConstantRangesFromIntrospection ESS_UNKNOWN).Pairwise
        (fun a b => a.offset + a.size ≤ b.offset ∨ b.offset + b.size ≤ a.offset) :=
      hB.imp (fun h => Or.inl h)
    exact hp.forall (fun a b h => h.symm)
  refine ⟨hB, ?_, ?_, ?_, ?_⟩
  · intro r hr
    obtain ⟨_, h2, _, h4, h5, _, _⟩ := hA r hr
    exact ⟨h2, h4, h5⟩
  · intro r hr
    obtain ⟨_, _, _, _, _, h6, h7⟩ := hA r hr
    exact ⟨h6, h7⟩
  · intro i m hget hm
    obtain ⟨r, hr, h1, h2⟩ := hC i m (Nat.zero_le _) hget hm
    have hflag : r.stageFlags = m := by
      have := (hA r hr).2.2.2.2.1 i h1 h2
      rw [hget] at this
      exact (Option.some.inj this).symm
    refine ⟨r, hr, ⟨h1, h2, hflag⟩, ?_⟩
    intro r2 hr2 h3 h4
    by_contra hne
    rcases hsym r2 hr2 r hr hne with h | h <;> omega
  · intro a ha b hb hab hflag
    obtain ⟨_, ha2, _, _, ha5, _, _⟩ := hA a ha
    obtain ⟨_, _, _, _, _, _, hb7⟩ := hA b hb
    rcases hb7 with h | h
    · omega
    · apply h
      rw [ha5 (b.offset - 1) (by omega) (by omega), hflag]

set_option maxRecDepth 8000 in
/-- Witness of `createPushConstantRanges_maximal_runs`: the three ranges of the example
aggregator; the two that touch at byte 4 have different masks. -/
theorem createPushConstantRanges_maximal_runs_witness :
    exampleAggregator.createPushConstantRangesFromIntrospection 0 =
      [⟨1, 0, 4⟩, ⟨17, 4, 4⟩, ⟨16, 9, 1⟩] ∧
    (⟨1, 0, 4⟩ : SPushConstantRange).stageFlags ≠ (⟨17, 4, 4⟩ : SPushConstantRange).stageFlags :=
  have h : exampleAggregator.createPushConstantRangesFromIntrospection 0 =
      [⟨1, 0, 4⟩, ⟨17, 4, 4⟩, ⟨16, 9, 1⟩] := by decide
  ⟨h, (createPushConstantRanges_maximal_runs 0 exampleAggregator).2.2.2.2 ⟨1, 0, 4⟩
    (by rw [h]; decide) ⟨17, 4, 4⟩ (by rw [h]; decide) rfl⟩

/-! ### Pipeline aggregator: descriptor merge -/

open asset.CPipelineIntrospectionData in
theorem resolveExtents_none_of_specConstant (count : List SArrayInfo) (a : SArrayInfo)
    (ha : a ∈ count) (hs : a.isSpecConstant = true) : resolveExtents none count = none := by
  induction count with
  | nil => simp at ha
  | cons x rest ih =>
    rcases List.mem_cons.mp ha with h | h
    · subst h
      simp [resolveExtents, resolveExtent, hs]
    · have := ih h
      simp only [resolveExtents, this]
      cases resolveExtent none x <;> rfl

open asset.CPipelineIntrospectionData in
theorem mergeSet_none_of_mergeBinding_none (stage : Nat)
    (specConstants : Option (Nat → Option Nat)) (d : SDescriptorVarInfo)
    (hd : ∀ target, mergeBinding stage specConstants target d = none)
    (ds : List SDescriptorVarInfo) (hmem : d ∈ ds) (target : List CPipelineIntrospectionData.SDescriptorInfo) :
    mergeSet stage specConstants target ds = none := by
  induction ds generalizing target with
  | nil => simp at hmem
  | cons x rest ih =>
    simp only [mergeSet]
    cases hmb : mergeBinding stage specConstants target x with
    | none => rfl
    | some staged =>
      rcases List.mem_cons.mp hmem with h | h
      · subst h
        rw [hd target] at hmb
        cases hmb
      · exact ih h staged

open asset.CPipelineIntrospectionData in
theorem mergeBinding_cases (stage : Nat) (specConstants : Option (Nat → Option Nat))
    (target staged : List CPipelineIntrospectionData.SDescriptorInfo) (d : SDescriptorVarInfo)
    (h : mergeBinding stage specConstants target d = some staged) :
    ∃ extents, resolveExtents specConstants d.count = some extents ∧
      ((target.find? (fun e => e.binding == d.binding) = none ∧
          staged = target ++ [recordOf stage d extents]) ∨
       (∃ existing, target.find? (fun e => e.binding == d.binding) = some existing ∧
          compatible existing (recordOf stage d extents) = true ∧
          staged = target.map (orStageMask stage d.binding))) := by
  unfold mergeBinding at h
  cases hres : resolveExtents specConstants d.count with
  | none => simp [hres] at h
  | some extents =>
    refine ⟨extents, rfl, ?_⟩
    simp only [hres] at h
    cases hfind : target.find? (fun e => e.binding == d.binding) with
    | none =>
      simp only [hfind, Option.some.injEq] at h
      exact Or.inl ⟨rfl, h.symm⟩
    | some existing =>
      simp only [hfind] at h
      by_cases hc : compatible existing (recordOf stage d extents) = true
      · simp only [hc, if_true, Option.some.injEq] at h
        exact Or.inr ⟨existing, rfl, hc, h.symm⟩
      · simp [hc] at h

open asset.CPipelineIntrospectionData in
theorem orStageMask_binding (stage binding : Nat) (e : CPipelineIntrospectionData.SDescriptorInfo) :
    (orStageMask stage binding e).binding = e.binding ∧
    (orStageMask stage binding e).type = e.type ∧
    (orStageMask stage binding e).count = e.count ∧
    (orStageMask stage binding e).stride = e.stride := by
  unfold orStageMask
  split <;> simp

open asset.CPipelineIntrospectionData in
theorem find?_map_orStageMask (stage binding b : Nat) (target : List CPipelineIntrospectionData.SDescriptorInfo) :
    (target.map (orStageMask stage binding)).find? (fun e => e.binding == b) =
      (target.find? (fun e => e.binding == b)).map (orStageMask stage binding) := by
  induction target with
  | nil => rfl
  | cons x rest ih =>
    simp only [List.map_cons, List.find?_cons, (orStageMask_binding stage binding x).1]
    cases x.binding == b
    · simpa using ih
    · rfl

open asset.CPipelineIntrospectionData in
theorem mergeSet_none_of_kind_conflict (stage : Nat)
    (specConstants : Option (Nat → Option Nat)) (d : SDescriptorVarInfo)
    (ds : List SDescriptorVarInfo) (hmem : d ∈ ds) (target : List CPipelineIntrospectionData.SDescriptorInfo)
    (hconf : ∃ e, target.find? (fun e => e.binding == d.binding) = some e ∧ e.type ≠ d.type) :
    mergeSet stage specConstants target ds = none := by
  induction ds generalizing target with
  | nil => simp at hmem
  | cons x rest ih =>
    obtain ⟨e, hfind, hkind⟩ := hconf
    simp only [mergeSet]
    cases hmb : mergeBinding stage specConstants target x with
    | none => rfl
    | some staged =>
      simp only [Option.some_bind]
      obtain ⟨extents, _, hcase⟩ := mergeBinding_cases stage specConstants target staged x hmb
      have hsame : d = x ∨ d ∈ rest := List.mem_cons.mp hmem
      rcases hsame with h | h
      · subst h
        rcases hcase with ⟨hnone, _⟩ | ⟨existing, hsome, hcompat, _⟩
        · rw [hfind] at hnone
          cases hnone
        · rw [hfind] at hsome
          cases hsome
          simp only [compatible, recordOf, Bool.and_eq_true, beq_iff_eq] at hcompat
          exact absurd hcompat.1.1 hkind
      · apply ih h staged
        rcases hcase with ⟨_, hst⟩ | ⟨_, _, _, hst⟩
        · refine ⟨e, ?_, hkind⟩
          rw [hst, List.find?_append, hfind]
          rfl
        · refine ⟨orStageMask stage x.binding e, ?_, ?_⟩
          · rw [hst, find?_map_orStageMask, hfind]
            rfl
          · rw [(orStageMask_binding stage x.binding e).2.1]
            exact hkind

/-- C14: for every aggregator state and every incoming stage result that declares, in some
set, a binding index whose lookup in the aggregator's collection for that set finds an entry
of a different descriptor kind, `merge` returns failure and the aggregator is exactly what
it was: push constant bytes, all four binding collections and the highest binding
numbers. -/
theorem merge_kind_conflict_fails (ESS_UNKNOWN : Nat) (self : CPipelineIntrospectionData)
    (stageData : CStageIntrospectionData) (specConstants : Option (Nat → Option Nat))
    (set : Fin 4) (d : SDescriptorVarInfo) (existing : CPipelineIntrospectionData.SDescriptorInfo)
    (hd : d ∈ stageData.m_descriptorSetBindings set)
    (hfind : (self.m_descriptorSetBindings set).find? (fun e => e.binding == d.binding)
      = some existing)
    (hkind : existing.type ≠ d.type) :
    self.merge ESS_UNKNOWN stageData specConstants = (false, self) := by
  have hnone := mergeSet_none_of_kind_conflict stageData.m_shaderStage specConstants d
    (stageData.m_descriptorSetBindings set) hd (self.m_descriptorSetBindings set)
    ⟨existing, hfind, hkind⟩
  unfold CPipelineIntrospectionData.merge
  simp only []
  split
  · rfl
  · rw [if_neg]
    intro hall
    have := hall set
    rw [hnone] at this
    simp at this

/-- C17: for every stage result that has, in some set, a descriptor binding with an array
extent bound to a specialization constant, `merge` called without a specialization map
returns failure (and leaves the aggregator as it was). -/
theorem merge_unresolved_extent_fails (ESS_UNKNOWN : Nat) (self : CPipelineIntrospectionData)
    (stageData : CStageIntrospectionData) (set : Fin 4) (d : SDescriptorVarInfo)
    (a : SArrayInfo) (hd : d ∈ stageData.m_descriptorSetBindings set) (ha : a ∈ d.count)
    (hs : a.isSpecConstant = true) :
    self.merge ESS_UNKNOWN stageData none = (false, self) := by
  have hres := resolveExtents_none_of_specConstant d.count a ha hs
  have hnone := mergeSet_none_of_mergeBinding_none stageData.m_shaderStage none d
    (fun target => by simp only [CPipelineIntrospectionData.mergeBinding, hres])
    (stageData.m_descriptorSetBindings set) hd (self.m_descriptorSetBindings set)
  unfold CPipelineIntrospectionData.merge
  simp only []
  split
  · rfl
  · rw [if_neg]
    intro hall
    have := hall set
    rw [hnone] at this
    simp at this

open asset.CPipelineIntrospectionData in
/-- What a successful merge of one set does to the staged collection. -/
theorem mergeSet_spec (stage : Nat) (specConstants : Option (Nat → Option Nat))
    (ds : List SDescriptorVarInfo) (target result : List CPipelineIntrospectionData.SDescriptorInfo)
    (h : mergeSet stage specConstants target ds = some result) :
    (∀ e ∈ target, (∃ d ∈ ds, d.binding = e.binding) →
      { e with stageMask := e.stageMask ||| stage } ∈ result) ∧
    (∀ e ∈ target, (∀ d ∈ ds, d.binding ≠ e.binding) → e ∈ result) ∧
    (∀ d ∈ ds, (∀ e ∈ target, e.binding ≠ d.binding) →
      ∃ d0 ∈ ds, ∃ extents, d0.binding = d.binding ∧
        resolveExtents specConstants d0.count = some extents ∧
        recordOf stage d0 extents ∈ result) := by
  induction ds generalizing target with
  | nil =>
    simp only [mergeSet, Option.some.injEq] at h
    subst h
    refine ⟨?_, fun e he _ => he, ?_⟩
    · rintro e _ ⟨d, hd, _⟩
      simp at hd
    · intro d hd
      simp at hd
  | cons x rest ih =>
    simp only [mergeSet] at h
    cases hmb : mergeBinding stage specConstants target x with
    | none => simp [hmb] at h
    | some staged =>
      simp only [hmb, Option.some_bind] at h
      obtain ⟨I1, I2, I3⟩ := ih staged h
      obtain ⟨extents, hres, hcase⟩ :=
        mergeBinding_cases stage specConstants target staged x hmb
      have F1 : ∀ e ∈ target, e.binding ≠ x.binding → e ∈ staged := by
        intro e he hne
        rcases hcase with ⟨_, hst⟩ | ⟨_, _, _, hst⟩
        · rw [hst]
          exact List.mem_append_left _ he
        · rw [hst]
          refine List.mem_map.mpr ⟨e, he, ?_⟩
          simp only [orStageMask, if_neg hne]
      have F2 : ∀ e ∈ target, e.binding = x.binding →
          { e with stageMask := e.stageMask ||| stage } ∈ staged := by
        intro e he heq
        rcases hcase with ⟨hnone, _⟩ | ⟨_, _, _, hst⟩
        · have := List.find?_eq_none.mp hnone e he
          simp [heq] at this
        · rw [hst]
          refine List.mem_map.mpr ⟨e, he, ?_⟩
          simp only [orStageMask, if_pos heq]
      have F3 : (∀ e ∈ target, e.binding ≠ x.binding) → recordOf stage x extents ∈ staged := by
        intro habs
        rcases hcase with ⟨_, hst⟩ | ⟨existing, hsome, _, _⟩
        · rw [hst]
          exact List.mem_append_right _ (List.mem_singleton.mpr rfl)
        · have hmem := List.mem_of_find?_eq_some hsome
          have hb := List.find?_some hsome
          simp only [beq_iff_eq] at hb
          exact absurd hb (habs existing hmem)
      have F4 : ∀ e2 ∈ staged, (∃ e ∈ target, e2.binding = e.binding) ∨
          e2.binding = x.binding := by
        intro e2 he2
        rcases hcase with ⟨_, hst⟩ | ⟨_, _, _, hst⟩
        · rw [hst] at he2
          rcases List.mem_append.mp he2 with h1 | h1
          · exact Or.inl ⟨e2, h1, rfl⟩
          · rw [List.mem_singleton.mp h1]
            exact Or.inr rfl
        · rw [hst] at he2
          obtain ⟨e, he, heq⟩ := List.mem_map.mp he2
          exact Or.inl ⟨e, he, by rw [← heq]; exact (orStageMask_binding _ _ e).1⟩
      refine ⟨?_, ?_, ?_⟩
      · rintro e he ⟨d, hd, hde⟩
        by_cases hx : e.binding = x.binding
        · have he1 := F2 e he hx
          by_cases hr : ∃ d2 ∈ rest, d2.binding = e.binding
          · have := I1 _ he1 hr
            have hor : (e.stageMask ||| stage) ||| stage = e.stageMask ||| stage := by
              rw [Nat.lor_assoc, Nat.or_self]
            simpa only [hor] using this
          · apply I2 _ he1
            intro d2 hd2 hcontra
            exact hr ⟨d2, hd2, hcontra⟩
        · have hdrest : d ∈ rest := by
            rcases List.mem_cons.mp hd with h1 | h1
            · subst h1
              exact absurd hde.symm hx
            · exact h1
          exact I1 e (F1 e he hx) ⟨d, hdrest, hde⟩
      · intro e he hnone
        have hx : e.binding ≠ x.binding :=
          fun hcontra => hnone x (List.mem_cons_self _ _) hcontra.symm
        apply I2 e (F1 e he hx)
        intro d hd
        exact hnone d (List.mem_cons_of_mem _ hd)
      · intro d hd habs
        by_cases hx : d.binding = x.binding
        · have hrec := F3 (fun e he => hx ▸ habs e he)
          refine ⟨x, List.mem_cons_self _ _, extents, hx.symm, hres, ?_⟩
          by_cases hr : ∃ d2 ∈ rest, d2.binding = (recordOf stage x extents).binding
          · have := I1 _ hrec hr
            have hor : (recordOf stage x extents).stageMask ||| stage = stage := by
              simp only [recordOf, Nat.or_self]
            rw [hor] at this
            exact this
          · apply I2 _ hrec
            intro d2 hd2 hcontra
            exact hr ⟨d2, hd2, hcontra⟩
        · have hdrest : d ∈ rest := by
            rcases List.mem_cons.mp hd with h1 | h1
            · subst h1
              exact absurd rfl hx
            · exact h1
          have habs2 : ∀ e2 ∈ staged, e2.binding ≠ d.binding := by
            intro e2 he2 hcontra
            rcases F4 e2 he2 with ⟨e, he, heq⟩ | heq
            · exact habs e he (heq ▸ hcontra)
            · exact hx (hcontra ▸ heq)
          obtain ⟨d0, hd0, ext0, h1, h2, h3⟩ := I3 d hdrest habs2
          exact ⟨d0, List.mem_cons_of_mem _ hd0, ext0, h1, h2, h3⟩

open asset.CPipelineIntrospectionData in
/-- The collection a successful merge of one set leaves: the entries of the target in their
order, each with the stage OR-ed into its mask when the stage declares its binding index and
as it was otherwise, followed by one new record for every declared binding index that the
target did not hold. -/
theorem mergeSet_exact (stage : Nat) (specConstants : Option (Nat → Option Nat))
    (ds : List SDescriptorVarInfo)
    (target result : List CPipelineIntrospectionData.SDescriptorInfo)
    (h : mergeSet stage specConstants target ds = some result) :
    ∃ added : List CPipelineIntrospectionData.SDescriptorInfo,
      result = target.map (fun e =>
          if ds.any (fun d => d.binding == e.binding)
          then { e with stageMask := e.stageMask ||| stage } else e) ++ added ∧
      (added.map fun a => a.binding).Nodup ∧
      (∀ a ∈ added, (∀ e ∈ target, e.binding ≠ a.binding) ∧
        ∃ d ∈ ds, ∃ extents, resolveExtents specConstants d.count = some extents ∧
          a = recordOf stage d extents) ∧
      (∀ d ∈ ds, (∀ e ∈ target, e.binding ≠ d.binding) →
        ∃ a ∈ added, a.binding = d.binding) := by
  induction ds generalizing target result with
  | nil =>
    simp only [mergeSet, Option.some.injEq] at h
    subst h
    refine ⟨[], by simp, by simp, by simp, by simp⟩
  | cons x rest ih =>
    simp only [mergeSet] at h
    cases hmb : mergeBinding stage specConstants target x with
    | none => simp [hmb] at h
    | some staged =>
      simp only [hmb, Option.some_bind] at h
      obtain ⟨added, hres, hnd, hb, hc⟩ := ih staged result h
      obtain ⟨extents, hext, hcase⟩ :=
        mergeBinding_cases stage specConstants target staged x hmb
      rcases hcase with ⟨hnone, hst⟩ | ⟨existing, hsome, _, hst⟩
      · have habs : ∀ e ∈ target, e.binding ≠ x.binding := by
          intro e he hcontra
          have := List.find?_eq_none.mp hnone e he
          simp [hcontra] at this
        have hrec : recordOf stage x extents ∈ staged := by
          rw [hst]
          exact List.mem_append_right _ (List.mem_singleton.mpr rfl)
        have hupd : (if rest.any (fun d => d.binding == (recordOf stage x extents).binding)
            then { recordOf stage x extents with
                   stageMask := (recordOf stage x extents).stageMask ||| stage }
            else recordOf stage x extents) = recordOf stage x extents := by
          split
          · simp only [recordOf, Nat.or_self]
          · rfl
        have hmap : target.map (fun e =>
              if rest.any (fun d => d.binding == e.binding)
              then { e with stageMask := e.stageMask ||| stage } else e) =
            target.map (fun e =>
              if (x :: rest).any (fun d => d.binding == e.binding)
              then { e with stageMask := e.stageMask ||| stage } else e) := by
          apply List.map_congr_left
          intro e he
          have hx : (x.binding == e.binding) = false :=
            beq_false_of_ne (Ne.symm (habs e he))
          simp only [List.any_cons, hx, Bool.false_or]
        refine ⟨recordOf stage x extents :: added, ?_, ?_, ?_, ?_⟩
        · rw [hres, hst, List.map_append, List.map_cons, List.map_nil, hupd, hmap,
            List.append_assoc, List.singleton_append]
        · rw [List.map_cons, List.nodup_cons]
          refine ⟨?_, hnd⟩
          intro hmem
          obtain ⟨a, ha, hab⟩ := List.mem_map.mp hmem
          exact (hb a ha).1 _ hrec hab.symm
        · intro a ha
          rcases List.mem_cons.mp ha with h1 | h1
          · subst h1
            exact ⟨fun e he => habs e he, x, List.mem_cons_self _ _, extents, hext, rfl⟩
          · obtain ⟨hb1, d, hd, ext2, hd2, hd3⟩ := hb a h1
            refine ⟨fun e he => hb1 e ?_, d, List.mem_cons_of_mem _ hd, ext2, hd2, hd3⟩
            rw [hst]
            exact List.mem_append_left _ he
        · intro d hd hdabs
          by_cases hx : d.binding = x.binding
          · exact ⟨recordOf stage x extents, List.mem_cons_self _ _, hx.symm⟩
          · have hdrest : d ∈ rest := by
              rcases List.mem_cons.mp hd with h1 | h1
              · subst h1
                exact absurd rfl hx
              · exact h1
            have hdst : ∀ e ∈ staged, e.binding ≠ d.binding := by
              intro e he
              rw [hst] at he
              rcases List.mem_append.mp he with h1 | h1
              · exact hdabs e h1
              · rw [List.mem_singleton.mp h1]
                exact fun hcontra => hx hcontra.symm
            obtain ⟨a, ha, hab⟩ := hc d hdrest hdst
            exact ⟨a, List.mem_cons_of_mem _ ha, hab⟩
      · have hexm := List.mem_of_find?_eq_some hsome
        have hexb := List.find?_some hsome
        simp only [beq_iff_eq] at hexb
        have hmap : staged.map (fun e =>
              if rest.any (fun d => d.binding == e.binding)
              then { e with stageMask := e.stageMask ||| stage } else e) =
            target.map (fun e =>
              if (x :: rest).any (fun d => d.binding == e.binding)
              then { e with stageMask := e.stageMask ||| stage } else e) := by
          rw [hst, List.map_map]
          apply List.map_congr_left
          intro e _
          by_cases hx : e.binding = x.binding
          · have hx2 : (x.binding == e.binding) = true := by simp [hx]
            simp only [Function.comp, orStageMask, if_pos hx, List.any_cons, hx2,
              Bool.true_or, if_true]
            split
            · simp only [Nat.lor_assoc, Nat.or_self]
            · rfl
          · have hx2 : (x.binding == e.binding) = false := beq_false_of_ne (Ne.symm hx)
            simp only [Function.comp, orStageMask, if_neg hx, List.any_cons, hx2,
              Bool.false_or]
        have hstb : ∀ e ∈ target, ∃ e2 ∈ staged, e2.binding = e.binding := by
          intro e he
          refine ⟨orStageMask stage x.binding e, ?_, (orStageMask_binding _ _ e).1⟩
          rw [hst]
          exact List.mem_map.mpr ⟨e, he, rfl⟩
        refine ⟨added, ?_, hnd, ?_, ?_⟩
        · rw [hres, hmap]
        · intro a ha
          obtain ⟨hb1, d, hd, ext2, hd2, hd3⟩ := hb a ha
          refine ⟨?_, d, List.mem_cons_of_mem _ hd, ext2, hd2, hd3⟩
          intro e he
          obtain ⟨e2, he2, hbe⟩ := hstb e he
          exact hbe ▸ hb1 e2 he2
        · intro d hd hdabs
          have hx : d.binding ≠ x.binding := fun hcontra =>
            hdabs existing hexm (hexb.trans hcontra.symm)
          have hdrest : d ∈ rest := by
            rcases List.mem_cons.mp hd with h1 | h1
            · subst h1
              exact absurd rfl hx
            · exact h1
          have hdst : ∀ e ∈ staged, e.binding ≠ d.binding := by
            intro e2 he2
            rw [hst] at he2
            obtain ⟨e, he, hee⟩ := List.mem_map.mp he2
            rw [← hee, (orStageMask_binding _ _ e).1]
            exact hdabs e he
          exact hc d hdrest hdst

/-- Witness of `merge_kind_conflict_fails`: set 0 holds binding 3 as kind 5, the incoming
stage declares binding 3 as kind 7. -/
theorem merge_kind_conflict_fails_witness :
    (exampleAggregatorWith [{ binding := 3, type := 5, stageMask := 1 }]).merge 0
        (exampleStage 16 0 0 [exampleBinding 3 7 []]) none =
      (false, exampleAggregatorWith [{ binding := 3, type := 5, stageMask := 1 }]) :=
  merge_kind_conflict_fails 0 (exampleAggregatorWith [{ binding := 3, type := 5, stageMask := 1 }])
    (exampleStage 16 0 0 [exampleBinding 3 7 []]) none 0 (exampleBinding 3 7 [])
    { binding := 3, type := 5, stageMask := 1 } (by simp [exampleStage]) (by decide) (by decide)

/-- Witness of `merge_unresolved_extent_fails`: binding 3 is an array sized by specialization
constant 7. -/
theorem merge_unresolved_extent_fails_witness :
    (exampleAggregatorWith []).merge 0
        (exampleStage 16 0 0
          [exampleBinding 3 7 [(({} : SArrayInfo).setSpecID 7).setIsSpecConstant true]]) none =
      (false, exampleAggregatorWith []) :=
  merge_unresolved_extent_fails 0 (exampleAggregatorWith [])
    (exampleStage 16 0 0
      [exampleBinding 3 7 [(({} : SArrayInfo).setSpecID 7).setIsSpecConstant true]]) 0
    (exampleBinding 3 7 [(({} : SArrayInfo).setSpecID 7).setIsSpecConstant true])
    ((({} : SArrayInfo).setSpecID 7).setIsSpecConstant true)
    (by simp [exampleStage]) (by simp [exampleBinding]) (by decide)

/-- C15: after a successful merge of a stage result, in every set: an entry whose binding
index the stage declares keeps binding, kind, count and stride and has the stage OR-ed into
its mask; an entry whose binding index the stage does not declare is unchanged; and for a
declared binding index that was absent the collection holds the record of a declaration
of that index by the stage, whose stage mask is exactly this stage. The merged collection is
exactly the old entries in their order, each replaced by its entry with the stage OR-ed into
the mask when the stage declares its binding index and kept as it was otherwise, followed by
the new records: one per declared binding index that was absent, each the record of a
declaration of the stage with the stage as its mask. Binding indices that were pairwise
different stay pairwise different. -/
theorem merge_success_bindings (ESS_UNKNOWN : Nat) (self : CPipelineIntrospectionData)
    (stageData : CStageIntrospectionData) (specConstants : Option (Nat → Option Nat))
    (hok : (self.merge ESS_UNKNOWN stageData specConstants).1 = true) (set : Fin 4) :
    (∀ d ∈ stageData.m_descriptorSetBindings set,
      (∀ e ∈ self.m_descriptorSetBindings set, e.binding ≠ d.binding) →
      ∃ e2 ∈ (self.merge ESS_UNKNOWN stageData specConstants).2.m_descriptorSetBindings set,
        e2.binding = d.binding ∧ e2.stageMask = stageData.m_shaderStage ∧
        ∃ d0 ∈ stageData.m_descriptorSetBindings set, ∃ extents,
          d0.binding = d.binding ∧
          e2 = CPipelineIntrospectionData.recordOf stageData.m_shaderStage d0 extents) ∧
    (∀ e ∈ self.m_descriptorSetBindings set,
      (∃ d ∈ stageData.m_descriptorSetBindings set, d.binding = e.binding) →
      { e with stageMask := e.stageMask ||| stageData.m_shaderStage } ∈
        (self.merge ESS_UNKNOWN stageData specConstants).2.m_descriptorSetBindings set) ∧
    (∀ e ∈ self.m_descriptorSetBindings set,
      (∀ d ∈ stageData.m_descriptorSetBindings set, d.binding ≠ e.binding) →
      e ∈ (self.merge ESS_UNKNOWN stageData specConstants).2.m_descriptorSetBindings set) ∧
    (∃ added : List CPipelineIntrospectionData.SDescriptorInfo,
      (self.merge ESS_UNKNOWN stageData specConstants).2.m_descriptorSetBindings set =
        (self.m_descriptorSetBindings set).map (fun e =>
          if (stageData.m_descriptorSetBindings set).any (fun d => d.binding == e.binding)
          then { e with stageMask := e.stageMask ||| stageData.m_shaderStage } else e)
        ++ added ∧
      (added.map fun a => a.binding).Nodup ∧
      (∀ a ∈ added, (∀ e ∈ self.m_descriptorSetBindings set, e.binding ≠ a.binding) ∧
        a.stageMask = stageData.m_shaderStage ∧
        ∃ d ∈ stageData.m_descriptorSetBindings set, ∃ extents,
          a = CPipelineIntrospectionData.recordOf stageData.m_shaderStage d extents) ∧
      (∀ d ∈ stageData.m_descriptorSetBindings set,
        (∀ e ∈ self.m_descriptorSetBindings set, e.binding ≠ d.binding) →
        ∃ a ∈ added, a.binding = d.binding)) ∧
    (((self.m_descriptorSetBindings set).map fun e => e.binding).Nodup →
      (((self.merge ESS_UNKNOWN stageData specConstants).2.m_descriptorSetBindings set).map
        fun e => e.binding).Nodup) := by
  unfold CPipelineIntrospectionData.merge at hok ⊢
  simp only [] at hok ⊢
  split at hok
  · cases hok
  · rename_i hpc
    rw [if_neg hpc]
    split at hok
    · rename_i hall
      rw [if_pos hall]
      simp only []
      have hsome := hall set
      obtain ⟨result, hres⟩ := Option.isSome_iff_exists.mp hsome
      rw [hres]
      simp only [Option.getD_some]
      obtain ⟨I1, I2, I3⟩ := mergeSet_spec _ _ _ _ _ hres
      obtain ⟨added, E1, E2, E3, E4⟩ := mergeSet_exact _ _ _ _ _ hres
      refine ⟨?_, I1, I2, ⟨added, E1, E2, ?_, E4⟩, ?_⟩
      · intro d hd habs
        obtain ⟨d0, hd0, extents, h1, _, h3⟩ := I3 d hd habs
        exact ⟨_, h3, h1, rfl, d0, hd0, extents, h1, rfl⟩
      · intro a ha
        obtain ⟨hb1, d, hd, extents, _, hrec⟩ := E3 a ha
        exact ⟨hb1, by rw [hrec]; rfl, d, hd, extents, hrec⟩
      · intro hnd
        rw [E1, List.map_append, List.map_map, List.nodup_append]
        have hbind : (self.m_descriptorSetBindings set).map
            ((fun e : CPipelineIntrospectionData.SDescriptorInfo => e.binding) ∘ fun e =>
              if (stageData.m_descriptorSetBindings set).any (fun d => d.binding == e.binding)
              then { e with stageMask := e.stageMask ||| stageData.m_shaderStage } else e) =
            (self.m_descriptorSetBindings set).map fun e => e.binding := by
          apply List.map_congr_left
          intro e _
          simp only [Function.comp]
          split <;> rfl
        rw [hbind]
        refine ⟨hnd, E2, ?_⟩
        intro b hb1 hb2
        obtain ⟨e, he, heb⟩ := List.mem_map.mp hb1
        obtain ⟨a, ha, hab⟩ := List.mem_map.mp hb2
        exact (E3 a ha).1 e he (heb.trans hab.symm)
    · cases hok

set_option maxRecDepth 8000 in
/-- Witness of `merge_success_bindings`: set 0 holds bindings 1 and 3 for stage 1; stage 16
declares bindings 3 and 4. Binding 1 is kept, binding 3 gets mask 17, binding 4 is new. -/
theorem merge_success_bindings_witness :
    ((exampleAggregatorWith [{ binding := 1, type := 5, stageMask := 1 },
          { binding := 3, type := 7, stageMask := 1 }]).merge 0
        (exampleStage 16 0 0 [exampleBinding 3 7 [], exampleBinding 4 2 []])
        none).2.m_descriptorSetBindings 0 =
      [{ binding := 1, type := 5, stageMask := 1 }, { binding := 3, type := 7, stageMask := 17 },
       { binding := 4, type := 2, stageMask := 16 }] ∧
    ({ binding := 3, type := 7, stageMask := 1 ||| 16 } :
        CPipelineIntrospectionData.SDescriptorInfo) ∈
      ((exampleAggregatorWith [{ binding := 1, type := 5, stageMask := 1 },
          { binding := 3, type := 7, stageMask := 1 }]).merge 0
        (exampleStage 16 0 0 [exampleBinding 3 7 [], exampleBinding 4 2 []])
        none).2.m_descriptorSetBindings 0 :=
  ⟨by decide,
   (merge_success_bindings 0
      (exampleAggregatorWith [{ binding := 1, type := 5, stageMask := 1 },
        { binding := 3, type := 7, stageMask := 1 }])
      (exampleStage 16 0 0 [exampleBinding 3 7 [], exampleBinding 4 2 []]) none
      (by decide) 0).2.1 { binding := 3, type := 7, stageMask := 1 } (by decide)
      ⟨exampleBinding 3 7 [], by simp [exampleStage], rfl⟩⟩

/-! ### Pipeline aggregator: two stages sharing one push constant block -/

theorem lor_eq_zero (a b : Nat) (h : a ||| b = 0) : a = 0 ∧ b = 0 := by
  constructor
  · apply Nat.eq_of_testBit_eq
    intro i
    have := congrArg (fun x => x.testBit i) h
    simp only [Nat.testBit_or, Nat.zero_testBit, Bool.or_eq_false_iff] at this
    rw [this.1, Nat.zero_testBit]
  · apply Nat.eq_of_testBit_eq
    intro i
    have := congrArg (fun x => x.testBit i) h
    simp only [Nat.testBit_or, Nat.zero_testBit, Bool.or_eq_false_iff] at this
    rw [this.2, Nat.zero_testBit]

open asset.CPipelineIntrospectionData in
theorem mark_append (U stage offset size : Nat) (l1 l2 : List Nat) (pos : Nat) :
    markPushConstantBytes U stage offset size (l1 ++ l2) pos =
      markPushConstantBytes U stage offset size l1 pos ++
        markPushConstantBytes U stage offset size l2 (pos + l1.length) := by
  induction l1 generalizing pos with
  | nil => simp [markPushConstantBytes]
  | cons m rest ih =>
    have hpos : pos + 1 + rest.length = pos + (rest.length + 1) := by omega
    rw [List.cons_append, markPushConstantBytes, markPushConstantBytes, ih (pos + 1),
      List.length_cons, List.cons_append, hpos]

open asset.CPipelineIntrospectionData in
theorem mark_outside (U stage offset size : Nat) (l : List Nat) (pos : Nat)
    (h : pos + l.length ≤ offset ∨ offset + size ≤ pos) :
    markPushConstantBytes U stage offset size l pos = l := by
  induction l generalizing pos with
  | nil => rfl
  | cons m rest ih =>
    simp only [List.length_cons] at h
    simp only [markPushConstantBytes]
    rw [if_neg (by omega), ih (pos + 1) (by omega)]

open asset.CPipelineIntrospectionData in
theorem mark_replicate_inside (stage offset size n m pos : Nat) (h1 : offset ≤ pos)
    (h2 : pos + n ≤ offset + size) :
    markPushConstantBytes 0 stage offset size (List.replicate n m) pos =
      List.replicate n (m ||| stage) := by
  induction n generalizing pos with
  | zero => rfl
  | succ n ih =>
    simp only [List.replicate_succ, markPushConstantBytes]
    rw [if_pos (by omega), ih (pos + 1) (by omega) (by omega)]
    congr 1
    by_cases hm : m = 0
    · simp [hm]
    · simp [hm]

open asset.CPipelineIntrospectionData in
theorem mark_block (stage offset size m : Nat) :
    markPushConstantBytes 0 stage offset size
      (List.replicate offset 0 ++ List.replicate size m ++
        List.replicate (256 - offset - size) 0) 0 =
      List.replicate offset 0 ++ List.replicate size (m ||| stage) ++
        List.replicate (256 - offset - size) 0 := by
  rw [mark_append, mark_append]
  rw [mark_outside 0 stage offset size (List.replicate offset 0) 0
    (Or.inl (by simp only [List.length_replicate]; omega))]
  rw [mark_replicate_inside stage offset size size m _
    (by simp only [List.length_replicate]; omega)
    (by simp only [List.length_replicate]; omega)]
  rw [mark_outside 0 stage offset size _ _
    (Or.inr (by simp only [List.length_append, List.length_replicate]; omega))]

open asset.CPipelineIntrospectionData in
theorem runs_replicate_undeclared (U n pos : Nat) :
    pushConstantRuns U (List.replicate n U) pos = [] := by
  induction n generalizing pos with
  | zero => rfl
  | succ n ih => simp only [List.replicate_succ, pushConstantRuns, if_true, ih]

open asset.CPipelineIntrospectionData in
theorem runs_undeclared_prefix (U a : Nat) (l : List Nat) (pos : Nat) :
    pushConstantRuns U (List.replicate a U ++ l) pos = pushConstantRuns U l (pos + a) := by
  induction a generalizing pos with
  | zero => rfl
  | succ a ih =>
    have hpos : pos + 1 + a = pos + (a + 1) := by omega
    rw [List.replicate_succ, List.cons_append, pushConstantRuns, if_pos rfl, ih, hpos]

open asset.CPipelineIntrospectionData in
theorem runs_cons_declared (U m : Nat) (rest : List Nat) (pos : Nat) (hm : m ≠ U) :
    pushConstantRuns U (m :: rest) pos =
      match pushConstantRuns U rest (pos + 1) with
      | [] => [{ stageFlags := m, offset := pos, size := 1 }]
      | r :: rs =>
        if r.stageFlags = m ∧ r.offset = pos + 1 then
          { stageFlags := m, offset := pos, size := r.size + 1 } :: rs
        else { stageFlags := m, offset := pos, size := 1 } :: r :: rs := by
  rw [pushConstantRuns, if_neg hm]

open asset.CPipelineIntrospectionData in
theorem runs_declared_block (U m s b pos : Nat) (hm : m ≠ U) :
    pushConstantRuns U (List.replicate (s + 1) m ++ List.replicate b U) pos =
      [{ stageFlags := m, offset := pos, size := s + 1 }] := by
  induction s generalizing pos with
  | zero =>
    show pushConstantRuns U (m :: List.replicate b U) pos = _
    rw [runs_cons_declared U m _ pos hm, runs_replicate_undeclared]
  | succ s ih =>
    show pushConstantRuns U (m :: (List.replicate (s + 1) m ++ List.replicate b U)) pos = _
    rw [runs_cons_declared U m _ pos hm, ih (pos + 1)]
    simp

open asset.CPipelineIntrospectionData in
theorem runs_block (U m offset size b : Nat) (hpos : 0 < size) :
    pushConstantRuns U (List.replicate offset U ++ List.replicate size m ++
      List.replicate b U) 0 =
      if m = U then [] else [{ stageFlags := m, offset := offset, size := size }] := by
  rw [List.append_assoc, runs_undeclared_prefix, Nat.zero_add]
  by_cases hm : m = U
  · rw [if_pos hm, hm, ← List.replicate_add, runs_replicate_undeclared]
  · rw [if_neg hm]
    obtain ⟨s, rfl⟩ : ∃ s, size = s + 1 := ⟨size - 1, by omega⟩
    exact runs_declared_block U m s b offset hm

open asset.CPipelineIntrospectionData in
theorem conflict_block (m offset size : Nat) (hpos : 0 < size) (hfit : offset + size ≤ 256) :
    pushConstantConflict 0 (List.replicate offset 0 ++ List.replicate size m ++
      List.replicate (256 - offset - size) 0) offset size = false := by
  have hsz : ¬ MaxPushConstantsSize < offset + size := by
    simp only [MaxPushConstantsSize]
    omega
  simp only [pushConstantConflict, runs_block 0 m offset size _ hpos, hsz, decide_False,
    Bool.false_or]
  by_cases hm : m = 0
  · simp [hm]
  · simp [hm]

theorem merge_of_ok (ESS_UNKNOWN : Nat) (self : CPipelineIntrospectionData)
    (stageData : CStageIntrospectionData) (specConstants : Option (Nat → Option Nat))
    (hpc : CPipelineIntrospectionData.pushConstantConflict ESS_UNKNOWN self.m_pushConstantBytes
      stageData.m_pushConstants.offset stageData.m_pushConstants.size = false)
    (hsets : ∀ set : Fin 4, (CPipelineIntrospectionData.mergeSet stageData.m_shaderStage
      specConstants (self.m_descriptorSetBindings set)
      (stageData.m_descriptorSetBindings set)).isSome) :
    self.merge ESS_UNKNOWN stageData specConstants =
      (true,
       { self with
         m_pushConstantBytes :=
           CPipelineIntrospectionData.markPushConstantBytes ESS_UNKNOWN stageData.m_shaderStage
             stageData.m_pushConstants.offset stageData.m_pushConstants.size
             self.m_pushConstantBytes 0
         m_descriptorSetBindings := fun set =>
           (CPipelineIntrospectionData.mergeSet stageData.m_shaderStage specConstants
             (self.m_descriptorSetBindings set)
             (stageData.m_descriptorSetBindings set)).getD (self.m_descriptorSetBindings set) }) := by
  unfold CPipelineIntrospectionData.merge
  simp only [hpc, Bool.false_eq_true, if_false]
  rw [if_pos hsets]

theorem fresh_bytes_split (offset size : Nat) (hfit : offset + size ≤ 256) :
    List.replicate MaxPushConstantsSize (0 : Nat) =
      List.replicate offset 0 ++ List.replicate size 0 ++
        List.replicate (256 - offset - size) 0 := by
  rw [← List.replicate_add, ← List.replicate_add]
  congr 1
  simp only [MaxPushConstantsSize]
  omega

set_option maxRecDepth 8000 in
/-- C13 (as stated, refuted), with `ESS_UNKNOWN = 0`, vertex = 1, fragment = 16: two stage
results that declare the same block `[0,64)` but binding 0 of set 0 with different kinds
do not both merge; two that declare the same empty block merge and yield no range; and
two that declare the same block `[200,300)` do not merge at all. -/
theorem merge_shared_block_counterexample :
    ((((CPipelineIntrospectionData.new 0).merge 0
        (exampleStage 1 0 64 [exampleBinding 0 5 []]) none).2.merge 0
        (exampleStage 16 0 64 [exampleBinding 0 7 []]) none).1 = false) ∧
    ((((CPipelineIntrospectionData.new 0).merge 0 (exampleStage 1 0 0 []) none).2.merge 0
        (exampleStage 16 0 0 []) none).1 = true ∧
      (((CPipelineIntrospectionData.new 0).merge 0 (exampleStage 1 0 0 []) none).2.merge 0
        (exampleStage 16 0 0 []) none).2.createPushConstantRangesFromIntrospection 0 = []) ∧
    (((CPipelineIntrospectionData.new 0).merge 0 (exampleStage 1 200 100 []) none).1
      = false) := by
  refine ⟨by decide, ⟨by decide, by decide⟩, by decide⟩

/-- C13 (amended), with `ESS_UNKNOWN` the empty mask 0: for every two stage results of
different stages that declare the same non-empty push constant block within the 256 bytes
(`size > 0`, `offset + size <= 256`) and whose descriptor bindings merge without conflict
(those of the first into empty sets, those of the second into the result), merging both
into a fresh aggregator succeeds both times and the range synthesis yields exactly one
range, with that offset and size and the OR of the two stages as mask. -/
theorem merge_shared_push_constant_block (stageA stageB : CStageIntrospectionData)
    (specA specB : Option (Nat → Option Nat)) (offset size : Nat)
    (hAo : stageA.m_pushConstants.offset = offset) (hAs : stageA.m_pushConstants.size = size)
    (hBo : stageB.m_pushConstants.offset = offset) (hBs : stageB.m_pushConstants.size = size)
    (hpos : 0 < size) (hfit : offset + size ≤ 256)
    (hdiff : stageA.m_shaderStage ≠ stageB.m_shaderStage)
    (hdA : ∀ set : Fin 4, (CPipelineIntrospectionData.mergeSet stageA.m_shaderStage specA []
      (stageA.m_descriptorSetBindings set)).isSome)
    (hdB : ∀ set : Fin 4, (CPipelineIntrospectionData.mergeSet stageB.m_shaderStage specB
      ((CPipelineIntrospectionData.mergeSet stageA.m_shaderStage specA []
        (stageA.m_descriptorSetBindings set)).getD [])
      (stageB.m_descriptorSetBindings set)).isSome) :
    ((CPipelineIntrospectionData.new 0).merge 0 stageA specA).1 = true ∧
    (((CPipelineIntrospectionData.new 0).merge 0 stageA specA).2.merge 0 stageB specB).1 = true ∧
    (((CPipelineIntrospectionData.new 0).merge 0 stageA specA).2.merge 0 stageB
        specB).2.createPushConstantRangesFromIntrospection 0 =
      [{ stageFlags := stageA.m_shaderStage ||| stageB.m_shaderStage, offset := offset,
         size := size }] := by
  have hfresh : (CPipelineIntrospectionData.new 0).m_pushConstantBytes =
      List.replicate offset 0 ++ List.replicate size 0 ++
        List.replicate (256 - offset - size) 0 := fresh_bytes_split offset size hfit
  have h1 := merge_of_ok 0 (CPipelineIntrospectionData.new 0) stageA specA
    (by rw [hfresh, hAo, hAs]; exact conflict_block 0 offset size hpos hfit) hdA
  rw [hAo, hAs, hfresh, mark_block, Nat.zero_or] at h1
  have h2 := merge_of_ok 0 ((CPipelineIntrospectionData.new 0).merge 0 stageA specA).2 stageB
    specB
    (by rw [h1, hBo, hBs]; exact conflict_block _ offset size hpos hfit)
    (by rw [h1]; exact hdB)
  rw [h1] at h2 ⊢
  simp only [] at h2
  rw [hBo, hBs, mark_block] at h2
  rw [h2]
  refine ⟨rfl, rfl, ?_⟩
  simp only [CPipelineIntrospectionData.createPushConstantRangesFromIntrospection]
  rw [runs_block 0 _ offset size _ hpos, if_neg]
  intro hzero
  obtain ⟨ha, hb⟩ := lor_eq_zero _ _ hzero
  exact hdiff (ha.trans hb.symm)

set_option maxRecDepth 8000 in
/-- Witness of `merge_shared_push_constant_block`: a vertex stage (1) and a fragment stage (16)
both declare bytes `[0,64)`; the vertex stage also declares binding 2 of set 0. -/
theorem merge_shared_push_constant_block_witness :
    ((CPipelineIntrospectionData.new 0).merge 0
      (exampleStage 1 0 64 [exampleBinding 2 5 []]) none).1 = true ∧
    (((CPipelineIntrospectionData.new 0).merge 0
      (exampleStage 1 0 64 [exampleBinding 2 5 []]) none).2.merge 0
      (exampleStage 16 0 64 []) none).1 = true ∧
    (((CPipelineIntrospectionData.new 0).merge 0
      (exampleStage 1 0 64 [exampleBinding 2 5 []]) none).2.merge 0
      (exampleStage 16 0 64 []) none).2.createPushConstantRangesFromIntrospection 0 =
      [{ stageFlags := 1 ||| 16, offset := 0, size := 64 }] :=
  merge_shared_push_constant_block (exampleStage 1 0 64 [exampleBinding 2 5 []])
    (exampleStage 16 0 64 []) none none 0 64 rfl rfl rfl rfl (by decide) (by decide) (by decide)
    (by decide) (by decide)

/-! ### Storage buffers: `isLastMemberRuntimeSized` -/

open asset.CStageIntrospectionData.SDescriptorVarInfo in
/-- C21 (the code at the failing input): for the block `buffer { float x; }`, one member that is
no array, `isLastMemberRuntimeSized()` takes `front()` of the empty `count` span and gives no
value, where the claim has `false`; the binding level `isRunTimeSized()` asks `isArray()`
first and is `false` on a binding with no extents. -/
theorem isLastMemberRuntimeSized_non_array_last_member :
    (exampleTypes { count := [] } 0).map (fun t => t.memberCount) = some 1 ∧
    (exampleTypes { count := [] } 1).map SType.isArray = some false ∧
    SStorageBuffer.isLastMemberRuntimeSized (exampleTypes { count := [] })
      exampleStorageBuffer = none ∧
    (exampleBinding 0 7 []).isRunTimeSized = false := by
  refine ⟨by decide, by decide, by decide, by decide⟩

/-! ### The orderings of bindings and interface variables -/

/-- C22: `SDescriptorInfo::operator<` depends only on `binding` and `SInterface::operator<`
only on `location`; each is irreflexive, asymmetric and transitive, its incomparability is
transitive, and two elements are incomparable exactly when their keys are equal. -/
theorem operator_lt_strict_weak_ordering :
    ((∀ a a2 b b2 : CIntrospectionData.SDescriptorInfo,
        a.binding = a2.binding → b.binding = b2.binding → a.lt b = a2.lt b2) ∧
      (∀ a : CIntrospectionData.SDescriptorInfo, a.lt a = false) ∧
      (∀ a b : CIntrospectionData.SDescriptorInfo, a.lt b = true → b.lt a = false) ∧
      (∀ a b c : CIntrospectionData.SDescriptorInfo,
        a.lt b = true → b.lt c = true → a.lt c = true) ∧
      (∀ a b c : CIntrospectionData.SDescriptorInfo,
        (a.lt b = false ∧ b.lt a = false) → (b.lt c = false ∧ c.lt b = false) →
          (a.lt c = false ∧ c.lt a = false)) ∧
      (∀ a b : CIntrospectionData.SDescriptorInfo,
        (a.lt b = false ∧ b.lt a = false) ↔ a.binding = b.binding)) ∧
    ((∀ a a2 b b2 : SInterface,
        a.location = a2.location → b.location = b2.location → a.lt b = a2.lt b2) ∧
      (∀ a : SInterface, a.lt a = false) ∧
      (∀ a b : SInterface, a.lt b = true → b.lt a = false) ∧
      (∀ a b c : SInterface, a.lt b = true → b.lt c = true → a.lt c = true) ∧
      (∀ a b c : SInterface,
        (a.lt b = false ∧ b.lt a = false) → (b.lt c = false ∧ c.lt b = false) →
          (a.lt c = false ∧ c.lt a = false)) ∧
      (∀ a b : SInterface,
        (a.lt b = false ∧ b.lt a = false) ↔ a.location = b.location)) := by
  refine ⟨⟨?_, ?_, ?_, ?_, ?_, ?_⟩, ⟨?_, ?_, ?_, ?_, ?_, ?_⟩⟩
  · intro a a2 b b2 h1 h2
    simp only [CIntrospectionData.SDescriptorInfo.lt, h1, h2]
  · intro a
    simp [CIntrospectionData.SDescriptorInfo.lt]
  · intro a b
    simp only [CIntrospectionData.SDescriptorInfo.lt, decide_eq_true_eq, decide_eq_false_iff_not]
    omega
  · intro a b c
    simp only [CIntrospectionData.SDescriptorInfo.lt, decide_eq_true_eq]
    omega
  · intro a b c
    simp only [CIntrospectionData.SDescriptorInfo.lt, decide_eq_false_iff_not]
    omega
  · intro a b
    simp only [CIntrospectionData.SDescriptorInfo.lt, decide_eq_false_iff_not]
    omega
  · intro a a2 b b2 h1 h2
    simp only [SInterface.lt, h1, h2]
  · intro a
    simp [SInterface.lt]
  · intro a b
    simp only [SInterface.lt, decide_eq_true_eq, decide_eq_false_iff_not]
    omega
  · intro a b c
    simp only [SInterface.lt, decide_eq_true_eq]
    omega
  · intro a b c
    simp only [SInterface.lt, decide_eq_false_iff_not]
    omega
  · intro a b
    simp only [SInterface.lt, decide_eq_false_iff_not]
    omega

/-- Witness of `operator_lt_strict_weak_ordering`: bindings 1, 2, 3 of different kinds are
ordered transitively, and two records of binding 1 with different kinds compare alike against
binding 2 and are incomparable. -/
theorem operator_lt_strict_weak_ordering_witness :
    (CIntrospectionData.SDescriptorInfo.lt { binding := 1, type := 0 }
        { binding := 3, type := 2 } = true) ∧
    (CIntrospectionData.SDescriptorInfo.lt { binding := 1, type := 0 }
        { binding := 2, type := 1 } =
      CIntrospectionData.SDescriptorInfo.lt { binding := 1, type := 5 }
        { binding := 2, type := 1 }) ∧
    (CIntrospectionData.SDescriptorInfo.lt { binding := 1, type := 0 }
        { binding := 1, type := 5 } = false ∧
      CIntrospectionData.SDescriptorInfo.lt { binding := 1, type := 5 }
        { binding := 1, type := 0 } = false) :=
  ⟨operator_lt_strict_weak_ordering.1.2.2.2.1 { binding := 1, type := 0 }
      { binding := 2, type := 1 } { binding := 3, type := 2 } (by decide) (by decide),
    operator_lt_strict_weak_ordering.1.1 { binding := 1, type := 0 }
      { binding := 1, type := 5 } { binding := 2, type := 1 } { binding := 2, type := 1 }
      rfl rfl,
    (operator_lt_strict_weak_ordering.1.2.2.2.2.2 { binding := 1, type := 0 }
      { binding := 1, type := 5 }).2 rfl⟩

/-! ### The per-set collections of a pipeline result -/

theorem KeyEqual_iff (a b : CPipelineIntrospectionData.SDescriptorInfo) :
    CPipelineIntrospectionData.KeyEqual a b = true ↔ a.binding = b.binding := by
  simp [CPipelineIntrospectionData.KeyEqual]

theorem insert_of_present (set : List CPipelineIntrospectionData.SDescriptorInfo)
    (value e : CPipelineIntrospectionData.SDescriptorInfo) (he : e ∈ set)
    (hb : e.binding = value.binding) :
    CPipelineIntrospectionData.DescriptorSetBindings.insert set value = set := by
  unfold CPipelineIntrospectionData.DescriptorSetBindings.insert
  rw [if_pos]
  rw [List.any_eq_true]
  exact ⟨e, he, by simp [CPipelineIntrospectionData.Hash,
    CPipelineIntrospectionData.KeyEqual, hb]⟩

theorem insert_of_absent (set : List CPipelineIntrospectionData.SDescriptorInfo)
    (value : CPipelineIntrospectionData.SDescriptorInfo)
    (h : ∀ e ∈ set, e.binding ≠ value.binding) :
    CPipelineIntrospectionData.DescriptorSetBindings.insert set value = set ++ [value] := by
  unfold CPipelineIntrospectionData.DescriptorSetBindings.insert
  rw [if_neg]
  rw [List.any_eq_true]
  rintro ⟨e, he, hp⟩
  simp only [CPipelineIntrospectionData.Hash, CPipelineIntrospectionData.KeyEqual,
    Bool.and_self, beq_iff_eq] at hp
  exact h e he hp

theorem insert_nodup (set : List CPipelineIntrospectionData.SDescriptorInfo)
    (value : CPipelineIntrospectionData.SDescriptorInfo)
    (h : (set.map fun e => e.binding).Nodup) :
    ((CPipelineIntrospectionData.DescriptorSetBindings.insert set value).map
      fun e => e.binding).Nodup := by
  by_cases hp : ∃ e ∈ set, e.binding = value.binding
  · obtain ⟨e, he, hb⟩ := hp
    rw [insert_of_present set value e he hb]
    exact h
  · have hp2 : ∀ e ∈ set, e.binding ≠ value.binding := fun e he hb => hp ⟨e, he, hb⟩
    rw [insert_of_absent set value hp2, List.map_append, List.nodup_append]
    refine ⟨h, by simp, ?_⟩
    intro b hb1 hb2
    simp only [List.map_cons, List.map_nil, List.mem_singleton] at hb2
    obtain ⟨e, he, hbe⟩ := List.mem_map.1 hb1
    exact hp2 e he (hbe.trans hb2)

theorem foldl_insert_nodup (values set : List CPipelineIntrospectionData.SDescriptorInfo)
    (h : (set.map fun e => e.binding).Nodup) :
    ((values.foldl CPipelineIntrospectionData.DescriptorSetBindings.insert set).map
      fun e => e.binding).Nodup := by
  induction values generalizing set with
  | nil => exact h
  | cons v vs ih => exact ih _ (insert_nodup set v h)

/-- C23: in the per-set collection of a pipeline result `KeyEqual` holds of two entries exactly
when their binding indices are equal, the hash of an entry is its binding index, so entries
that compare equal hash equal; an insertion keeps the collection as it is when it holds an
entry of that binding index and appends the entry otherwise, so a collection built by
insertions from the empty one never holds two entries with the same binding index. -/
theorem per_set_collection_keyed_by_binding :
    (∀ a b : CPipelineIntrospectionData.SDescriptorInfo,
      CPipelineIntrospectionData.KeyEqual a b = true ↔ a.binding = b.binding) ∧
    (∀ a : CPipelineIntrospectionData.SDescriptorInfo,
      CPipelineIntrospectionData.Hash a = a.binding) ∧
    (∀ a b : CPipelineIntrospectionData.SDescriptorInfo,
      CPipelineIntrospectionData.KeyEqual a b = true →
        CPipelineIntrospectionData.Hash a = CPipelineIntrospectionData.Hash b) ∧
    (∀ (set : List CPipelineIntrospectionData.SDescriptorInfo)
      (value e : CPipelineIntrospectionData.SDescriptorInfo),
      e ∈ set → e.binding = value.binding →
        CPipelineIntrospectionData.DescriptorSetBindings.insert set value = set) ∧
    (∀ (set : List CPipelineIntrospectionData.SDescriptorInfo)
      (value : CPipelineIntrospectionData.SDescriptorInfo),
      (∀ e ∈ set, e.binding ≠ value.binding) →
        CPipelineIntrospectionData.DescriptorSetBindings.insert set value = set ++ [value]) ∧
    (∀ values : List CPipelineIntrospectionData.SDescriptorInfo,
      ((values.foldl CPipelineIntrospectionData.DescriptorSetBindings.insert []).map
        fun e => e.binding).Nodup) := by
  refine ⟨KeyEqual_iff, fun _ => rfl, ?_, insert_of_present, insert_of_absent, ?_⟩
  · intro a b h
    exact (KeyEqual_iff a b).1 h
  · intro values
    exact foldl_insert_nodup values [] (by simp)

/-- Witness of `per_set_collection_keyed_by_binding`: two records of binding 3 that differ in
kind and count compare equal and hash equal, and inserting the second into the collection that
holds the first leaves the collection as it is. -/
theorem per_set_collection_keyed_by_binding_witness :
    CPipelineIntrospectionData.Hash
        { binding := 3, type := 1, count := 1, stride := 0, stageMask := 1 } =
      CPipelineIntrospectionData.Hash
        { binding := 3, type := 6, count := 4, stride := 1, stageMask := 16 } ∧
    CPipelineIntrospectionData.DescriptorSetBindings.insert
        [{ binding := 3, type := 1, count := 1, stride := 0, stageMask := 1 }]
        { binding := 3, type := 6, count := 4, stride := 1, stageMask := 16 } =
      [{ binding := 3, type := 1, count := 1, stride := 0, stageMask := 1 }] :=
  ⟨per_set_collection_keyed_by_binding.2.2.1
      { binding := 3, type := 1, count := 1, stride := 0, stageMask := 1 }
      { binding := 3, type := 6, count := 4, stride := 1, stageMask := 16 } (by decide),
    per_set_collection_keyed_by_binding.2.2.2.1
      [{ binding := 3, type := 1, count := 1, stride := 0, stageMask := 1 }]
      { binding := 3, type := 6, count := 4, stride := 1, stageMask := 16 }
      { binding := 3, type := 1, count := 1, stride := 0, stageMask := 1 }
      (by simp) rfl⟩

/-! ### The push constant block of a stage -/

/-- C24 (the code at the failing input): the block of offset 0 and size 256 is within the
256 byte limit, and the `uint8_t` member `size` reads back 0 after 256 is assigned to it; in
general the two members read back the values assigned modulo 256. -/
theorem SPushConstantInfo_size_256_reads_back_0 :
    0 + 256 ≤ MaxPushConstantsSize ∧
    (SPushConstantInfo.assign {} 0 256).offset = 0 ∧
    (SPushConstantInfo.assign {} 0 256).size = 0 ∧
    (∀ (pc : SPushConstantInfo) (o s : Nat),
      (pc.assign o s).offset = o % 256 ∧ (pc.assign o s).size = s % 256) := by
  refine ⟨by decide, by decide, by decide, fun pc o s => ⟨rfl, rfl⟩⟩

/-! ### The ImGui extension: resource validation and listeners -/

/-- C26 (the code at the failing input): for a redirect with one binding `anyBindingCount`
logs the error and returns `false`, and for a redirect with no binding it logs nothing and
returns `true`; in general it returns `true` exactly when the binding count is zero and logs
the error exactly when the count is not zero. -/
theorem anyBindingCount_inverted :
    (ext.imgui.anyBindingCount 1).1 = false ∧
    (ext.imgui.anyBindingCount 1).2.length = 1 ∧
    ext.imgui.anyBindingCount 0 = (true, []) ∧
    (∀ bindingCount : Nat,
      ((ext.imgui.anyBindingCount bindingCount).1 = true ↔ bindingCount = 0) ∧
      ((ext.imgui.anyBindingCount bindingCount).2 ≠ [] ↔ bindingCount ≠ 0)) := by
  refine ⟨rfl, rfl, rfl, ?_⟩
  intro bindingCount
  by_cases h : bindingCount = 0
  · subst h
    exact ⟨by simp [ext.imgui.anyBindingCount], by simp [ext.imgui.anyBindingCount]⟩
  · constructor
    · simp [ext.imgui.anyBindingCount, h]
    · simp [ext.imgui.anyBindingCount, h]

/-- C29: `unregisterListener(id)` with `id` below the number of listeners returns `id` and
leaves the listeners before `id` followed by the listeners after `id`, in their order; with
`id` at or above the number of listeners it returns no value and leaves the object as it was;
`registerListener` appends the listener and returns the previous number of listeners. -/
theorem unregisterListener_contract {α : Type} (self : ext.imgui.UI α) :
    (∀ (id : Nat) (h : id < self.m_subscribers.length),
      (self.unregisterListener id).1 = some id ∧
      self.m_subscribers =
        self.m_subscribers.take id ++ self.m_subscribers[id] :: self.m_subscribers.drop (id + 1) ∧
      (self.unregisterListener id).2.m_subscribers =
        self.m_subscribers.take id ++ self.m_subscribers.drop (id + 1) ∧
      (self.unregisterListener id).2.m_subscribers.length = self.m_subscribers.length - 1) ∧
    (∀ id : Nat, self.m_subscribers.length ≤ id →
      self.unregisterListener id = (none, self)) ∧
    (∀ listener : α,
      self.registerListener listener =
        (self.m_subscribers.length, { m_subscribers := self.m_subscribers ++ [listener] })) := by
  refine ⟨?_, ?_, ?_⟩
  · intro id h
    have hun : self.unregisterListener id =
        (some id, { m_subscribers := self.m_subscribers.eraseIdx id }) := by
      simp [ext.imgui.UI.unregisterListener, h]
    rw [hun]
    refine ⟨rfl, ?_, ?_, ?_⟩
    · rw [← List.drop_eq_getElem_cons h, List.take_append_drop]
    · exact List.eraseIdx_eq_take_drop_succ _ _
    · show (self.m_subscribers.eraseIdx id).length = _
      rw [List.length_eraseIdx, if_pos h]
  · intro id h
    simp [ext.imgui.UI.unregisterListener, Nat.not_lt.2 h]
  · intro listener
    simp [ext.imgui.UI.registerListener]

/-- Witness of `unregisterListener_contract`: of the listeners 10, 20, 30 the call with id 1
removes 20 and returns 1, and the call with id 3 returns no value. -/
theorem unregisterListener_contract_witness :
    (ext.imgui.UI.unregisterListener { m_subscribers := [10, 20, 30] } 1).1 = some 1 ∧
    (ext.imgui.UI.unregisterListener { m_subscribers := [10, 20, 30] } 1).2.m_subscribers =
      [10, 30] ∧
    ext.imgui.UI.unregisterListener { m_subscribers := [10, 20, 30] } 3 =
      (none, { m_subscribers := [10, 20, 30] }) :=
  ⟨((unregisterListener_contract { m_subscribers := [10, 20, 30] }).1 1 (by decide)).1,
    ((unregisterListener_contract { m_subscribers := [10, 20, 30] }).1 1 (by decide)).2.2.1,
    (unregisterListener_contract { m_subscribers := [10, 20, 30] }).2.1 3 (by decide)⟩

/-! ### The hash heap of the region flattening hash filter -/

open asset.CFlattenRegionsStreamHashImageFilter in
/-- C28 (the code at the failing inputs): for an image of 3 mip levels and 1 layer the heap
has 3 slots and the hash of (mip level 2, layer 0) goes to slot 6; for an image of 2 mip levels
and 3 layers the heap has 6 slots and the hashes of (0, 2) and of (1, 0) both go to slot 2.
The slot written and the slot read back are the same for every pair. -/
theorem hash_heap_slot_uses_mipLevels :
    (heapSlots 3 1 = 3 ∧ 2 < 3 ∧ 0 < 1 ∧ writeSlot 3 2 0 = 6) ∧
    (heapSlots 2 3 = 6 ∧ writeSlot 2 0 2 = 2 ∧ writeSlot 2 1 0 = 2) ∧
    (∀ mipLevels miplevel layer : Nat,
      writeSlot mipLevels miplevel layer = readSlot mipLevels miplevel layer) := by
  refine ⟨⟨by decide, by decide, by decide, by decide⟩, ⟨by decide, by decide, by decide⟩,
    fun _ _ _ => rfl⟩

/-! ### The pipeline layout -/

/-- C30 (the code at the failing input): constructed from an empty range of push constant
ranges, the constructor sets the array to null and then calls `begin()` through the null
pointer, so no object results; constructed from at least one range, the object returns the
ranges given, in order, and `getDescriptorSetLayout(i)` returns the layout given for set
`i`. -/
theorem IPipelineLayout_new_without_ranges (L : Type)
    (layout0 layout1 layout2 layout3 : core.smart_refctd_ptr L) :
    irr.asset.IPipelineLayout.new [] layout0 layout1 layout2 layout3 = none ∧
    (∀ (r : asset.SPushConstantRange) (rs : List asset.SPushConstantRange),
      ∃ layout, irr.asset.IPipelineLayout.new (r :: rs) layout0 layout1 layout2 layout3 =
          some layout ∧
        layout.getPushConstantRanges = some (r :: rs) ∧
        layout.getDescriptorSetLayout 0 = some layout0 ∧
        layout.getDescriptorSetLayout 1 = some layout1 ∧
        layout.getDescriptorSetLayout 2 = some layout2 ∧
        layout.getDescriptorSetLayout 3 = some layout3) := by
  refine ⟨rfl, ?_⟩
  intro r rs
  refine ⟨{ m_descSetLayouts := fun i =>
              if i = 0 then layout0 else if i = 1 then layout1
              else if i = 2 then layout2 else layout3,
            m_pushConstantRanges := some (r :: rs) }, ?_, rfl, ?_, ?_, ?_, ?_⟩
  · simp [irr.asset.IPipelineLayout.new]
  · simp [irr.asset.IPipelineLayout.getDescriptorSetLayout]
  · simp [irr.asset.IPipelineLayout.getDescriptorSetLayout]
  · simp [irr.asset.IPipelineLayout.getDescriptorSetLayout]
  · simp [irr.asset.IPipelineLayout.getDescriptorSetLayout]

/-! ### The member arrays of a type node under construction -/

/-- C27: for a type node under construction with `n` members whose member storage starts at
byte `b` and ends inside the address range (`b + StoragePerMember * n < 2^64`), `memberTypes`
starts at `b`, `memberNames` at `b + 8 n`, `memberSizes` 16 n after `memberNames`,
`memberOffsets` 4 n after `memberSizes`, `memberStrides` 4 n after `memberOffsets`; the five
arrays follow each other without gap or overlap and `memberStrides` ends at
`b + StoragePerMember * n`. -/
theorem member_arrays_layout (t : STypeMutable)
    (h : t.memberInfoStorage.m_byteOffset + StoragePerMember * t.memberCount < SIZE_MOD) :
    t.memberTypes.byte_offset = t.memberInfoStorage.m_byteOffset ∧
    t.memberNames.byte_offset =
      t.memberInfoStorage.m_byteOffset + t.memberCount * STypeMutable.sizeofMemberType ∧
    t.memberSizes.byte_offset =
      t.memberNames.byte_offset + t.memberCount * STypeMutable.sizeofMemberName ∧
    t.memberOffsets.byte_offset = t.memberSizes.byte_offset + 4 * t.memberCount ∧
    t.memberStrides.byte_offset = t.memberOffsets.byte_offset + 4 * t.memberCount ∧
    t.memberStrides.byte_offset + 4 * t.memberCount =
      t.memberInfoStorage.m_byteOffset + StoragePerMember * t.memberCount ∧
    List.Pairwise (fun p q : Nat × Nat => p.1 + p.2 ≤ q.1)
      [(t.memberTypes.byte_offset, STypeMutable.sizeofMemberType * t.memberCount),
       (t.memberNames.byte_offset, STypeMutable.sizeofMemberName * t.memberCount),
       (t.memberSizes.byte_offset, 4 * t.memberCount),
       (t.memberOffsets.byte_offset, 4 * t.memberCount),
       (t.memberStrides.byte_offset, 4 * t.memberCount)] := by
  have hS : SIZE_MOD = 2 ^ 64 := rfl
  simp only [StoragePerMember, hS] at h
  have h1 : t.memberTypes.byte_offset = t.memberInfoStorage.m_byteOffset := rfl
  have h2 : t.memberNames.byte_offset =
      t.memberInfoStorage.m_byteOffset + t.memberCount * 8 := by
    simp only [STypeMutable.memberNames, STypeMutable.memberTypes, core.based_offset.add,
      core.based_offset.byte_offset, STypeMutable.sizeofMemberType, hS]
    omega
  have h3 : t.memberSizes.byte_offset = t.memberNames.byte_offset + t.memberCount * 16 := by
    rw [h2]
    simp only [STypeMutable.memberSizes, core.based_offset.add, core.based_offset.byte_offset,
      STypeMutable.sizeofMemberName, hS] at h2 ⊢
    rw [h2]
    omega
  have h4 : t.memberOffsets.byte_offset = t.memberSizes.byte_offset + 4 * t.memberCount := by
    rw [h3, h2]
    simp only [STypeMutable.memberOffsets, core.based_offset.add,
      core.based_offset.byte_offset, STypeMutable.sizeofMemberSize, hS] at h2 h3 ⊢
    rw [h3, h2]
    omega
  have h5 : t.memberStrides.byte_offset = t.memberOffsets.byte_offset + 4 * t.memberCount := by
    rw [h4, h3, h2]
    simp only [STypeMutable.memberStrides, core.based_offset.add,
      core.based_offset.byte_offset, STypeMutable.sizeofMemberSize, hS] at h2 h3 h4 ⊢
    rw [h4, h3, h2]
    omega
  refine ⟨h1, h2, h3, h4, h5, ?_, ?_⟩
  · rw [h5, h4, h3, h2]
    simp only [StoragePerMember]
    omega
  · simp only [List.pairwise_cons, List.mem_cons, List.mem_singleton, List.not_mem_nil,
      forall_eq_or_imp, forall_eq, List.Pairwise.nil, and_true, h5, h4, h3, h2, h1,
      STypeMutable.sizeofMemberType, STypeMutable.sizeofMemberName, false_imp_iff,
      implies_true, List.mem_nil_iff]
    omega

/-- Witness of `member_arrays_layout`: a node with 3 members whose storage starts at byte 48
has its arrays at 48, 72, 120, 132 and 144, the last ending at 156 = 48 + 36 * 3. -/
theorem member_arrays_layout_witness :
    STypeMutable.memberNames { memberCount := 3, memberInfoStorage := { m_byteOffset := 48 } } =
      { m_byteOffset := 72 } ∧
    STypeMutable.memberStrides
        { memberCount := 3, memberInfoStorage := { m_byteOffset := 48 } } =
      { m_byteOffset := 144 } :=
  ⟨by
      have h := (member_arrays_layout
        { memberCount := 3, memberInfoStorage := { m_byteOffset := 48 } } (by decide)).2.1
      exact congrArg core.based_offset.mk h,
    by decide⟩

/-! ### The pre-order visit of a memory block -/

theorem pathsPreOrder_succ (mem : Nat → Option SType) (d a : Nat) (t : SType)
    (hmem : mem a = some t) :
    pathsPreOrder mem (d + 1) a =
      a :: (t.memberTypes.take t.memberCount).reverse.flatMap fun member =>
        member.elim [] (pathsPreOrder mem d) := by
  simp only [pathsPreOrder, hmem]

theorem pathsPreOrder_depth (mem : Nat → Option SType) (rank : Nat → Nat)
    (hwf : ∀ a t, mem a = some t → t.memberCount ≤ t.memberTypes.length ∧
      ∀ e ∈ t.memberTypes.take t.memberCount,
        ∃ m, e = some m ∧ (mem m).isSome = true ∧ rank m < rank a)
    (d : Nat) : ∀ (a d2 : Nat), rank a < d → rank a < d2 →
      pathsPreOrder mem d a = pathsPreOrder mem d2 a := by
  induction d with
  | zero => intro a d2 h; omega
  | succ d ih =>
    intro a d2 h1 h2
    obtain ⟨d3, rfl⟩ : ∃ d3, d2 = d3 + 1 := ⟨d2 - 1, by omega⟩
    cases hmem : mem a with
    | none => simp only [pathsPreOrder, hmem]
    | some t =>
      rw [pathsPreOrder_succ mem d a t hmem, pathsPreOrder_succ mem d3 a t hmem]
      congr 1
      apply List.flatMap_congr
      intro x hx
      obtain ⟨m, rfl, _, hr⟩ := (hwf a t hmem).2 x (List.mem_reverse.1 hx)
      exact ih m d3 (by omega) (by omega)

theorem loop_spec (mem : Nat → Option SType) (rank : Nat → Nat)
    (hwf : ∀ a t, mem a = some t → t.memberCount ≤ t.memberTypes.length ∧
      ∀ e ∈ t.memberTypes.take t.memberCount,
        ∃ m, e = some m ∧ (mem m).isSome = true ∧ rank m < rank a)
    (n : Nat) : ∀ (stk : List (Option Nat)) (calls : List Nat) (fuel : Nat),
      (∀ e ∈ stk, ∃ m, e = some m ∧ (mem m).isSome = true) →
      (stk.flatMap fun e => e.elim [] fun m => pathsPreOrder mem (rank m + 1) m).length = n →
      n ≤ fuel →
      visitMemoryBlockPreOrderDFS.loop mem fuel stk calls =
        some (calls ++ stk.flatMap fun e =>
          e.elim [] fun m => pathsPreOrder mem (rank m + 1) m) := by
  induction n with
  | zero =>
    intro stk calls fuel hlive hlen _
    cases stk with
    | nil => cases fuel <;> simp [visitMemoryBlockPreOrderDFS.loop]
    | cons e rest =>
      obtain ⟨m, rfl, hm⟩ := hlive e (List.mem_cons_self _ _)
      obtain ⟨t, ht⟩ := Option.isSome_iff_exists.1 hm
      have hhead : (some m).elim [] (fun m => pathsPreOrder mem (rank m + 1) m) =
          pathsPreOrder mem (rank m + 1) m := rfl
      rw [List.flatMap_cons, hhead, pathsPreOrder_succ mem (rank m) m t ht] at hlen
      simp only [List.length_append, List.length_cons] at hlen
      omega
  | succ n ih =>
    intro stk calls fuel hlive hlen hfuel
    cases stk with
    | nil => simp at hlen
    | cons e rest =>
      obtain ⟨m, rfl, hm⟩ := hlive e (List.mem_cons_self _ _)
      obtain ⟨t, ht⟩ := Option.isSome_iff_exists.1 hm
      obtain ⟨f, rfl⟩ : ∃ f, fuel = f + 1 := ⟨fuel - 1, by omega⟩
      have hmembers : (t.memberTypes.take t.memberCount).reverse.flatMap
            (fun member => member.elim [] (pathsPreOrder mem (rank m))) =
          (t.memberTypes.take t.memberCount).reverse.flatMap
            (fun e => e.elim [] fun m2 => pathsPreOrder mem (rank m2 + 1) m2) := by
        apply List.flatMap_congr
        intro x hx
        obtain ⟨m2, rfl, _, hr⟩ := (hwf m t ht).2 x (List.mem_reverse.1 hx)
        exact pathsPreOrder_depth mem rank hwf (rank m) m2 (rank m2 + 1) hr (by omega)
      have hhead : (some m).elim [] (fun m => pathsPreOrder mem (rank m + 1) m) =
          m :: (t.memberTypes.take t.memberCount).reverse.flatMap
            (fun e => e.elim [] fun m2 => pathsPreOrder mem (rank m2 + 1) m2) := by
        rw [← hmembers]
        exact pathsPreOrder_succ mem (rank m) m t ht
      rw [List.flatMap_cons, hhead] at hlen ⊢
      have hstep : visitMemoryBlockPreOrderDFS.loop mem (f + 1) (some m :: rest) calls =
          visitMemoryBlockPreOrderDFS.loop mem f
            ((t.memberTypes.take t.memberCount).reverse ++ rest) (calls ++ [m]) := by
        simp only [visitMemoryBlockPreOrderDFS.loop, Option.some_bind, ht,
          (hwf m t ht).1, if_true]
      rw [hstep, ih _ (calls ++ [m]) f]
      · rw [List.flatMap_append]
        simp only [List.append_assoc, List.singleton_append, List.cons_append,
          List.nil_append]
      · intro e he
        rcases List.mem_append.1 he with h | h
        · obtain ⟨m2, rfl, hl, _⟩ := (hwf m t ht).2 e (List.mem_reverse.1 h)
          exact ⟨m2, rfl, hl⟩
        · exact hlive e (List.mem_cons_of_mem _ h)
      · rw [List.flatMap_append, List.length_append]
        simp only [List.cons_append, List.length_cons, List.length_append] at hlen
        omega
      · omega

theorem pathsPreOrder_count (mem : Nat → Option SType) (v : Nat) (d : Nat) :
    ∀ a : Nat, (pathsPreOrder mem d a).count v = pathCount mem d a v := by
  induction d with
  | zero => intro a; simp [pathsPreOrder, pathCount]
  | succ d ih =>
    intro a
    cases hmem : mem a with
    | none => simp only [pathsPreOrder, pathCount, hmem, List.count_nil]
    | some t =>
      rw [pathsPreOrder_succ mem d a t hmem]
      simp only [pathCount, hmem]
      rw [List.count_cons, List.count_flatMap, List.map_reverse, List.sum_reverse]
      have hmap : (t.memberTypes.take t.memberCount).map
            (List.count v ∘ fun member => member.elim [] (pathsPreOrder mem d)) =
          (t.memberTypes.take t.memberCount).map
            (fun member => member.elim 0 fun m => pathCount mem d m v) := by
        apply List.map_congr_left
        intro x _
        cases x with
        | none => simp [Option.elim]
        | some m => simpa [Option.elim] using ih m
      rw [hmap, Nat.add_comm]
      simp only [beq_iff_eq]

theorem pathsPreOrder_member_after (mem : Nat → Option SType) (rank : Nat → Nat)
    (hwf : ∀ a t, mem a = some t → t.memberCount ≤ t.memberTypes.length ∧
      ∀ e ∈ t.memberTypes.take t.memberCount,
        ∃ m, e = some m ∧ (mem m).isSome = true ∧ rank m < rank a)
    (a m : Nat) (ta : SType) (hta : mem a = some ta)
    (hm : some m ∈ ta.memberTypes.take ta.memberCount) (d : Nat) :
    ∀ r : Nat, rank r < d → a ∈ pathsPreOrder mem d r →
      ∃ pre post, pathsPreOrder mem d r = pre ++ a :: post ∧ m ∈ post := by
  induction d with
  | zero => intro r h; omega
  | succ d ih =>
    intro r hr ha
    cases hmem : mem r with
    | none => simp [pathsPreOrder, hmem] at ha
    | some t =>
      rw [pathsPreOrder_succ mem d r t hmem] at ha ⊢
      rcases List.mem_cons.1 ha with h | h
      · subst h
        have htt : ta = t := Option.some.inj (hta.symm.trans hmem)
        subst htt
        refine ⟨[], _, rfl, ?_⟩
        obtain ⟨m2, h2, hlive, hrm⟩ := (hwf a ta hta).2 (some m) hm
        obtain rfl : m = m2 := Option.some.inj h2
        obtain ⟨tm, htm⟩ := Option.isSome_iff_exists.1 hlive
        obtain ⟨d2, rfl⟩ : ∃ d2, d = d2 + 1 := ⟨d - 1, by omega⟩
        refine List.mem_flatMap.2 ⟨some m, List.mem_reverse.2 hm, ?_⟩
        show m ∈ pathsPreOrder mem (d2 + 1) m
        rw [pathsPreOrder_succ mem d2 m tm htm]
        exact List.mem_cons_self _ _
      · obtain ⟨x, hx, hax⟩ := List.mem_flatMap.1 h
        obtain ⟨m2, rfl, _, hrm⟩ := (hwf r t hmem).2 x (List.mem_reverse.1 hx)
        obtain ⟨pre, post, hsplit, hpost⟩ := ih m2 (by omega) hax
        obtain ⟨s, u, hsu⟩ := List.append_of_mem hx
        refine ⟨r :: (s.flatMap fun member => member.elim [] (pathsPreOrder mem d)) ++ pre,
          post ++ u.flatMap fun member => member.elim [] (pathsPreOrder mem d), ?_,
          List.mem_append_left _ hpost⟩
        rw [hsu, List.flatMap_append, List.flatMap_cons]
        have hx2 : (some m2).elim [] (pathsPreOrder mem d) = pre ++ a :: post := hsplit
        rw [hx2]
        simp only [List.append_assoc, List.cons_append]

/-- C25 (amended): for a memory block whose type graph is acyclic (`rank` falls from a node to
each of its members) with every member pointer live, `visitMemoryBlockPreOrderDFS` returns
once it may run for as many iterations as there are paths from the root; the callback is
invoked once per path from the root, a node before the nodes reached through it, so the number
of invocations on a node is the number of paths from the root to it; the one invocation on a
member reached by one path only comes after an invocation on the struct node that has it; for
a block with no type the callback is never invoked. -/
theorem visitMemoryBlockPreOrderDFS_contract (mem : Nat → Option SType) (rank : Nat → Nat)
    (root : Nat) (hroot : (mem root).isSome = true)
    (hwf : ∀ a t, mem a = some t → t.memberCount ≤ t.memberTypes.length ∧
      ∀ e ∈ t.memberTypes.take t.memberCount,
        ∃ m, e = some m ∧ (mem m).isSome = true ∧ rank m < rank a) :
    (∀ fuel : Nat, (pathsPreOrder mem (rank root + 1) root).length ≤ fuel →
      visitMemoryBlockPreOrderDFS mem fuel { type := some root } =
        some (pathsPreOrder mem (rank root + 1) root)) ∧
    (∀ v : Nat, (pathsPreOrder mem (rank root + 1) root).count v =
      pathCount mem (rank root + 1) root v) ∧
    (∀ (a m : Nat) (ta : SType), a ∈ pathsPreOrder mem (rank root + 1) root →
      mem a = some ta → some m ∈ ta.memberTypes.take ta.memberCount →
      pathCount mem (rank root + 1) root m = 1 →
      ∃ pre post, pathsPreOrder mem (rank root + 1) root = pre ++ a :: post ∧
        m ∈ post ∧ m ∉ pre ∧ m ≠ a) ∧
    (∀ fuel : Nat, visitMemoryBlockPreOrderDFS mem fuel { type := none } = some []) := by
  refine ⟨?_, ?_, ?_, ?_⟩
  · intro fuel hfuel
    have h := loop_spec mem rank hwf _ [some root] [] fuel
      (by
        intro e he
        rw [List.mem_singleton] at he
        exact ⟨root, he, hroot⟩) rfl
      (by simpa [Option.elim] using hfuel)
    simpa [visitMemoryBlockPreOrderDFS, Option.elim] using h
  · intro v
    exact pathsPreOrder_count mem v _ root
  · intro a m ta ha hta hm hone
    obtain ⟨pre, post, hsplit, hpost⟩ :=
      pathsPreOrder_member_after mem rank hwf a m ta hta hm _ root (Nat.lt_succ_self _) ha
    rw [← pathsPreOrder_count, hsplit, List.count_append, List.count_cons] at hone
    have hp : 0 < post.count m := List.count_pos_iff.2 hpost
    have hma : m ≠ a := by
      intro hma
      subst hma
      simp only [beq_self_eq_true, if_true] at hone
      omega
    have hbeq : (a == m) = false := beq_false_of_ne (Ne.symm hma)
    rw [hbeq] at hone
    simp only [Bool.false_eq_true, if_false, Nat.add_zero] at hone
    refine ⟨pre, post, hsplit, hpost, ?_, hma⟩
    apply List.count_eq_zero.1
    omega
  · intro fuel
    cases fuel <;> rfl

theorem exampleTypeTree_acyclic :
    ∀ a t, exampleTypeTree a = some t → t.memberCount ≤ t.memberTypes.length ∧
      ∀ e ∈ t.memberTypes.take t.memberCount,
        ∃ m, e = some m ∧ (exampleTypeTree m).isSome = true ∧
          exampleRank m < exampleRank a := by
  intro a t h
  simp only [exampleTypeTree] at h
  split_ifs at h with h0 h1 h2 h3
  · subst h0
    cases h
    refine ⟨by decide, ?_⟩
    intro e he
    simp only [List.take, List.mem_cons, List.mem_singleton, List.not_mem_nil, or_false] at he
    rcases he with rfl | rfl
    · exact ⟨1, rfl, by decide, by decide⟩
    · exact ⟨2, rfl, by decide, by decide⟩
  · subst h1
    cases h
    refine ⟨by decide, ?_⟩
    intro e he
    simp only [List.take, List.mem_cons, List.mem_singleton, List.not_mem_nil, or_false] at he
    subst he
    exact ⟨3, rfl, by decide, by decide⟩
  · cases h
    exact ⟨by decide, fun e he => by simp at he⟩
  · cases h
    exact ⟨by decide, fun e he => by simp at he⟩

/-- Witness of `visitMemoryBlockPreOrderDFS_contract`: on the tree 0 → (1 → 3), 2 the
callback is invoked on 0, 2, 1, 3 in this order, each struct node before its members. -/
theorem visitMemoryBlockPreOrderDFS_contract_witness :
    visitMemoryBlockPreOrderDFS exampleTypeTree 4 { type := some 0 } =
        some (pathsPreOrder exampleTypeTree (exampleRank 0 + 1) 0) ∧
    pathsPreOrder exampleTypeTree (exampleRank 0 + 1) 0 = [0, 2, 1, 3] :=
  ⟨(visitMemoryBlockPreOrderDFS_contract exampleTypeTree exampleRank 0 (by decide)
      exampleTypeTree_acyclic).1 4 (by decide), by decide⟩

/-- C25 (as stated, refuted): in the acyclic type graph where the struct at 0 has the members
1 and 2 and the struct at 1 has the member 2, the callback is invoked on 0, 2, 1, 2 in this
order: on the node 2, a member of the struct node 1, before it is invoked on the node 1. -/
theorem visitMemoryBlockPreOrderDFS_shared_member_counterexample :
    visitMemoryBlockPreOrderDFS exampleSharedMember 4 { type := some 0 } =
      some [0, 2, 1, 2] ∧
    (exampleSharedMember 1).map (fun t => t.memberTypes.take t.memberCount) =
      some [some 2] ∧
    ([0, 2, 1, 2].indexOf 2 = 1 ∧ [0, 2, 1, 2].indexOf 1 = 2) ∧
    (∀ a : Fin 3, ∀ t, exampleSharedMember a = some t →
      t.memberCount ≤ t.memberTypes.length ∧
      ∀ e ∈ t.memberTypes.take t.memberCount,
        ∃ m : Fin 3, e = some m.val ∧ exampleRank m < exampleRank a) := by
  refine ⟨by decide, by decide, by decide, ?_⟩
  decide

end nbl
